import Mathlib

/-!
# Verification of the ilograph-cli core against its specification

This file embeds the core data model and operations of the `ilograph_cli`
Python package (reference-expression rewriting, document validation,
resource/relation mutations, and the mutation-runner write gate) as
executable Lean definitions, and proves or refutes the specified claims
about them.

Conventions of the embedding:
* Python strings are `String`/`List Char`; machine behaviour that matters
  (regex scanning, boundary classes) is spelled out character by character.
* The untyped YAML document model (`ruamel` `CommentedMap`/`CommentedSeq`)
  is the inductive `YNode`: ordered association lists for mappings, lists
  for sequences, and scalars carrying their single-quote flag.
* In-place mutation becomes explicit state passing: a Python function that
  mutates the document and returns `bool` (or raises `ValidationError`)
  becomes a Lean function returning `Except ValErr (YNode × Bool)`.
* Python object identity (`is`) on document nodes is represented by node
  paths (index lists) in the document tree, which is faithful for
  documents loaded from YAML without aliased nodes.
-/

namespace IlographCli

/-! ## Reference rewriting (`core/references.py`)

`_IDENT_BOUNDARY_CHARS = r"A-Za-z0-9_.:-"`: the identifier-boundary
character class used by `replace_reference_identifier`. -/

def isBoundaryChar (c : Char) : Bool :=
  ('A' ≤ c && c ≤ 'Z') || ('a' ≤ c && c ≤ 'z') || ('0' ≤ c && c ≤ '9') ||
    c = '_' || c = '.' || c = ':' || c = '-'

/-- The negative lookbehind `(?<![A-Za-z0-9_.:-])`: satisfied when there is
no preceding character, or the preceding character is outside the class. -/
def prevOk (prev : Option Char) : Bool :=
  match prev with
  | none => true
  | some c => !isBoundaryChar c

/-- The negative lookahead `(?![A-Za-z0-9_.:-])` applied to the rest of the
input after a candidate match. -/
def nextOk (rest : List Char) : Bool :=
  match rest.head? with
  | none => true
  | some c => !isBoundaryChar c

/-- One candidate match position of `re.sub`'s scan: the pattern
`(?<!B)old(?!B)` matches at the head of `s` in left context `prev`. -/
def matchCond (old : List Char) (prev : Option Char) (s : List Char) : Bool :=
  !old.isEmpty && old.isPrefixOf s && prevOk prev && nextOk (s.drop old.length)

/-- The left-to-right scan performed by
`re.compile(rf"(?<![B]){re.escape(old)}(?![B])").sub(new, raw)`:
at each position, if the literal `old` matches with both boundary
lookarounds satisfied, emit `new` and resume after the match (the character
preceding the resume point in the original string is the last character of
`old`); otherwise copy one character. -/
def substScan (old new : List Char) (prev : Option Char) (s : List Char) :
    List Char :=
  match s with
  | [] => []
  | c :: rest =>
    if matchCond old prev (c :: rest) then
      new ++ substScan old new old.getLast? ((c :: rest).drop old.length)
    else
      c :: substScan old new (some c) rest
termination_by s.length
decreasing_by
  · simp only [List.length_drop, List.length_cons]
    have hne : old ≠ [] := by
      rename_i h
      simp [matchCond] at h
      intro hcon
      simp [hcon] at h
    have : 0 < old.length := List.length_pos.mpr hne
    omega
  · simp

/-- `replace_reference_identifier(raw, old, new)` from
`core/references.py`: identity when `old == new`, otherwise the
boundary-guarded literal substitution.  (The embedding covers non-empty
`old`; for `old = ""` the Python regex inserts `new` at boundary positions,
a case no caller exercises since identifiers are non-empty.) -/
def replace_reference_identifier (raw old new : String) : String :=
  if old = new then raw
  else ⟨substScan old.data new.data none raw.data⟩

/-! ### Spec-side substitution relation (for claim C2)

The spec states: "a match is replaced only if the character immediately
before and after it (if any) is not in the identifier-boundary set".
`TokenSubst old new prev s out` is the loose relational rendering of that
sentence: `out` arises from `s` by copying characters and by substituting
`new` for occurrences of `old` whose immediate neighbours (tracked on the
left by `prev`) are absent or outside the boundary set.  It does not pin
down which valid occurrences are replaced, so it expresses exactly the
"only at boundary-valid occurrences" discipline. -/
inductive TokenSubst (old new : List Char) :
    Option Char → List Char → List Char → Prop where
  | nil (prev : Option Char) : TokenSubst old new prev [] []
  | keep (prev : Option Char) (c : Char) (rest out : List Char) :
      TokenSubst old new (some c) rest out →
      TokenSubst old new prev (c :: rest) (c :: out)
  | subst (prev : Option Char) (rest out : List Char) :
      old ≠ [] →
      prevOk prev = true →
      nextOk rest = true →
      TokenSubst old new old.getLast? rest out →
      TokenSubst old new prev (old ++ rest) (new ++ out)

lemma matchCond_decomp {old : List Char} {prev : Option Char}
    {s : List Char} (h : matchCond old prev s = true) :
    old ≠ [] ∧ (∃ t, s = old ++ t ∧ t = s.drop old.length) ∧
      prevOk prev = true ∧ nextOk (s.drop old.length) = true := by
  simp only [matchCond, Bool.and_eq_true, List.isEmpty_iff,
    Bool.not_eq_true', Bool.not_eq_false] at h
  obtain ⟨⟨⟨hne, hpre⟩, hprev⟩, hnext⟩ := h
  have hpre' := List.isPrefixOf_iff_prefix.mp hpre
  obtain ⟨t, ht⟩ := hpre'
  refine ⟨by simpa using hne, ⟨t, ht.symm, ?_⟩, hprev, hnext⟩
  subst ht
  simp

lemma substScan_nil (old new : List Char) (prev : Option Char) :
    substScan old new prev [] = [] := by
  rw [substScan]

lemma substScan_cons_match {old new : List Char} {prev : Option Char}
    {c : Char} {rest : List Char}
    (h : matchCond old prev (c :: rest) = true) :
    substScan old new prev (c :: rest) =
      new ++ substScan old new old.getLast? ((c :: rest).drop old.length) := by
  rw [substScan]
  simp [h]

lemma substScan_cons_keep {old new : List Char} {prev : Option Char}
    {c : Char} {rest : List Char}
    (h : matchCond old prev (c :: rest) = false) :
    substScan old new prev (c :: rest) = c :: substScan old new (some c) rest := by
  rw [substScan]
  simp [h]

lemma tokenSubst_substScan_aux (old new : List Char) (hold : old ≠ []) :
    ∀ (n : Nat) (s : List Char) (prev : Option Char), s.length ≤ n →
      TokenSubst old new prev s (substScan old new prev s) := by
  intro n
  induction n with
  | zero =>
    intro s prev hs
    have : s = [] := List.length_eq_zero.mp (Nat.le_zero.mp hs)
    subst this
    rw [substScan_nil]
    exact .nil prev
  | succ n ih =>
    intro s prev hs
    match s with
    | [] =>
      rw [substScan_nil]
      exact .nil prev
    | c :: rest =>
      cases h : matchCond old prev (c :: rest) with
      | false =>
        rw [substScan_cons_keep h]
        exact .keep prev c rest _ (ih rest (some c) (by simpa using hs))
      | true =>
        rw [substScan_cons_match h]
        obtain ⟨-, ⟨t, ht, htd⟩, hprev, hnext⟩ := matchCond_decomp h
        rw [ht, List.drop_left]
        have htlen : t.length < (c :: rest).length := by
          rw [htd]
          simp only [List.length_drop, List.length_cons]
          have : 0 < old.length := List.length_pos.mpr hold
          omega
        exact .subst prev t _ hold hprev (htd ▸ hnext)
          (ih t old.getLast? (by omega))

/-- The scan realises the spec-side substitution relation: every output of
`substScan` is obtained from the input by replacing `old` only at
boundary-valid occurrences. -/
lemma tokenSubst_substScan (old new : List Char) (hold : old ≠ [])
    (s : List Char) (prev : Option Char) :
    TokenSubst old new prev s (substScan old new prev s) :=
  tokenSubst_substScan_aux old new hold s.length s prev le_rfl

/-! ### No-match characterisation (for claim C3)

`noMatchFrom old prev s` states that the regex scan finds no boundary-valid
occurrence of `old` anywhere in `s` when the character preceding `s` is
`prev`. -/
def noMatchFrom (old : List Char) : Option Char → List Char → Prop
  | _, [] => True
  | prev, c :: rest =>
      matchCond old prev (c :: rest) = false ∧ noMatchFrom old (some c) rest

lemma substScan_eq_self {old new : List Char} :
    ∀ (s : List Char) (prev : Option Char),
      noMatchFrom old prev s → substScan old new prev s = s
  | [], _, _ => substScan_nil old new _
  | c :: rest, prev, h => by
    rw [substScan_cons_keep h.1, substScan_eq_self rest (some c) h.2]

lemma noMatchFrom_of_matchCond_false {old : List Char} {s : List Char}
    {p p' : Option Char} (h : noMatchFrom old p s)
    (hm : matchCond old p' s = false) : noMatchFrom old p' s := by
  cases s with
  | nil => trivial
  | cons c rest => exact ⟨hm, h.2⟩

lemma matchCond_false_of_prevB {old : List Char} {c : Char}
    (hB : isBoundaryChar c = true) (s : List Char) :
    matchCond old (some c) s = false := by
  simp [matchCond, prevOk, hB]

lemma matchCond_false_of_head_notB {old : List Char} (hold : old ≠ [])
    (holdB : ∀ a ∈ old, isBoundaryChar a = true) {s : List Char}
    (hs : ∀ x, s.head? = some x → isBoundaryChar x = false)
    (p : Option Char) : matchCond old p s = false := by
  match old, hold with
  | o :: ot, _ =>
    cases s with
    | nil => simp [matchCond, List.isPrefixOf]
    | cons x rest =>
      have hxB : isBoundaryChar x = false := hs x rfl
      have hoB : isBoundaryChar o = true := holdB o (by simp)
      have : (o == x) = false := by
        cases h : o == x with
        | true =>
          have : o = x := by simpa using h
          rw [this, hxB] at hoB
          exact absurd hoB (by simp)
        | false => rfl
      simp [matchCond, List.isPrefixOf_cons₂, this]

/-- Scanning with a boundary character on the left copies a prefix made of
boundary characters verbatim and continues after it. -/
lemma substScan_copy_boundary {old new : List Char} :
    ∀ (t : List Char) (c₀ : Char) (s : List Char),
      (∀ a ∈ t, isBoundaryChar a = true) → isBoundaryChar c₀ = true →
      t.isPrefixOf s = true →
      substScan old new (some c₀) s =
        t ++ substScan old new (some (t.getLastD c₀)) (s.drop t.length)
  | [], c₀, s, _, _, _ => by simp [List.getLastD]
  | a :: t', c₀, s, ht, hc, hpre => by
    match s with
    | [] => simp [List.isPrefixOf] at hpre
    | x :: s' =>
      rw [List.isPrefixOf_cons₂, Bool.and_eq_true, beq_iff_eq] at hpre
      obtain ⟨rfl, hpre'⟩ := hpre
      rw [substScan_cons_keep (matchCond_false_of_prevB hc _),
        substScan_copy_boundary t' a s'
          (fun b hb => ht b (List.mem_cons_of_mem _ hb)) (ht a (by simp)) hpre']
      simp only [List.getLastD_cons, List.length_cons, List.drop_succ_cons,
        List.cons_append]

/-- A boundary-charset prefix test is unaffected by scanning in a
boundary-character left context. -/
lemma isPrefixOf_substScan_iff {old new : List Char} :
    ∀ (t : List Char) (c₀ : Char) (s : List Char),
      (∀ a ∈ t, isBoundaryChar a = true) → isBoundaryChar c₀ = true →
      t.isPrefixOf (substScan old new (some c₀) s) = t.isPrefixOf s
  | [], _, _, _, _ => by simp [List.isPrefixOf_nil_left]
  | a :: t', c₀, s, ht, hc => by
    match s with
    | [] => rw [substScan_nil]
    | x :: s' =>
      rw [substScan_cons_keep (matchCond_false_of_prevB hc _),
        List.isPrefixOf_cons₂, List.isPrefixOf_cons₂]
      by_cases hax : a = x
      · subst hax
        rw [isPrefixOf_substScan_iff t' a s'
          (fun b hb => ht b (List.mem_cons_of_mem _ hb)) (ht a (by simp))]
      · have : (a == x) = false := by simpa using hax
        rw [this]
        simp

lemma noMatchFrom_append_block {old : List Char} :
    ∀ (u : List Char) (prev : Option Char) (w : List Char),
      (∀ a ∈ u, isBoundaryChar a = true) →
      matchCond old prev (u ++ w) = false →
      (∀ c, isBoundaryChar c = true → noMatchFrom old (some c) w) →
      (u = [] → noMatchFrom old prev w) →
      noMatchFrom old prev (u ++ w)
  | [], prev, w, _, _, _, h0 => by simpa using h0 rfl
  | a :: u', prev, w, hu, hmc, hB, _ => by
    refine ⟨by simpa using hmc, ?_⟩
    exact noMatchFrom_append_block u' (some a) w
      (fun b hb => hu b (List.mem_cons_of_mem _ hb))
      (matchCond_false_of_prevB (hu a (by simp)) _)
      hB
      (fun _ => hB a (hu a (by simp)))

lemma matchCond_eq_false_of_nextOk {old : List Char} {prev : Option Char}
    {s : List Char} (h : nextOk (s.drop old.length) = false) :
    matchCond old prev s = false := by
  simp [matchCond, h]

lemma matchCond_eq_false_of_not_prefix {old : List Char} {prev : Option Char}
    {s : List Char} (h : old.isPrefixOf s = false) :
    matchCond old prev s = false := by
  simp [matchCond, h]

lemma matchCond_eq_false_of_prevOk {old : List Char} {prev : Option Char}
    {s : List Char} (h : prevOk prev = false) :
    matchCond old prev s = false := by
  simp [matchCond, h]

lemma nextOk_false_cons {d : Char} {ds : List Char}
    (h : isBoundaryChar d = true) : nextOk (d :: ds) = false := by
  simp [nextOk, h]

lemma getLastD_boundary :
    ∀ (t : List Char) (c : Char), (∀ a ∈ t, isBoundaryChar a = true) →
      isBoundaryChar c = true → isBoundaryChar (t.getLastD c) = true
  | [], _, _, hc => hc
  | a :: t', c, ht, _ => by
    rw [List.getLastD_cons]
    exact getLastD_boundary t' a
      (fun b hb => ht b (List.mem_cons_of_mem _ hb)) (ht a (by simp))

/-- After a full scan there is no boundary-valid occurrence of `old` left,
provided `old` and `new` are non-empty words over the boundary character
set and differ.  This is the heart of the idempotence law. -/
lemma noMatchFrom_substScan_aux {old new : List Char}
    (hold : old ≠ []) (hne : old ≠ new)
    (holdB : ∀ a ∈ old, isBoundaryChar a = true)
    (hnewB : ∀ a ∈ new, isBoundaryChar a = true) :
    ∀ (n : Nat) (s : List Char) (prev : Option Char), s.length ≤ n →
      noMatchFrom old prev (substScan old new prev s) := by
  intro n
  induction n with
  | zero =>
    intro s prev hs
    have : s = [] := List.length_eq_zero.mp (Nat.le_zero.mp hs)
    subst this
    rw [substScan_nil]
    trivial
  | succ n ih =>
    intro s prev hs
    match s with
    | [] =>
      rw [substScan_nil]
      trivial
    | c :: rest =>
      cases h : matchCond old prev (c :: rest) with
      | false =>
        rw [substScan_cons_keep h]
        have hrest : rest.length ≤ n := by
          simp only [List.length_cons] at hs
          omega
        refine ⟨?_, ih rest (some c) hrest⟩
        by_cases hp : prevOk prev = true
        · by_cases hpre :
            old.isPrefixOf (c :: substScan old new (some c) rest) = true
          · obtain ⟨o, ot, ho⟩ := List.exists_cons_of_ne_nil hold
            rw [ho, List.isPrefixOf_cons₂, Bool.and_eq_true, beq_iff_eq]
              at hpre
            obtain ⟨rfl, hpre2⟩ := hpre
            have hcB : isBoundaryChar o = true := holdB o (ho ▸ by simp)
            have hotB : ∀ a ∈ ot, isBoundaryChar a = true :=
              fun a ha => holdB a (ho ▸ List.mem_cons_of_mem _ ha)
            rw [isPrefixOf_substScan_iff ot o rest hotB hcB] at hpre2
            have hpfxorig : old.isPrefixOf (o :: rest) = true := by
              rw [ho, List.isPrefixOf_cons₂]
              simp [hpre2]
            have hnextF : nextOk ((o :: rest).drop old.length) = false := by
              rw [matchCond, hpfxorig, hp] at h
              simpa [hold] using h
            rw [ho, List.length_cons, List.drop_succ_cons] at hnextF
            obtain ⟨d, ds, hds⟩ : ∃ d ds, rest.drop ot.length = d :: ds := by
              cases hrd : rest.drop ot.length with
              | nil => rw [hrd] at hnextF; simp [nextOk] at hnextF
              | cons d ds => exact ⟨d, ds, rfl⟩
            have hdB : isBoundaryChar d = true := by
              rw [hds] at hnextF
              simpa [nextOk] using hnextF
            apply matchCond_eq_false_of_nextOk
            rw [ho, List.length_cons, List.drop_succ_cons,
              substScan_copy_boundary ot o rest hotB hcB hpre2,
              List.drop_left, hds,
              substScan_cons_keep
                (matchCond_false_of_prevB (getLastD_boundary ot o hotB hcB) _)]
            exact nextOk_false_cons hdB
          · exact matchCond_eq_false_of_not_prefix (Bool.eq_false_iff.mpr hpre)
        · exact matchCond_eq_false_of_prevOk (Bool.eq_false_iff.mpr hp)
      | true =>
        rw [substScan_cons_match h]
        obtain ⟨-, ⟨t, ht, htd⟩, hprev, hnext⟩ := matchCond_decomp h
        rw [← htd] at hnext ⊢
        have htlen : t.length ≤ n := by
          have : 0 < old.length := List.length_pos.mpr hold
          rw [htd]
          simp only [List.length_drop, List.length_cons]
          simp only [List.length_cons] at hs
          omega
        have hlast : old.getLast? = some (old.getLast hold) :=
          List.getLast?_eq_getLast old hold
        have hlastB : isBoundaryChar (old.getLast hold) = true :=
          holdB _ (List.getLast_mem hold)
        have IH : noMatchFrom old old.getLast? (substScan old new old.getLast? t) :=
          ih t old.getLast? htlen
        have hhead : ∀ x, (substScan old new old.getLast? t).head? = some x →
            isBoundaryChar x = false := by
          cases t with
          | nil =>
            rw [substScan_nil]
            intro x hx
            simp at hx
          | cons d ds =>
            have hdB : isBoundaryChar d = false := by
              simpa [nextOk] using hnext
            rw [hlast,
              substScan_cons_keep (matchCond_false_of_prevB hlastB _)]
            intro x hx
            simp only [List.head?_cons, Option.some.injEq] at hx
            rw [← hx]
            exact hdB
        have hanyB : ∀ cB, isBoundaryChar cB = true →
            noMatchFrom old (some cB) (substScan old new old.getLast? t) :=
          fun cB hcB =>
            noMatchFrom_of_matchCond_false IH (matchCond_false_of_prevB hcB _)
        have hwcase : noMatchFrom old prev (substScan old new old.getLast? t) :=
          noMatchFrom_of_matchCond_false IH
            (matchCond_false_of_head_notB hold holdB hhead prev)
        have hpos0 : matchCond old prev
            (new ++ substScan old new old.getLast? t) = false := by
          by_cases hp :
            old.isPrefixOf (new ++ substScan old new old.getLast? t) = true
          · have hpfx := List.isPrefixOf_iff_prefix.mp hp
            rcases Nat.lt_trichotomy old.length new.length with hlt | heq | hgt
            · apply matchCond_eq_false_of_nextOk
              rw [List.drop_append_of_le_length (le_of_lt hlt)]
              have hne' : new.drop old.length ≠ [] := by
                intro hcon
                have := congrArg List.length hcon
                simp only [List.length_drop, List.length_nil] at this
                omega
              obtain ⟨d, ds, hds⟩ := List.exists_cons_of_ne_nil hne'
              rw [hds]
              have hdB : isBoundaryChar d = true :=
                hnewB d (List.drop_subset _ _ (hds ▸ List.mem_cons_self d ds))
              exact nextOk_false_cons hdB
            · exfalso
              apply hne
              have heqtake := List.prefix_iff_eq_take.mp hpfx
              rw [heq, List.take_left] at heqtake
              exact heqtake
            · exfalso
              have heqtake := List.prefix_iff_eq_take.mp hpfx
              rw [List.take_append_eq_append_take,
                List.take_of_length_le (le_of_lt hgt)] at heqtake
              have hm : 0 < old.length - new.length := by omega
              have hW : (substScan old new old.getLast? t).take
                  (old.length - new.length) ≠ [] := by
                intro hcon
                rw [hcon] at heqtake
                have := congrArg List.length heqtake
                simp only [List.length_append, List.length_nil] at this
                omega
              obtain ⟨d, ds, hds⟩ := List.exists_cons_of_ne_nil hW
              have hdW : (substScan old new old.getLast? t).head? = some d := by
                cases hWc : substScan old new old.getLast? t with
                | nil => rw [hWc] at hds; simp at hds
                | cons w ws =>
                  rw [hWc, ← Nat.succ_pred_eq_of_pos hm,
                    List.take_succ_cons] at hds
                  injection hds with h1 _
                  rw [List.head?_cons, h1]
              have hdFalse : isBoundaryChar d = false := hhead d hdW
              have hdTrue : isBoundaryChar d = true := by
                refine holdB d ?_
                rw [heqtake, hds]
                exact List.mem_append_right _ (by simp)
              rw [hdTrue] at hdFalse
              exact absurd hdFalse (by simp)
          · exact matchCond_eq_false_of_not_prefix (Bool.eq_false_iff.mpr hp)
        exact noMatchFrom_append_block new prev _ hnewB hpos0 hanyB
          (fun _ => hwcase)

lemma noMatchFrom_substScan {old new : List Char}
    (hold : old ≠ []) (hne : old ≠ new)
    (holdB : ∀ a ∈ old, isBoundaryChar a = true)
    (hnewB : ∀ a ∈ new, isBoundaryChar a = true)
    (s : List Char) (prev : Option Char) :
    noMatchFrom old prev (substScan old new prev s) :=
  noMatchFrom_substScan_aux hold hne holdB hnewB s.length s prev le_rfl

lemma tokenSubst_refl (old new : List Char) :
    ∀ (s : List Char) (prev : Option Char), TokenSubst old new prev s s
  | [], prev => .nil prev
  | c :: rest, prev => .keep prev c rest rest (tokenSubst_refl old new rest (some c))

unseal substScan in
/-- **C2.** For every reference string and every pair of identifiers
`old`/`new`, `replace_reference_identifier` replaces `old` only at
occurrences whose immediately preceding and following characters (when
present) lie outside the identifier-boundary set `[A-Za-z0-9_.:-]` — its
output is related to its input by the spec-side relation `TokenSubst`,
which only ever substitutes at boundary-valid occurrences. In particular,
renaming resource id `db` to `postgres` rewrites the field value
`to: db` but leaves `to: db_replica` unchanged. -/
theorem c2_boundary_substitution :
    (∀ (raw old new : String), old.data ≠ [] →
      TokenSubst old.data new.data none raw.data
        (replace_reference_identifier raw old new).data) ∧
    replace_reference_identifier "to: db" "db" "postgres" = "to: postgres" ∧
    replace_reference_identifier "to: db_replica" "db" "postgres" =
      "to: db_replica" := by
  refine ⟨?_, by decide, by decide⟩
  intro raw old new hold
  by_cases hne : old = new
  · rw [replace_reference_identifier, if_pos hne]
    exact tokenSubst_refl old.data new.data raw.data none
  · rw [replace_reference_identifier, if_neg hne]
    exact tokenSubst_substScan old.data new.data hold raw.data none

/-- Witness for C2 at a concrete input. -/
theorem c2_boundary_substitution_witness :
    TokenSubst "db".data "postgres".data none "to: db".data
      (replace_reference_identifier "to: db" "db" "postgres").data :=
  c2_boundary_substitution.1 "to: db" "db" "postgres" (by decide)

unseal substScan in
/-- **C3 counterexample.** The claim "applying the rewrite twice equals
applying it once, for every string and every pair of identifiers" fails:
with `old = "a c"` (a legal identifier — a trimmed resource name may
contain a space) and `new = "c"`, rewriting `"a a c"` once yields `"a c"`,
and rewriting again yields `"c"`. -/
theorem c3_idempotence_counterexample :
    ¬ (replace_reference_identifier
          (replace_reference_identifier "a a c" "a c" "c") "a c" "c" =
        replace_reference_identifier "a a c" "a c" "c") := by
  decide

/-- **C3 (amended).** Idempotence of
`replace_reference_identifier` holds whenever `old` is non-empty and both
`old` and `new` consist only of identifier-boundary-set characters
`[A-Za-z0-9_.:-]` (as every word-shaped identifier does): applying the
rewrite twice equals applying it once. -/
theorem c3_idempotent_for_boundary_identifiers (raw old new : String)
    (hold : old.data ≠ [])
    (holdB : ∀ a ∈ old.data, isBoundaryChar a = true)
    (hnewB : ∀ a ∈ new.data, isBoundaryChar a = true) :
    replace_reference_identifier (replace_reference_identifier raw old new)
        old new = replace_reference_identifier raw old new := by
  by_cases hne : old = new
  · simp [replace_reference_identifier, hne]
  · have hne' : old.data ≠ new.data := by
      intro hcon
      apply hne
      cases old
      cases new
      exact congrArg String.mk (by simpa using hcon)
    rw [replace_reference_identifier, if_neg hne,
      replace_reference_identifier, if_neg hne]
    exact congrArg String.mk
      (substScan_eq_self _ _
        (noMatchFrom_substScan hold hne' holdB hnewB raw.data none))

/-- Witness for the amended C3 at a concrete input. -/
theorem c3_idempotent_for_boundary_identifiers_witness :
    replace_reference_identifier
        (replace_reference_identifier "app, db" "db" "postgres")
        "db" "postgres" =
      replace_reference_identifier "app, db" "db" "postgres" :=
  c3_idempotent_for_boundary_identifiers "app, db" "db" "postgres"
    (by decide) (by decide) (by decide)

/-! ## The untyped document model

`ruamel` round-trip documents are trees of `CommentedMap` (ordered string
key → value), `CommentedSeq`, and scalars.  `YNode` embeds the part of
that universe the ilograph documents use: string scalars carry their
single-quote flag (`SingleQuotedScalarString` vs plain scalar — Python
`==` ignores the flag), plus booleans and null.  Numeric scalars are not
used by the embedded claims and are outside the model. -/
inductive YNode where
  | str (s : String) (singleQuoted : Bool)
  | bool (b : Bool)
  | null
  | seq (items : List YNode)
  | map (entries : List (String × YNode))

mutual

/-- Python `==` on document values: scalar strings compare by content
(quote style is presentation metadata), everything else structurally. -/
def pyEq : YNode → YNode → Bool
  | .str a _, .str b _ => a == b
  | .bool a, .bool b => a == b
  | .null, .null => true
  | .seq a, .seq b => pyEqList a b
  | .map a, .map b => pyEqEntries a b
  | _, _ => false

/-- Elementwise Python `==` on sequenced values. -/
def pyEqList : List YNode → List YNode → Bool
  | [], [] => true
  | a :: as', b :: bs' => pyEq a b && pyEqList as' bs'
  | _, _ => false

/-- Entrywise Python `==` on ordered mappings (ilograph documents never
hold duplicate keys, and `dict` equality on equal key-sets reduces to
entrywise comparison). -/
def pyEqEntries : List (String × YNode) → List (String × YNode) → Bool
  | [], [] => true
  | (k, v) :: as', (k', v') :: bs' => k == k' && pyEq v v' && pyEqEntries as' bs'
  | _, _ => false

end

/-- `dict.get(key)` on an ordered mapping (first entry wins; YAML mappings
have unique keys). -/
def alGet : List (String × YNode) → String → Option YNode
  | [], _ => none
  | (k', v) :: rest, k => if k' = k then some v else alGet rest k

/-- `mapping[key] = value`: replace in place, else append. -/
def alSet : List (String × YNode) → String → YNode → List (String × YNode)
  | [], k, v => [(k, v)]
  | (k', v') :: rest, k, v =>
    if k' = k then (k', v) :: rest else (k', v') :: alSet rest k v

/-- `mapping.pop(key, None)`: drop the entry if present. -/
def alRemove : List (String × YNode) → String → List (String × YNode)
  | [], _ => []
  | (k', v') :: rest, k =>
    if k' = k then rest else (k', v') :: alRemove rest k

/-- `node.get(key)` on a document node (call sites are `isinstance`-guarded
mappings). -/
def YNode.get? : YNode → String → Option YNode
  | .map es, k => alGet es k
  | _, _ => none

/-- `"key" in node` membership test. -/
def YNode.hasKey : YNode → String → Bool
  | .map es, k => (alGet es k).isSome
  | _, _ => false

/-- User-facing `ValidationError` messages. -/
abbrev ValErr := String

lemma sizeOf_alGet {es : List (String × YNode)} {k : String} {v : YNode}
    (h : alGet es k = some v) : sizeOf v < sizeOf es := by
  induction es with
  | nil => simp [alGet] at h
  | cons e rest ih =>
    obtain ⟨k', v'⟩ := e
    rw [alGet] at h
    split at h
    · cases h
      simp
      omega
    · have := ih h
      simp
      omega

lemma sizeOf_get?_map {es : List (String × YNode)} {k : String} {v : YNode}
    (h : (YNode.map es).get? k = some v) : sizeOf v < sizeOf (YNode.map es) := by
  have := sizeOf_alGet (h : alGet es k = some v)
  simp
  omega

/-! ## Resource and perspective index (`core/index.py`) -/

/-- Python `str.isspace` characters relevant to `str.strip()`. -/
def isPySpace (c : Char) : Bool :=
  c = ' ' || c = '\t' || c = '\n' || c = '\r' || c = '\x0b' || c = '\x0c'

/-- Python `str.strip()`: drop leading and trailing whitespace. -/
def pyStrip (s : String) : String :=
  ⟨((s.data.dropWhile isPySpace).reverse.dropWhile isPySpace).reverse⟩

/-- `resource_identifier`: explicit stripped `id` if non-blank, else
stripped `name`, else none. -/
def resource_identifier (r : YNode) : Option String :=
  match r.get? "id" with
  | some (.str s _) =>
    if pyStrip s ≠ "" then some (pyStrip s)
    else
      match r.get? "name" with
      | some (.str n _) => if pyStrip n ≠ "" then some (pyStrip n) else none
      | _ => none
  | _ =>
    match r.get? "name" with
    | some (.str n _) => if pyStrip n ≠ "" then some (pyStrip n) else none
    | _ => none

/-- `perspective_identifier` — same id-then-name rule. -/
def perspective_identifier (p : YNode) : Option String :=
  resource_identifier p

/-- The stripped explicit `id` of a resource node, when present and
non-blank (the keys of `build_resource_id_index`). -/
def explicitId (r : YNode) : Option String :=
  match r.get? "id" with
  | some (.str s _) => if pyStrip s ≠ "" then some (pyStrip s) else none
  | _ => none

/-- `ResourceLocation`: identity of a node in the resource forest.  The
Python dataclass stores the node, its parent, the containing
`CommentedSeq` and index; object identity is captured here by `path`, the
chain of child indices from the top-level `resources` list. -/
structure ResourceLocation where
  identifier : String
  node : YNode
  parent : Option YNode
  path : List Nat
  pathStr : String

/-- `iter_resources`: depth-first walk of a resource forest, yielding only
mapping nodes that have an identifier, and descending only into `children`
values that are sequences. -/
def iterResources (parent : Option YNode) (pathPrefix : String)
    (base : List Nat) : Nat → List YNode → List ResourceLocation
  | _, [] => []
  | i, r :: rest =>
    (match hr : r with
     | .map es =>
       match resource_identifier r with
       | none => []
       | some ident =>
         let pathStr := pathPrefix ++ "[" ++ toString i ++ "]"
         let loc : ResourceLocation :=
           { identifier := ident, node := r, parent := parent,
             path := base ++ [i], pathStr := pathStr }
         loc ::
           (match hc : r.get? "children" with
            | some (.seq cs) =>
              iterResources (some r) (pathStr ++ ".children") (base ++ [i]) 0 cs
            | _ => [])
     | _ => []) ++ iterResources parent pathPrefix base (i + 1) rest
termination_by _ l => sizeOf l
decreasing_by
  · have h1 := sizeOf_get?_map (hr ▸ hc)
    subst hr
    simp at h1 ⊢
    omega
  · simp

/-- `build_resource_locations(document)`. -/
def buildResourceLocations (doc : YNode) : List ResourceLocation :=
  match doc.get? "resources" with
  | some (.seq rs) => iterResources none "resources" [] 0 rs
  | _ => []

/-- `get_single_resource_by_id`: the traversal-ordered bucket of
`build_resource_id_index` for `rid`, with the zero/multiple-match
errors. -/
def getSingleResourceById (doc : YNode) (rid : String) :
    Except ValErr ResourceLocation :=
  let found := (buildResourceLocations doc).filter
    (fun loc => explicitId loc.node = some rid)
  match found with
  | [] =>
    .error s!"resource id not found: {rid} (expected exact match in resources[].id)"
  | loc :: rest =>
    if rest.isEmpty then .ok loc
    else
      .error (s!"resource id not unique: {rid} (" ++
        String.intercalate ", " (found.map (·.pathStr)) ++
        ") (set explicit unique ids)")

/-- `PerspectiveLocation`. -/
structure PerspectiveLocation where
  identifier : String
  node : YNode
  index : Nat

/-- One step of the `build_perspective_locations` loop: a mapping node
with an identifier yields a location at index `i`, everything else is
skipped. -/
def perspectiveHeadLocs (p : YNode) (i : Nat) : List PerspectiveLocation :=
  match p with
  | .map _ =>
    match perspective_identifier p with
    | some ident => [⟨ident, p, i⟩]
    | none => []
  | _ => []

/-- The enumeration loop of `build_perspective_locations`, starting at
index `i`. -/
def perspectiveLocsFrom : Nat → List YNode → List PerspectiveLocation
  | _, [] => []
  | i, p :: rest => perspectiveHeadLocs p i ++ perspectiveLocsFrom (i + 1) rest

/-- `build_perspective_locations(document)`. -/
def buildPerspectiveLocations (doc : YNode) : List PerspectiveLocation :=
  match doc.get? "perspectives" with
  | some (.seq ps) => perspectiveLocsFrom 0 ps
  | _ => []

/-- `get_single_perspective`: unique perspective by identifier or error. -/
def getSinglePerspective (doc : YNode) (ident : String) :
    Except ValErr PerspectiveLocation :=
  let candidates := (buildPerspectiveLocations doc).filter
    (fun item => item.identifier = ident)
  match candidates with
  | [] =>
    .error s!"perspective not found: {ident} (lookup checks id first, then name)"
  | item :: rest =>
    if rest.isEmpty then .ok item
    else
      .error (s!"perspective id not unique: {ident} (" ++
        String.intercalate ", " (candidates.map (fun c => toString c.index)) ++
        ") (set explicit unique ids)")

/-! ## Document surgery helpers

The Python operations mutate nodes through references; the functional
embedding locates nodes by path and rebuilds the tree along that path. -/

def listModify : List YNode → Nat → (YNode → YNode) → List YNode
  | [], _, _ => []
  | x :: xs, 0, g => g x :: xs
  | x :: xs, n + 1, g => x :: listModify xs n g

/-- Set the `children` key of a mapping node. -/
def setChildren (r : YNode) (cs : List YNode) : YNode :=
  match r with
  | .map es => .map (alSet es "children" (.seq cs))
  | other => other

/-- Node at a child-index path inside a resource forest. -/
def forestGet : List YNode → List Nat → Option YNode
  | _, [] => none
  | f, [i] => f[i]?
  | f, i :: rest =>
    match f[i]? with
    | some r =>
      match r.get? "children" with
      | some (.seq cs) => forestGet cs rest
      | _ => none
    | _ => none

/-- Apply `g` to the node at `path` in a resource forest. -/
def forestModifyNode : List YNode → List Nat → (YNode → YNode) → List YNode
  | f, [], _ => f
  | f, [i], g => listModify f i g
  | f, i :: rest, g =>
    listModify f i (fun r =>
      match r.get? "children" with
      | some (.seq cs) => setChildren r (forestModifyNode cs rest g)
      | _ => r)

/-- Apply `g` to the sequence containing the node at `path ++ [last]`:
`q = []` addresses the forest itself, otherwise the `children` list of the
node at `q`. -/
def forestModifyList (f : List YNode) (q : List Nat)
    (g : List YNode → List YNode) : List YNode :=
  match q with
  | [] => g f
  | _ =>
    forestModifyNode f q (fun r =>
      match r.get? "children" with
      | some (.seq cs) => setChildren r (g cs)
      | _ => r)

/-- Rebuild the document around its `resources` forest. -/
def withForest (doc : YNode) (g : List YNode → List YNode) : YNode :=
  match doc with
  | .map es =>
    match alGet es "resources" with
    | some (.seq rs) => .map (alSet es "resources" (.seq (g rs)))
    | _ => doc
  | _ => doc

/-- `container.pop(index)` for the node at `path`. -/
def removeNodeAt (doc : YNode) (path : List Nat) : YNode :=
  withForest doc (fun f => forestModifyList f path.dropLast
    (fun l => l.eraseIdx (path.getLastD 0)))

/-- Append `node` to the `children` of the node at `path`. -/
def appendChildAt (doc : YNode) (path : List Nat) (node : YNode) : YNode :=
  withForest doc (fun f => forestModifyNode f path (fun r =>
    match r.get? "children" with
    | some (.seq cs) => setChildren r (cs ++ [node])
    | _ => r))

/-- `ensure_children(resource)` from `core/index.py`: keep an existing
sequence, otherwise install a fresh empty one. -/
def ensureChildren (r : YNode) : YNode :=
  match r.get? "children" with
  | some (.seq _) => r
  | _ =>
    match r with
    | .map es => .map (alSet es "children" (.seq []))
    | other => other

def ensureChildrenAt (doc : YNode) (path : List Nat) : YNode :=
  withForest doc (fun f => forestModifyNode f path ensureChildren)

/-- After removing the node at `removed`, the path of a surviving node
(not below `removed`): a later sibling index on the shared spine shifts
down by one. -/
def adjustPathAfterRemove : List Nat → List Nat → List Nat
  | [i], t :: ts => if i < t then (t - 1) :: ts else t :: ts
  | r :: rs, t :: ts =>
    if r = t then t :: adjustPathAfterRemove rs ts else t :: ts
  | _, t => t

/-! ## Resource operations (`ops/resource_ops.py`) -/

lemma sizeOf_get? {r : YNode} {k : String} {v : YNode}
    (h : r.get? k = some v) : sizeOf v < sizeOf r := by
  match r, h with
  | .map es, h =>
    have := sizeOf_alGet (h : alGet es k = some v)
    simp
    omega

mutual

/-- `_is_descendant(ancestor, node)`: depth-first search of `ancestor`'s
`children` subtree for the target node.  Python compares nodes by object
identity (`child is node`); here the searched-for node is its path
(`target`), and `base` is the path of `ancestor`. -/
def isDescendant (ancestor : YNode) (base target : List Nat) : Bool :=
  match hc : ancestor.get? "children" with
  | some (.seq cs) => isDescendantList base target 0 cs
  | _ => false
termination_by sizeOf ancestor
decreasing_by
  have := sizeOf_get? hc
  simp at this ⊢
  omega

def isDescendantList (base target : List Nat) : Nat → List YNode → Bool
  | _, [] => false
  | i, .map es :: rest =>
    ((base ++ [i] == target) || isDescendant (.map es) (base ++ [i]) target)
      || isDescendantList base target (i + 1) rest
  | i, _ :: rest => false || isDescendantList base target (i + 1) rest
termination_by _ l => sizeOf l
decreasing_by
  all_goals simp
  all_goals omega

end

/-- `_clear_resource_style_for_inheritance`: drop the `style` key; report
whether anything was dropped. -/
def clearResourceStyle (r : YNode) : YNode × Bool :=
  if r.hasKey "style" then
    (match r with
     | .map es => (.map (alRemove es "style"), true)
     | other => (other, true))
  else (r, false)

/-- `has_children` condition of `delete_resource`: the `children` key holds
a sequence with at least one element. -/
def hasNonEmptyChildren (r : YNode) : Bool :=
  match r.get? "children" with
  | some (.seq cs) => !cs.isEmpty
  | _ => false

/-- `delete_resource(document, resource_id=..., delete_subtree=...)`. -/
def delete_resource (doc : YNode) (resourceId : String)
    (deleteSubtree : Bool) : Except ValErr (YNode × Bool) := do
  let loc ← getSingleResourceById doc resourceId
  if hasNonEmptyChildren loc.node && !deleteSubtree then
    throw "resource has children; pass --delete-subtree"
  return (removeNodeAt doc loc.path, true)

/-- `move_resource(document, resource_id=..., new_parent_id=...,
inherit_style_from_parent=...)`. -/
def move_resource (doc : YNode) (resourceId newParentId : String)
    (inheritStyle : Bool) : Except ValErr (YNode × Bool) := do
  let loc ← getSingleResourceById doc resourceId
  let tgt ← getSingleResourceById doc newParentId
  if loc.path = tgt.path then
    throw "resource cannot be parent of itself (same --id and --new-parent)"
  if isDescendant loc.node loc.path tgt.path then
    throw "resource cannot be moved under its own descendant (would create a cycle)"
  let doc₁ := ensureChildrenAt doc tgt.path
  let targetCount :=
    match (forestGet
        (match doc₁.get? "resources" with
         | some (.seq rs) => rs
         | _ => []) tgt.path).bind (fun r => r.get? "children") with
    | some (.seq cs) => cs.length
    | _ => 0
  if loc.path.dropLast = tgt.path ∧ loc.path.getLastD 0 = targetCount - 1 then
    if !inheritStyle then
      return (doc₁, false)
    else
      let changed := (clearResourceStyle loc.node).2
      return (withForest doc₁ (fun f => forestModifyNode f loc.path
        (fun r => (clearResourceStyle r).1)), changed)
  else
    let movedNode := if inheritStyle then (clearResourceStyle loc.node).1
      else loc.node
    let doc₂ := removeNodeAt doc₁ loc.path
    let tpath := adjustPathAfterRemove loc.path tgt.path
    return (appendChildAt doc₂ tpath movedNode, true)

lemma exceptBind_ok {α β : Type} (a : α) (f : α → Except ValErr β) :
    (Except.ok a >>= f : Except ValErr β) = f a := rfl

/-- **C5.** For every document and every pair of resources `A` and `B`
addressed by explicit id, `move_resource` moving `A` under `B` raises a
validation error (and, the embedding being functional, returns no mutated
document) whenever `B` is `A` itself or `B` is a descendant of `A` at any
depth, as found by the depth-first descendant search `_is_descendant`. -/
theorem c5_move_rejects_self_and_descendant (doc : YNode) (a b : String)
    (locA locB : ResourceLocation) (inherit : Bool)
    (hA : getSingleResourceById doc a = .ok locA)
    (hB : getSingleResourceById doc b = .ok locB)
    (h : locB.path = locA.path ∨
      isDescendant locA.node locA.path locB.path = true) :
    ∃ e, move_resource doc a b inherit = .error e := by
  rw [move_resource, hA, exceptBind_ok, hB, exceptBind_ok]
  rcases h with heq | hdesc
  · rw [if_pos heq.symm]
    exact ⟨_, rfl⟩
  · by_cases heq2 : locA.path = locB.path
    · rw [if_pos heq2]
      exact ⟨_, rfl⟩
    · rw [if_neg heq2, if_pos hdesc]
      exact ⟨_, rfl⟩

/-- A two-level resource tree used by witnesses: resource `a` with child
`b`. -/
def docAB : YNode :=
  .map [("resources", .seq
    [.map [("id", .str "a" false),
           ("children", .seq [.map [("id", .str "b" false)]])]])]

/-- The resource forest of `docAB`, evaluated: `a` at path `[0]` and its
child `b` at path `[0, 0]`. -/
lemma bl_docAB :
    buildResourceLocations docAB =
      [⟨"a", .map [("id", .str "a" false),
          ("children", .seq [.map [("id", .str "b" false)]])], none,
          [0], "resources[0]"⟩,
       ⟨"b", .map [("id", .str "b" false)],
          some (.map [("id", .str "a" false),
            ("children", .seq [.map [("id", .str "b" false)]])]),
          [0, 0], "resources[0].children[0]"⟩] := by
  simp [buildResourceLocations, iterResources, docAB, YNode.get?, alGet,
    resource_identifier, pyStrip, isPySpace]
  constructor <;> rfl

/-- Witness for C5: moving `a` under its own child `b` is rejected. -/
theorem c5_move_rejects_self_and_descendant_witness :
    ∃ e, move_resource docAB "a" "b" false = .error e := by
  apply c5_move_rejects_self_and_descendant docAB "a" "b"
    ⟨"a", .map [("id", .str "a" false),
      ("children", .seq [.map [("id", .str "b" false)]])], none,
      [0], "resources[0]"⟩
    ⟨"b", .map [("id", .str "b" false)],
      some (.map [("id", .str "a" false),
        ("children", .seq [.map [("id", .str "b" false)]])]),
      [0, 0], "resources[0].children[0]"⟩
    false
  · rw [getSingleResourceById, bl_docAB]
    simp [explicitId, YNode.get?, alGet, pyStrip, isPySpace]
  · rw [getSingleResourceById, bl_docAB]
    simp [explicitId, YNode.get?, alGet, pyStrip, isPySpace]
  · refine Or.inr ?_
    simp [isDescendant, isDescendantList, YNode.get?, alGet]

/-- **C9.** `delete_resource` without the delete-subtree flag raises only
when the resource's `children` key holds a non-empty sequence: a resource
whose `children` key is an empty sequence, is absent, or is not a sequence
at all is deleted without confirmation, and the result is exactly the
document with that one node removed. -/
theorem c9_delete_without_subtree (doc : YNode) (rid : String)
    (loc : ResourceLocation)
    (hloc : getSingleResourceById doc rid = .ok loc) :
    (hasNonEmptyChildren loc.node = false →
      delete_resource doc rid false = .ok (removeNodeAt doc loc.path, true)) ∧
    (hasNonEmptyChildren loc.node = true →
      ∃ e, delete_resource doc rid false = .error e) := by
  constructor
  · intro hchildren
    rw [delete_resource, hloc, exceptBind_ok, hchildren]
    rfl
  · intro hchildren
    rw [delete_resource, hloc, exceptBind_ok, hchildren]
    exact ⟨_, rfl⟩

/-- Resource `x` whose `children` key holds an empty sequence. -/
def docEmptyChildren : YNode :=
  .map [("resources", .seq
    [.map [("id", .str "x" false), ("children", .seq [])]])]

set_option maxRecDepth 40000 in
unseal iterResources in
/-- Witness for C9: `x` has `children: []` and is deleted without
confirmation. -/
theorem c9_delete_without_subtree_witness :
    delete_resource docEmptyChildren "x" false =
      .ok (removeNodeAt docEmptyChildren [0], true) :=
  (c9_delete_without_subtree docEmptyChildren "x"
    ⟨"x", .map [("id", .str "x" false), ("children", .seq [])], none,
      [0], "resources[0]"⟩ rfl).1 rfl

/-! ## Relation operations (`ops/relation_ops.py`) -/

/-- `RelationTemplateValue = str | bool` from `core/relation_types.py`. -/
inductive TVal where
  | s (v : String)
  | b (v : Bool)
deriving Repr, DecidableEq

/-- `RelationTemplate = dict[str, RelationTemplateValue]` (ordered). -/
abbrev RelationTemplate := List (String × TVal)

def TVal.toYNode : TVal → YNode
  | .s v => .str v false
  | .b v => .bool v

/-- `template.get(key)` (dict lookup; dict keys are unique). -/
def tGet : RelationTemplate → String → Option TVal
  | [], _ => none
  | (k', v) :: rest, k => if k' = k then some v else tGet rest k

/-- Python `expected_value != actual_bool` (negated): a `str | bool`
template value equals a `bool` only when it is that boolean. -/
def tvalEqBool : TVal → Bool → Bool
  | .b v, b => v == b
  | .s _, _ => false

/-- Python `relation.get(key) != expected_value` (negated): a missing key
(`None`) never equals a `str | bool` template value; a present value is
compared with Python `==`. -/
def tvalEqValue (t : TVal) : Option YNode → Bool
  | none => false
  | some v => pyEq v t.toYNode

/-- `_relation_matches(relation, expected)`: every template entry must
hold; `secondary` is special-cased so that a missing (or non-boolean)
`secondary` value counts as `False`. -/
def relationMatches (relation : YNode) (expected : RelationTemplate) : Bool :=
  expected.all fun (key, ev) =>
    if key = "secondary" then
      let actualBool :=
        match relation.get? "secondary" with
        | some (.bool b) => b
        | _ => false
      tvalEqBool ev actualBool
    else
      tvalEqValue ev (relation.get? key)

/-- **C10.** In the match-many relation operations, a match-template entry
`secondary: false` also matches relations that have no `secondary` key at
all (absence is treated as false) — dropping such an entry does not change
the verdict on those relations; while for every other template key a
relation matches only if it contains exactly the template's value under
that key (string values up to the presentation-only quote flag). -/
theorem c10_secondary_absent_matches_false :
    (∀ (r : YNode) (rest : RelationTemplate),
      r.get? "secondary" = none →
      relationMatches r (("secondary", .b false) :: rest) =
        relationMatches r rest) ∧
    (∀ (r : YNode) (t : RelationTemplate),
      relationMatches r t = true →
      ∀ k v, (k, v) ∈ t → k ≠ "secondary" →
        match v with
        | .s sv => ∃ q, r.get? k = some (.str sv q)
        | .b bv => r.get? k = some (.bool bv)) := by
  constructor
  · intro r rest hnone
    simp [relationMatches, hnone, tvalEqBool]
  · intro r t hmatch k v hmem hks
    rw [relationMatches, List.all_eq_true] at hmatch
    have := hmatch (k, v) hmem
    simp only [if_neg hks] at this
    match v with
    | .s sv =>
      cases hget : r.get? k with
      | none => rw [hget] at this; simp [tvalEqValue] at this
      | some node =>
        rw [hget] at this
        match node with
        | .str s' q =>
          refine ⟨q, ?_⟩
          simp [tvalEqValue, pyEq, TVal.toYNode] at this
          rw [this]
        | .bool _ => simp [tvalEqValue, pyEq, TVal.toYNode] at this
        | .null => simp [tvalEqValue, pyEq, TVal.toYNode] at this
        | .seq _ => simp [tvalEqValue, pyEq, TVal.toYNode] at this
        | .map _ => simp [tvalEqValue, pyEq, TVal.toYNode] at this
    | .b bv =>
      cases hget : r.get? k with
      | none => rw [hget] at this; simp [tvalEqValue] at this
      | some node =>
        rw [hget] at this
        match node with
        | .bool b' =>
          simp [tvalEqValue, pyEq, TVal.toYNode] at this
          rw [this]
        | .str _ _ => simp [tvalEqValue, pyEq, TVal.toYNode] at this
        | .null => simp [tvalEqValue, pyEq, TVal.toYNode] at this
        | .seq _ => simp [tvalEqValue, pyEq, TVal.toYNode] at this
        | .map _ => simp [tvalEqValue, pyEq, TVal.toYNode] at this

/-- Witness for C10: a relation without a `secondary` key is matched by
`secondary: false` exactly as by the empty template (hence matched). -/
theorem c10_secondary_absent_matches_false_witness :
    relationMatches (.map [("from", .str "app" false)])
        [("secondary", .b false)] =
      relationMatches (.map [("from", .str "app" false)]) [] :=
  c10_secondary_absent_matches_false.1
    (.map [("from", .str "app" false)]) [] rfl

/-! ### Bulk relation operations -/

/-- Python `pattern in s` (substring containment). -/
def hasInfixSeq (pat : List Char) : List Char → Bool
  | [] => pat.isEmpty
  | c :: rest => pat.isPrefixOf (c :: rest) || hasInfixSeq pat rest

/-- `_CONTEXT_TOKEN = "{context}"` (braces written as escapes). -/
def CONTEXT_TOKEN : String := "\x7bcontext\x7d"

def containsContextToken (s : String) : Bool :=
  hasInfixSeq CONTEXT_TOKEN.data s.data

/-- Python `str.replace(old, new)` for non-empty `old`: replace each
leftmost occurrence, scanning left to right. -/
def replaceSeq (pat rep : List Char) (l : List Char) : List Char :=
  match l with
  | [] => []
  | c :: rest =>
    if !pat.isEmpty && pat.isPrefixOf (c :: rest) then
      rep ++ replaceSeq pat rep ((c :: rest).drop pat.length)
    else
      c :: replaceSeq pat rep rest
termination_by l.length
decreasing_by
  · rename_i h
    simp only [Bool.and_eq_true, Bool.not_eq_true', List.isEmpty_eq_false] at h
    have : 0 < pat.length := List.length_pos.mpr h.1
    simp only [List.length_drop, List.length_cons]
    omega
  · simp

def pyReplace (s pat rep : String) : String :=
  ⟨replaceSeq pat.data rep.data s.data⟩

/-- `_render_template`, entry by entry: replace the `\x7bcontext\x7d`
token in string values, failing when a token is present but no context is
given. -/
def renderTemplateEntries : List (String × TVal) → Option String →
    Except ValErr (List (String × TVal))
  | [], _ => .ok []
  | (k, v) :: rest, context => do
    let v' ←
      match v with
      | .s sv =>
        if containsContextToken sv then
          match context with
          | none =>
            Except.error ("template contains '\x7bcontext\x7d' but " ++
              "target.contexts is not set (set target.contexts or " ++
              "remove template token)")
          | some ctx => Except.ok (TVal.s (pyReplace sv CONTEXT_TOKEN ctx))
        else Except.ok (TVal.s sv)
      | .b bv => Except.ok (TVal.b bv)
    let rest' ← renderTemplateEntries rest context
    .ok ((k, v') :: rest')

def renderTemplate (payload : Option RelationTemplate)
    (context : Option String) : Except ValErr RelationTemplate :=
  match payload with
  | none => .ok []
  | some p => renderTemplateEntries p context

/-- `tuple(sorted(rendered.items(), key=lambda item: item[0]))`: the
deduplication signature (stable sort by key). -/
def templateSignature (t : RelationTemplate) : RelationTemplate :=
  t.mergeSort (fun a b => a.1 ≤ b.1)

/-- The context fold of `_expand_payload_templates`, with the `seen`
signature set and accumulated payload list. -/
def expandPayloadsGo (template : RelationTemplate) :
    List String → List RelationTemplate → List RelationTemplate →
    Except ValErr (List RelationTemplate)
  | [], _, acc => .ok acc
  | ctx :: rest, seen, acc => do
    let rendered ← renderTemplate (some template) (some ctx)
    let sig := templateSignature rendered
    if seen.contains sig then
      expandPayloadsGo template rest seen acc
    else
      expandPayloadsGo template rest (seen ++ [sig]) (acc ++ [rendered])

def expandPayloadTemplates (template : RelationTemplate)
    (contexts : Option (List String)) :
    Except ValErr (List RelationTemplate) :=
  match contexts with
  | none => do
    let r ← renderTemplate (some template) none
    .ok [r]
  | some ctxs => expandPayloadsGo template ctxs [] []

/-- `_as_str` on a template lookup. -/
def asStr : Option TVal → Option String
  | some (.s v) => some v
  | _ => none

/-- `_as_bool` on a template lookup. -/
def asBool : Option TVal → Option Bool
  | some (.b v) => some v
  | _ => none

/-- The `CommentedMap` built by `add_relation` (fields in source order,
each present only when its argument is not `None`). -/
def optStrEntry (key : String) : Option String → List (String × YNode)
  | some v => [(key, YNode.str v false)]
  | none => []

def optBoolEntry (key : String) : Option Bool → List (String × YNode)
  | some b => [(key, YNode.bool b)]
  | none => []

def buildRelationNode (fromRef toRef via label description arrowDirection
    color : Option String) (secondary : Option Bool) : YNode :=
  .map
    (optStrEntry "from" fromRef ++
     optStrEntry "to" toRef ++
     optStrEntry "via" via ++
     optStrEntry "label" label ++
     optStrEntry "description" description ++
     optStrEntry "arrowDirection" arrowDirection ++
     optStrEntry "color" color ++
     optBoolEntry "secondary" secondary)

/-- Rebuild the document with the perspective at `idx` updated. -/
def updatePerspectiveNode (doc : YNode) (idx : Nat) (g : YNode → YNode) :
    YNode :=
  match doc with
  | .map es =>
    match alGet es "perspectives" with
    | some (.seq ps) =>
      .map (alSet es "perspectives" (.seq (listModify ps idx g)))
    | _ => doc
  | _ => doc

/-- The relations list of a perspective node (`[]` when the key is absent
or not a sequence). -/
def relationsOf (p : YNode) : List YNode :=
  match p.get? "relations" with
  | some (.seq rs) => rs
  | _ => []

/-- Append a relation, creating the `relations` sequence when missing (the
`CommentedSeq` setup at the top of `add_relation`). -/
def appendRelation (rel : YNode) (p : YNode) : YNode :=
  match p with
  | .map es =>
    match alGet es "relations" with
    | some (.seq rs) => .map (alSet es "relations" (.seq (rs ++ [rel])))
    | _ => .map (alSet es "relations" (.seq [rel]))
  | other => other

/-- `add_relation(document, perspective_id=..., ...)`. -/
def add_relation (doc : YNode) (perspectiveId : String)
    (fromRef toRef via label description arrowDirection color : Option String)
    (secondary : Option Bool) : Except ValErr (YNode × Bool) := do
  if fromRef = none ∧ toRef = none then
    throw "relation requires from or to (set --from and/or --to)"
  let p ← getSinglePerspective doc perspectiveId
  let rel := buildRelationNode fromRef toRef via label description
    arrowDirection color secondary
  .ok (updatePerspectiveNode doc p.index (appendRelation rel), true)

/-- `target.perspectives`: an explicit identifier list or `"*"` (all).
(The source's type is `list[str] | str`; a plain non-`"*"` string is not a
supported target and is not modelled.) -/
inductive PTarget where
  | star
  | list (ids : List String)

/-- The duplicate-check-and-verify loop of `_resolve_perspectives`. -/
def resolvePerspectivesGo (doc : YNode) :
    List String → List String → List String → Except ValErr (List String)
  | [], _, selected => .ok selected
  | pid :: rest, seen, selected => do
    if pid ∈ seen then
      throw s!"target.perspectives has duplicate: {pid}"
    let _ ← getSinglePerspective doc pid
    resolvePerspectivesGo doc rest (seen ++ [pid]) (selected ++ [pid])

/-- `_resolve_perspectives(document, target)`. -/
def resolvePerspectives (doc : YNode) (target : PTarget) :
    Except ValErr (List String) :=
  if ((buildPerspectiveLocations doc).map (·.identifier)).isEmpty then
    .error "diagram has no perspectives (cannot apply relation operation)"
  else
    match target with
    | .star => .ok ((buildPerspectiveLocations doc).map (·.identifier))
    | .list tgt => resolvePerspectivesGo doc tgt [] []

/-- `_available_context_names(document)`. -/
def availableContextNames (doc : YNode) : List String :=
  match doc.get? "contexts" with
  | some (.seq cs) =>
    cs.filterMap fun c =>
      match c with
      | .map _ =>
        match c.get? "name" with
        | some (.str n _) => some n
        | _ => none
      | _ => none
  | _ => []

/-- `_resolve_contexts(document, target)`. -/
def resolveContexts (doc : YNode) (target : Option (List String)) :
    Except ValErr (Option (List String)) :=
  match target with
  | none => .ok none
  | some tgt =>
    let available := availableContextNames doc
    let missing := tgt.filter (fun c => !available.contains c)
    if missing.isEmpty then .ok (some tgt)
    else
      .error ("unknown context(s): " ++ String.intercalate ", " missing ++
        " (expected values from contexts[].name)")

/-- The payload loop of `add_relation_many` for one perspective. -/
def addPayloads (perspectiveId : String) :
    List RelationTemplate → YNode → Nat → Except ValErr (YNode × Nat)
  | [], doc, n => .ok (doc, n)
  | payload :: rest, doc, n => do
    let (doc', _) ← add_relation doc perspectiveId
      (asStr (tGet payload "from")) (asStr (tGet payload "to"))
      (asStr (tGet payload "via")) (asStr (tGet payload "label"))
      (asStr (tGet payload "description"))
      (asStr (tGet payload "arrowDirection"))
      (asStr (tGet payload "color")) (asBool (tGet payload "secondary"))
    addPayloads perspectiveId rest doc' (n + 1)

/-- The perspective loop of `add_relation_many`. -/
def addMany (payloads : List RelationTemplate) :
    List String → YNode → Nat → Except ValErr (YNode × Nat)
  | [], doc, n => .ok (doc, n)
  | pid :: rest, doc, n => do
    let (doc', n') ← addPayloads pid payloads doc n
    addMany payloads rest doc' n'

/-- `add_relation_many(document, perspectives=..., contexts=...,
template=...)`. -/
def add_relation_many (doc : YNode) (perspectives : PTarget)
    (contexts : Option (List String)) (template : RelationTemplate) :
    Except ValErr (YNode × Nat) := do
  let pids ← resolvePerspectives doc perspectives
  let ctxNames ← resolveContexts doc contexts
  let payloads ← expandPayloadTemplates template ctxNames
  addMany payloads pids doc 0

/-- The deletion predicate of `remove_relations_match_many`: a mapping row
matching any rendered payload.  (The source collects matching indices and
pops them in descending order, which removes exactly these rows.) -/
def shouldDeleteRelation (payloads : List RelationTemplate) (r : YNode) :
    Bool :=
  match r with
  | .map _ => payloads.any (fun p => relationMatches r p)
  | _ => false

/-- Install a relations list on a perspective node. -/
def setRelations (p : YNode) (rs : List YNode) : YNode :=
  match p with
  | .map es => .map (alSet es "relations" (.seq rs))
  | other => other

/-- The perspective loop of `remove_relations_match_many`. -/
def removeMany (payloads : List RelationTemplate) :
    List String → YNode → Nat → Except ValErr (YNode × Nat)
  | [], doc, removed => .ok (doc, removed)
  | pid :: rest, doc, removed => do
    let p ← getSinglePerspective doc pid
    match p.node.get? "relations" with
    | some (.seq rs) =>
      let deleted := (rs.filter (shouldDeleteRelation payloads)).length
      let kept := rs.filter (fun r => !shouldDeleteRelation payloads r)
      removeMany payloads rest
        (updatePerspectiveNode doc p.index (fun q => setRelations q kept))
        (removed + deleted)
    | _ => removeMany payloads rest doc removed

/-- `remove_relations_match_many(document, ...)`. -/
def remove_relations_match_many (doc : YNode) (perspectives : PTarget)
    (contexts : Option (List String)) (matchTemplate : RelationTemplate)
    (requireMatch : Bool) : Except ValErr (YNode × Nat) := do
  let pids ← resolvePerspectives doc perspectives
  let ctxNames ← resolveContexts doc contexts
  let payloads ← expandPayloadTemplates matchTemplate ctxNames
  let (doc', removed) ← removeMany payloads pids doc 0
  if requireMatch ∧ removed = 0 then
    throw ("no relations matched for relation.remove-match " ++
      "(adjust match/target or set requireMatch=false)")
  .ok (doc', removed)

/-- The relations list of the `i`-th entry of `perspectives`. -/
def relationsAtIndex (doc : YNode) (i : Nat) : List YNode :=
  match doc.get? "perspectives" with
  | some (.seq ps) =>
    match ps[i]? with
    | some p => relationsOf p
    | none => []
  | _ => []

/-- A document whose only perspective `p` already holds a relation equal
to the template about to be added. -/
def docC7 : YNode :=
  .map [("perspectives", .seq [.map [("id", .str "p" false),
    ("relations", .seq [.map [("from", .str "app" false)]])]])]

/-- `docC7` after `add_relation_many` appended one templated relation. -/
def docC7Added : YNode :=
  .map [("perspectives", .seq [.map [("id", .str "p" false),
    ("relations", .seq [.map [("from", .str "app" false)],
      .map [("from", .str "app" false)]])]])]

/-- `docC7Added` after `remove_relations_match_many` removed both the
pre-existing and the added relation. -/
def docC7Removed : YNode :=
  .map [("perspectives", .seq [.map [("id", .str "p" false),
    ("relations", .seq [])]])]

set_option maxRecDepth 40000 in
/-- **C7 counterexample.** Adding one templated relation and then removing
with the same template and targets does not remove exactly the relation
that was added: a pre-existing relation matching the template is removed
too (1 added, 2 removed), and the perspective's relations list ends empty
rather than as it was before. -/
theorem c7_add_remove_counterexample :
    add_relation_many docC7 (.list ["p"]) none [("from", .s "app")] =
      .ok (docC7Added, 1) ∧
    remove_relations_match_many docC7Added (.list ["p"]) none
        [("from", .s "app")] true = .ok (docC7Removed, 2) ∧
    relationsAtIndex docC7Removed 0 = [] ∧
    relationsAtIndex docC7 0 = [.map [("from", .str "app" false)]] :=
  ⟨rfl, rfl, rfl, rfl⟩

/-! ### Toolkit for the add/remove symmetry proof (claim C7) -/

lemma alGet_alSet_same (es : List (String × YNode)) (k : String) (v : YNode) :
    alGet (alSet es k v) k = some v := by
  induction es with
  | nil => simp [alSet, alGet]
  | cons e rest ih =>
    obtain ⟨k', v'⟩ := e
    by_cases h : k' = k
    · simp [alSet, alGet, h]
    · simp [alSet, alGet, h, ih]

lemma alGet_alSet_ne (es : List (String × YNode)) (k : String) (v : YNode)
    {k' : String} (h : k' ≠ k) : alGet (alSet es k v) k' = alGet es k' := by
  induction es with
  | nil => simp [alSet, alGet, h, Ne.symm h]
  | cons e rest ih =>
    obtain ⟨k₀, v₀⟩ := e
    by_cases h0 : k₀ = k
    · subst h0
      simp [alSet, alGet, Ne.symm h]
    · simp only [alSet, if_neg h0]
      by_cases h1 : k₀ = k'
      · simp [alGet, h1]
      · simp [alGet, h1, ih]

lemma alSet_self {es : List (String × YNode)} {k : String} {v : YNode}
    (h : alGet es k = some v) : alSet es k v = es := by
  induction es with
  | nil => simp [alGet] at h
  | cons e rest ih =>
    obtain ⟨k₀, v₀⟩ := e
    by_cases h0 : k₀ = k
    · rw [alGet, if_pos h0] at h
      cases h
      simp [alSet, h0]
    · rw [alGet, if_neg h0] at h
      simp [alSet, h0, ih h]

lemma alSet_alSet (es : List (String × YNode)) (k : String) (v₁ v₂ : YNode) :
    alSet (alSet es k v₁) k v₂ = alSet es k v₂ := by
  induction es with
  | nil => simp [alSet]
  | cons e rest ih =>
    obtain ⟨k₀, v₀⟩ := e
    by_cases h0 : k₀ = k
    · simp [alSet, h0]
    · simp [alSet, h0, ih]

lemma listModify_id (l : List YNode) (i : Nat) :
    listModify l i (fun p => p) = l := by
  induction l generalizing i with
  | nil => rfl
  | cons x xs ih =>
    cases i with
    | zero => rfl
    | succ n => simp [listModify, ih]

lemma listModify_length (l : List YNode) (i : Nat) (g : YNode → YNode) :
    (listModify l i g).length = l.length := by
  induction l generalizing i with
  | nil => rfl
  | cons x xs ih =>
    cases i with
    | zero => rfl
    | succ n => simp [listModify, ih]

lemma listModify_getElem?_same (l : List YNode) (i : Nat) (g : YNode → YNode) :
    (listModify l i g)[i]? = l[i]?.map g := by
  induction l generalizing i with
  | nil => simp [listModify]
  | cons x xs ih =>
    cases i with
    | zero => simp [listModify]
    | succ n => simpa [listModify] using ih n

lemma listModify_getElem?_ne (l : List YNode) (i j : Nat) (g : YNode → YNode)
    (h : j ≠ i) : (listModify l i g)[j]? = l[j]? := by
  induction l generalizing i j with
  | nil => simp [listModify]
  | cons x xs ih =>
    cases i with
    | zero =>
      cases j with
      | zero => exact absurd rfl h
      | succ m => simp [listModify]
    | succ n =>
      cases j with
      | zero => simp [listModify]
      | succ m =>
        simp only [listModify, List.getElem?_cons_succ]
        exact ih n m (fun hc => h (by rw [hc]))

lemma listModify_compose (l : List YNode) (i : Nat) (g₁ g₂ : YNode → YNode) :
    listModify (listModify l i g₁) i g₂ = listModify l i (fun p => g₂ (g₁ p)) := by
  induction l generalizing i with
  | nil => rfl
  | cons x xs ih =>
    cases i with
    | zero => rfl
    | succ n => simp [listModify, ih]

/-- The `perspectives` sequence of a document, when present. -/
def pseq (doc : YNode) : Option (List YNode) :=
  match doc.get? "perspectives" with
  | some (.seq ps) => some ps
  | _ => none

lemma pseq_update {doc : YNode} {ps : List YNode} (h : pseq doc = some ps)
    (idx : Nat) (g : YNode → YNode) :
    pseq (updatePerspectiveNode doc idx g) = some (listModify ps idx g) := by
  match doc with
  | .map es =>
    rw [pseq, YNode.get?] at h
    cases hget : alGet es "perspectives" with
    | none => rw [hget] at h; simp at h
    | some v =>
      rw [hget] at h
      match v, h with
      | .seq ps', h =>
        have : ps' = ps := by simpa using h
        subst this
        rw [updatePerspectiveNode]
        simp only [hget]
        rw [pseq, YNode.get?, alGet_alSet_same]
  | .str s q => simp [pseq, YNode.get?] at h
  | .bool b => simp [pseq, YNode.get?] at h
  | .null => simp [pseq, YNode.get?] at h
  | .seq xs => simp [pseq, YNode.get?] at h

lemma update_get_ne {doc : YNode} (idx : Nat) (g : YNode → YNode)
    {k : String} (h : k ≠ "perspectives") :
    (updatePerspectiveNode doc idx g).get? k = doc.get? k := by
  match doc with
  | .map es =>
    rw [updatePerspectiveNode]
    cases hget : alGet es "perspectives" with
    | none => rfl
    | some v =>
      match v with
      | .seq ps => simp only [YNode.get?]; exact alGet_alSet_ne _ _ _ h
      | .str s q => rfl
      | .bool b => rfl
      | .null => rfl
      | .map es' => rfl
  | .str s q => rfl
  | .bool b => rfl
  | .null => rfl
  | .seq xs => rfl

lemma updatePerspectiveNode_id {doc : YNode} {ps : List YNode}
    (h : pseq doc = some ps) :
    updatePerspectiveNode doc 0 (fun p => p) = doc := by
  match doc with
  | .map es =>
    rw [pseq, YNode.get?] at h
    cases hget : alGet es "perspectives" with
    | none => rw [hget] at h; simp at h
    | some v =>
      rw [hget] at h
      match v, h with
      | .seq ps', h =>
        rw [updatePerspectiveNode]
        simp only [hget, listModify_id]
        rw [alSet_self hget]
  | .str s q => simp [pseq, YNode.get?] at h
  | .bool b => simp [pseq, YNode.get?] at h
  | .null => simp [pseq, YNode.get?] at h
  | .seq xs => simp [pseq, YNode.get?] at h

lemma updatePerspectiveNode_compose {doc : YNode} {ps : List YNode}
    (h : pseq doc = some ps) (idx : Nat) (g₁ g₂ : YNode → YNode) :
    updatePerspectiveNode (updatePerspectiveNode doc idx g₁) idx g₂ =
      updatePerspectiveNode doc idx (fun p => g₂ (g₁ p)) := by
  match doc with
  | .map es =>
    rw [pseq, YNode.get?] at h
    cases hget : alGet es "perspectives" with
    | none => rw [hget] at h; simp at h
    | some v =>
      rw [hget] at h
      match v, h with
      | .seq ps', h =>
        conv_lhs => rw [updatePerspectiveNode]
        simp only [hget]
        rw [updatePerspectiveNode]
        simp only [alGet_alSet_same]
        rw [alSet_alSet, listModify_compose, updatePerspectiveNode]
        simp only [hget]
  | .str s q => simp [pseq, YNode.get?] at h
  | .bool b => simp [pseq, YNode.get?] at h
  | .null => simp [pseq, YNode.get?] at h
  | .seq xs => simp [pseq, YNode.get?] at h

/-- Updates applied to perspective nodes by the relation operations:
they keep the identifier, keep mappings mappings, and leave non-mapping
entries untouched. -/
structure GPres (g : YNode → YNode) : Prop where
  ident : ∀ p, perspective_identifier (g p) = perspective_identifier p
  mapness : ∀ es, ∃ es', g (.map es) = .map es'
  nonmap : ∀ p, (∀ es, p ≠ .map es) → g p = p

lemma perspective_identifier_set_relations (es : List (String × YNode))
    (v : YNode) :
    perspective_identifier (.map (alSet es "relations" v)) =
      perspective_identifier (.map es) := by
  simp only [perspective_identifier, resource_identifier, YNode.get?]
  rw [alGet_alSet_ne _ _ _ (by decide), alGet_alSet_ne _ _ _ (by decide)]

lemma gpres_appendRelation (rel : YNode) : GPres (appendRelation rel) := by
  refine ⟨?_, ?_, ?_⟩
  · intro p
    match p with
    | .map es =>
      rw [appendRelation]
      cases hget : alGet es "relations" with
      | none => exact perspective_identifier_set_relations es _
      | some v =>
        match v with
        | .seq rs => exact perspective_identifier_set_relations es _
        | .str s q => exact perspective_identifier_set_relations es _
        | .bool b => exact perspective_identifier_set_relations es _
        | .null => exact perspective_identifier_set_relations es _
        | .map es' => exact perspective_identifier_set_relations es _
    | .str s q => rfl
    | .bool b => rfl
    | .null => rfl
    | .seq xs => rfl
  · intro es
    rw [appendRelation]
    cases hget : alGet es "relations" with
    | none => exact ⟨_, rfl⟩
    | some v =>
      match v with
      | .seq rs => exact ⟨_, rfl⟩
      | .str s q => exact ⟨_, rfl⟩
      | .bool b => exact ⟨_, rfl⟩
      | .null => exact ⟨_, rfl⟩
      | .map es' => exact ⟨_, rfl⟩
  · intro p hp
    match p with
    | .map es => exact absurd rfl (hp es)
    | .str s q => rfl
    | .bool b => rfl
    | .null => rfl
    | .seq xs => rfl

lemma gpres_setRelations (rs : List YNode) :
    GPres (fun q => setRelations q rs) := by
  refine ⟨?_, ?_, ?_⟩
  · intro p
    match p with
    | .map es => exact perspective_identifier_set_relations es _
    | .str s q => rfl
    | .bool b => rfl
    | .null => rfl
    | .seq xs => rfl
  · intro es
    exact ⟨_, rfl⟩
  · intro p hp
    match p with
    | .map es => exact absurd rfl (hp es)
    | .str s q => rfl
    | .bool b => rfl
    | .null => rfl
    | .seq xs => rfl

lemma perspectiveLocsFrom_cons (i : Nat) (p : YNode) (rest : List YNode) :
    perspectiveLocsFrom i (p :: rest) =
      perspectiveHeadLocs p i ++ perspectiveLocsFrom (i + 1) rest := by
  rw [perspectiveLocsFrom]

lemma perspectiveHeadLocs_map (es : List (String × YNode)) (i : Nat) :
    perspectiveHeadLocs (.map es) i =
      match perspective_identifier (.map es) with
      | some ident => [⟨ident, .map es, i⟩]
      | none => [] := rfl

lemma perspectiveHeadLocs_nonmap {p : YNode} (hp : ∀ es, p ≠ .map es)
    (i : Nat) : perspectiveHeadLocs p i = [] := by
  cases p with
  | map es => exact absurd rfl (hp es)
  | str s q => rfl
  | bool b => rfl
  | null => rfl
  | seq xs => rfl

lemma mem_perspectiveHeadLocs {p : YNode} {i : Nat} {l : PerspectiveLocation}
    (hl : l ∈ perspectiveHeadLocs p i) :
    l.index = i ∧ l.node = p ∧ (∃ es, p = .map es) ∧
      perspective_identifier p = some l.identifier := by
  cases p with
  | map es =>
    rw [perspectiveHeadLocs_map] at hl
    revert hl
    cases hident : perspective_identifier (.map es) with
    | none => intro hl; simp at hl
    | some ident =>
      intro hl
      rw [List.mem_singleton] at hl
      subst hl
      exact ⟨rfl, rfl, ⟨es, rfl⟩, rfl⟩
  | str s q => simp [perspectiveHeadLocs] at hl
  | bool b => simp [perspectiveHeadLocs] at hl
  | null => simp [perspectiveHeadLocs] at hl
  | seq xs => simp [perspectiveHeadLocs] at hl

lemma perspectiveLocsFrom_index_ge :
    ∀ (ps : List YNode) (i : Nat), ∀ l ∈ perspectiveLocsFrom i ps, i ≤ l.index
  | [], _, l, hl => by simp [perspectiveLocsFrom] at hl
  | p :: rest, i, l, hl => by
    rw [perspectiveLocsFrom_cons] at hl
    rcases List.mem_append.mp hl with hhead | htail
    · exact Nat.le_of_eq (mem_perspectiveHeadLocs hhead).1.symm
    · have := perspectiveLocsFrom_index_ge rest (i + 1) l htail
      omega

/-- Mapping a "modify node at absolute index `m`" function over locations
that do not contain index `m` is the identity. -/
lemma perspectiveLocs_map_untouched (g : YNode → YNode)
    (locs : List PerspectiveLocation) (m : Nat)
    (h : ∀ l ∈ locs, l.index ≠ m) :
    locs.map (fun l => if l.index = m then
      (⟨l.identifier, g l.node, l.index⟩ : PerspectiveLocation) else l) =
      locs := by
  induction locs with
  | nil => rfl
  | cons x xs ih =>
    have hx : x.index ≠ m := h x (List.mem_cons_self x xs)
    simp only [List.map_cons, if_neg hx]
    rw [ih (fun l hl => h l (List.mem_cons_of_mem _ hl))]

lemma perspectiveHeadLocs_modify (g : YNode → YNode) (hg : GPres g)
    (p : YNode) (i : Nat) :
    perspectiveHeadLocs (g p) i =
      (perspectiveHeadLocs p i).map
        (fun l => if l.index = i then
          ⟨l.identifier, g l.node, l.index⟩ else l) := by
  cases p with
  | map es =>
    obtain ⟨es', hes'⟩ := hg.mapness es
    have hid : perspective_identifier (YNode.map es') =
        perspective_identifier (.map es) := by
      rw [← hes']
      exact hg.ident (.map es)
    rw [hes', perspectiveHeadLocs_map, perspectiveHeadLocs_map, hid]
    cases hident : perspective_identifier (YNode.map es) with
    | none => simp
    | some ident => simp [hes']
  | str s q =>
    rw [hg.nonmap _ (fun es h => by cases h)]
    rfl
  | bool b =>
    rw [hg.nonmap _ (fun es h => by cases h)]
    rfl
  | null =>
    rw [hg.nonmap _ (fun es h => by cases h)]
    rfl
  | seq xs =>
    rw [hg.nonmap _ (fun es h => by cases h)]
    rfl

lemma perspectiveLocsFrom_modify (g : YNode → YNode) (hg : GPres g) :
    ∀ (ps : List YNode) (idx i : Nat),
      perspectiveLocsFrom i (listModify ps idx g) =
        (perspectiveLocsFrom i ps).map
          (fun l => if l.index = i + idx then
            ⟨l.identifier, g l.node, l.index⟩ else l)
  | [], idx, i => by simp [listModify, perspectiveLocsFrom]
  | p :: rest, 0, i => by
    rw [show listModify (p :: rest) 0 g = g p :: rest from rfl,
      perspectiveLocsFrom_cons, perspectiveLocsFrom_cons, List.map_append]
    have htail : (perspectiveLocsFrom (i + 1) rest).map
        (fun l => if l.index = i + 0 then
          (⟨l.identifier, g l.node, l.index⟩ : PerspectiveLocation) else l) =
        perspectiveLocsFrom (i + 1) rest := by
      apply perspectiveLocs_map_untouched
      intro l hl
      have := perspectiveLocsFrom_index_ge rest (i + 1) l hl
      omega
    rw [htail, show (i : Nat) + 0 = i from rfl,
      perspectiveHeadLocs_modify g hg p i]
  | p :: rest, n + 1, i => by
    rw [show listModify (p :: rest) (n + 1) g = p :: listModify rest n g
      from rfl,
      perspectiveLocsFrom_cons, perspectiveLocsFrom_cons, List.map_append,
      perspectiveLocsFrom_modify g hg rest n (i + 1)]
    have hhead : (perspectiveHeadLocs p i).map
        (fun l => if l.index = i + (n + 1) then
          (⟨l.identifier, g l.node, l.index⟩ : PerspectiveLocation) else l) =
        perspectiveHeadLocs p i := by
      apply perspectiveLocs_map_untouched
      intro l hl
      have := (mem_perspectiveHeadLocs hl).1
      omega
    rw [hhead, show i + 1 + n = i + (n + 1) by omega]

lemma mem_perspectiveLocsFrom :
    ∀ (ps : List YNode) (i : Nat) (l : PerspectiveLocation),
      l ∈ perspectiveLocsFrom i ps →
      ∃ j, l.index = i + j ∧ ps[j]? = some l.node ∧
        (∃ es, l.node = .map es) ∧
        perspective_identifier l.node = some l.identifier
  | [], _, l, hl => by simp [perspectiveLocsFrom] at hl
  | p :: rest, i, l, hl => by
    rw [perspectiveLocsFrom_cons] at hl
    rcases List.mem_append.mp hl with hhead | htail
    · obtain ⟨hidx, hnode, hmap, hident⟩ := mem_perspectiveHeadLocs hhead
      refine ⟨0, by omega, by simp [hnode], by rw [hnode]; exact hmap,
        by rw [hnode]; exact hident⟩
    · obtain ⟨j, hj, hget, hmap, hident⟩ :=
        mem_perspectiveLocsFrom rest (i + 1) l htail
      exact ⟨j + 1, by omega, by simpa using hget, hmap, hident⟩

lemma buildPerspectiveLocations_of_pseq {doc : YNode} {ps : List YNode}
    (h : pseq doc = some ps) :
    buildPerspectiveLocations doc = perspectiveLocsFrom 0 ps := by
  rw [buildPerspectiveLocations]
  rw [pseq] at h
  revert h
  cases hget : doc.get? "perspectives" with
  | none => intro h; simp at h
  | some v =>
    match v with
    | .seq ps' => intro h; simp at h; rw [h]
    | .str s q => intro h; simp at h
    | .bool b => intro h; simp at h
    | .null => intro h; simp at h
    | .map es => intro h; simp at h

lemma filter_locations_update {doc : YNode} {ps : List YNode}
    (hps : pseq doc = some ps) (g : YNode → YNode) (hg : GPres g)
    (idx : Nat) (pid : String) :
    (buildPerspectiveLocations (updatePerspectiveNode doc idx g)).filter
        (fun it => it.identifier = pid) =
      ((buildPerspectiveLocations doc).filter
        (fun it => it.identifier = pid)).map
        (fun l => if l.index = idx then
          ⟨l.identifier, g l.node, l.index⟩ else l) := by
  rw [buildPerspectiveLocations_of_pseq (pseq_update hps idx g),
    buildPerspectiveLocations_of_pseq hps,
    perspectiveLocsFrom_modify g hg ps idx 0]
  rw [show (0 : Nat) + idx = idx from by omega]
  rw [List.filter_map]
  congr 1
  apply List.filter_congr
  intro l hl
  by_cases hc : l.index = idx
  · simp [hc]
  · simp [hc]

lemma getSinglePerspective_update {doc : YNode} {ps : List YNode}
    (hps : pseq doc = some ps) (g : YNode → YNode) (hg : GPres g)
    (idx : Nat) (pid : String) :
    getSinglePerspective (updatePerspectiveNode doc idx g) pid =
      match getSinglePerspective doc pid with
      | .ok loc => .ok ⟨loc.identifier,
          if loc.index = idx then g loc.node else loc.node, loc.index⟩
      | .error e => .error e := by
  have hflt := filter_locations_update hps g hg idx pid
  rw [getSinglePerspective, getSinglePerspective, hflt]
  cases hcand : (buildPerspectiveLocations doc).filter
      (fun it => it.identifier = pid) with
  | nil => rfl
  | cons x rest =>
    simp only [List.map_cons]
    cases hrest : rest.isEmpty with
    | true =>
      rw [List.isEmpty_iff] at hrest
      subst hrest
      simp only [List.map_nil, List.isEmpty_nil, if_pos rfl]
      by_cases hc : x.index = idx
      · simp [hc]
      · simp [hc]
    | false =>
      have hrest' : (rest.map (fun l => if l.index = idx then
          (⟨l.identifier, g l.node, l.index⟩ : PerspectiveLocation)
          else l)).isEmpty = false := by
        cases rest with
        | nil => simp at hrest
        | cons y ys => simp
      simp only [hrest, hrest']
      rw [if_neg (by simp : ¬ (false = true)),
        if_neg (by simp : ¬ (false = true))]
      have hx : (if x.index = idx then
          (⟨x.identifier, g x.node, x.index⟩ : PerspectiveLocation)
          else x).index = x.index := by
        by_cases hc : x.index = idx
        · simp [hc]
        · simp [hc]
      have hm : List.map
          ((fun c => toString c.index) ∘ fun l => if l.index = idx then
            (⟨l.identifier, g l.node, l.index⟩ : PerspectiveLocation) else l)
          rest = List.map (fun c => toString c.index) rest := by
        apply List.map_congr_left
        intro l hl
        by_cases hc : l.index = idx
        · simp [hc]
        · simp [hc]
      rw [List.map_map, hx, hm]

lemma exceptBind_err {α β : Type} (e : ValErr) (f : α → Except ValErr β) :
    (Except.error e >>= f : Except ValErr β) = .error e := rfl

lemma map_identifier_update {doc : YNode} {ps : List YNode}
    (hps : pseq doc = some ps) (g : YNode → YNode) (hg : GPres g)
    (idx : Nat) :
    (buildPerspectiveLocations (updatePerspectiveNode doc idx g)).map
        (·.identifier) =
      (buildPerspectiveLocations doc).map (·.identifier) := by
  rw [buildPerspectiveLocations_of_pseq (pseq_update hps idx g),
    buildPerspectiveLocations_of_pseq hps,
    perspectiveLocsFrom_modify g hg ps idx 0, List.map_map]
  apply List.map_congr_left
  intro l hl
  by_cases hc : l.index = idx
  · simp [hc]
  · simp [hc]

lemma resolvePerspectivesGo_update {doc : YNode} {ps : List YNode}
    (hps : pseq doc = some ps) (g : YNode → YNode) (hg : GPres g)
    (idx : Nat) :
    ∀ (l seen sel : List String),
      resolvePerspectivesGo (updatePerspectiveNode doc idx g) l seen sel =
        resolvePerspectivesGo doc l seen sel
  | [], _, _ => rfl
  | pid :: rest, seen, sel => by
    rw [resolvePerspectivesGo, resolvePerspectivesGo]
    by_cases hmem : pid ∈ seen
    · rw [if_pos hmem, if_pos hmem]
      rfl
    · have hup := getSinglePerspective_update hps g hg idx pid
      cases hlook : getSinglePerspective doc pid with
      | error e =>
        rw [hlook] at hup
        have hup2 : getSinglePerspective (updatePerspectiveNode doc idx g)
            pid = .error e := hup.trans rfl
        rw [if_neg hmem, if_neg hmem]
        simp only [pure_bind]
        rw [hup2, exceptBind_err, exceptBind_err]
      | ok loc =>
        rw [hlook] at hup
        have hup2 : getSinglePerspective (updatePerspectiveNode doc idx g)
            pid = .ok ⟨loc.identifier,
              if loc.index = idx then g loc.node else loc.node,
              loc.index⟩ := hup.trans rfl
        rw [if_neg hmem, if_neg hmem]
        simp only [pure_bind]
        rw [hup2, exceptBind_ok, exceptBind_ok]
        exact resolvePerspectivesGo_update hps g hg idx rest (seen ++ [pid])
          (sel ++ [pid])

lemma resolvePerspectives_update {doc : YNode} {ps : List YNode}
    (hps : pseq doc = some ps) (g : YNode → YNode) (hg : GPres g)
    (idx : Nat) (t : PTarget) :
    resolvePerspectives (updatePerspectiveNode doc idx g) t =
      resolvePerspectives doc t := by
  rw [resolvePerspectives.eq_def, resolvePerspectives.eq_def,
    map_identifier_update hps g hg idx]
  by_cases hempty :
      (((buildPerspectiveLocations doc).map (·.identifier)).isEmpty) = true
  · rw [if_pos hempty, if_pos hempty]
  · rw [if_neg hempty, if_neg hempty]
    cases t with
    | star => rfl
    | list tgt => exact resolvePerspectivesGo_update hps g hg idx tgt [] []

lemma availableContextNames_update (doc : YNode) (idx : Nat)
    (g : YNode → YNode) :
    availableContextNames (updatePerspectiveNode doc idx g) =
      availableContextNames doc := by
  rw [availableContextNames, availableContextNames,
    update_get_ne idx g (by decide)]

lemma resolveContexts_update (doc : YNode) (idx : Nat) (g : YNode → YNode)
    (tgt : Option (List String)) :
    resolveContexts (updatePerspectiveNode doc idx g) tgt =
      resolveContexts doc tgt := by
  cases tgt with
  | none => rfl
  | some l =>
    rw [resolveContexts, resolveContexts, availableContextNames_update]

lemma relationsOf_setRelations (es : List (String × YNode))
    (rs : List YNode) :
    relationsOf (setRelations (.map es) rs) = rs := by
  simp [setRelations, relationsOf, YNode.get?, alGet_alSet_same]

lemma setRelations_setRelations :
    ∀ (p : YNode) (rs₁ rs₂ : List YNode),
      setRelations (setRelations p rs₁) rs₂ = setRelations p rs₂
  | .map es, rs₁, rs₂ => by simp [setRelations, alSet_alSet]
  | .str s q, _, _ => rfl
  | .bool b, _, _ => rfl
  | .null, _, _ => rfl
  | .seq xs, _, _ => rfl

lemma setRelations_nonmap {p : YNode} (hp : ∀ es, p ≠ .map es)
    (rs : List YNode) : setRelations p rs = p := by
  match p with
  | .map es => exact absurd rfl (hp es)
  | .str s q => rfl
  | .bool b => rfl
  | .null => rfl
  | .seq xs => rfl

lemma appendRelation_eq_setRelations (rel : YNode)
    (es : List (String × YNode)) :
    appendRelation rel (.map es) =
      setRelations (.map es) (relationsOf (.map es) ++ [rel]) := by
  rw [appendRelation, setRelations, relationsOf, YNode.get?]
  cases hget : alGet es "relations" with
  | none => rfl
  | some v =>
    match v with
    | .seq rs => rfl
    | .str s q => rfl
    | .bool b => rfl
    | .null => rfl
    | .map es' => rfl

/-- The cumulative effect of appending a block of relations to a
perspective node (identity for an empty block). -/
def gAdd (added : List YNode) (p : YNode) : YNode :=
  match added with
  | [] => p
  | _ => setRelations p (relationsOf p ++ added)

lemma gAdd_nonmap {p : YNode} (hp : ∀ es, p ≠ .map es)
    (added : List YNode) : gAdd added p = p := by
  match added with
  | [] => rfl
  | a :: rest => exact setRelations_nonmap hp _

lemma appendRelation_eq_gAdd (rel : YNode) (p : YNode) :
    appendRelation rel p = gAdd [rel] p := by
  match p with
  | .map es => rw [appendRelation_eq_setRelations]; rfl
  | .str s q => rfl
  | .bool b => rfl
  | .null => rfl
  | .seq xs => rfl

lemma gAdd_gAdd (a b : List YNode) (p : YNode) :
    gAdd b (gAdd a p) = gAdd (a ++ b) p := by
  match a with
  | [] => rfl
  | a0 :: a' =>
    match b with
    | [] => simp [gAdd]
    | b0 :: b' =>
      match p with
      | .map es =>
        have h0 : gAdd (a0 :: a') (YNode.map es) =
            setRelations (YNode.map es)
              (relationsOf (YNode.map es) ++ (a0 :: a')) := rfl
        show setRelations (gAdd (a0 :: a') (YNode.map es))
            (relationsOf (gAdd (a0 :: a') (YNode.map es)) ++ (b0 :: b')) = _
        rw [h0, setRelations_setRelations, relationsOf_setRelations]
        simp [gAdd, List.append_assoc]
      | .str s q => rfl
      | .bool b => rfl
      | .null => rfl
      | .seq xs => rfl

lemma gpres_gAdd (added : List YNode) : GPres (gAdd added) := by
  match added with
  | [] => exact ⟨fun p => rfl, fun es => ⟨es, rfl⟩, fun p _ => rfl⟩
  | a :: rest =>
    refine ⟨?_, ?_, ?_⟩
    · intro p
      match p with
      | .map es => exact perspective_identifier_set_relations es _
      | .str s q => rfl
      | .bool b => rfl
      | .null => rfl
      | .seq xs => rfl
    · intro es
      exact ⟨_, rfl⟩
    · intro p hp
      exact gAdd_nonmap hp _

lemma listModify_congr {l : List YNode} {i : Nat} {g₁ g₂ : YNode → YNode}
    (h : ∀ x, l[i]? = some x → g₁ x = g₂ x) :
    listModify l i g₁ = listModify l i g₂ := by
  induction l generalizing i with
  | nil => rfl
  | cons x xs ih =>
    cases i with
    | zero =>
      simp only [listModify]
      rw [h x (by simp)]
    | succ n =>
      simp only [listModify]
      rw [ih (fun y hy => h y (by simpa using hy))]

lemma listModify_comm (l : List YNode) (i j : Nat) (g₁ g₂ : YNode → YNode)
    (h : i ≠ j) :
    listModify (listModify l i g₁) j g₂ =
      listModify (listModify l j g₂) i g₁ := by
  induction l generalizing i j with
  | nil => rfl
  | cons x xs ih =>
    cases i with
    | zero =>
      cases j with
      | zero => exact absurd rfl h
      | succ m => rfl
    | succ n =>
      cases j with
      | zero => rfl
      | succ m =>
        simp only [listModify]
        rw [ih n m (fun hc => h (by rw [hc]))]

lemma updatePerspectiveNode_id' {doc : YNode} {ps : List YNode}
    (h : pseq doc = some ps) (idx : Nat) :
    updatePerspectiveNode doc idx (fun p => p) = doc := by
  match doc with
  | .map es =>
    rw [pseq, YNode.get?] at h
    revert h
    cases hget : alGet es "perspectives" with
    | none => intro h; simp at h
    | some v =>
      match v with
      | .seq ps' =>
        intro h
        rw [updatePerspectiveNode]
        simp only [hget, listModify_id]
        rw [alSet_self hget]
      | .str s q => intro h; simp at h
      | .bool b => intro h; simp at h
      | .null => intro h; simp at h
      | .map es' => intro h; simp at h
  | .str s q => simp [pseq, YNode.get?] at h
  | .bool b => simp [pseq, YNode.get?] at h
  | .null => simp [pseq, YNode.get?] at h
  | .seq xs => simp [pseq, YNode.get?] at h

lemma updatePerspectiveNode_congr {doc : YNode} {ps : List YNode}
    (h : pseq doc = some ps) (idx : Nat) {g₁ g₂ : YNode → YNode}
    (hg : ∀ x, ps[idx]? = some x → g₁ x = g₂ x) :
    updatePerspectiveNode doc idx g₁ = updatePerspectiveNode doc idx g₂ := by
  match doc with
  | .map es =>
    rw [pseq, YNode.get?] at h
    revert h
    cases hget : alGet es "perspectives" with
    | none => intro h; simp at h
    | some v =>
      match v with
      | .seq ps' =>
        intro h
        have hps : ps' = ps := by simpa using h
        subst hps
        rw [updatePerspectiveNode, updatePerspectiveNode]
        simp only [hget]
        rw [listModify_congr hg]
      | .str s q => intro h; simp at h
      | .bool b => intro h; simp at h
      | .null => intro h; simp at h
      | .map es' => intro h; simp at h
  | .str s q => simp [pseq, YNode.get?] at h
  | .bool b => simp [pseq, YNode.get?] at h
  | .null => simp [pseq, YNode.get?] at h
  | .seq xs => simp [pseq, YNode.get?] at h

lemma updatePerspectiveNode_comm {doc : YNode} {ps : List YNode}
    (h : pseq doc = some ps) {i j : Nat} (hij : i ≠ j)
    (g₁ g₂ : YNode → YNode) :
    updatePerspectiveNode (updatePerspectiveNode doc i g₁) j g₂ =
      updatePerspectiveNode (updatePerspectiveNode doc j g₂) i g₁ := by
  match doc with
  | .map es =>
    rw [pseq, YNode.get?] at h
    revert h
    cases hget : alGet es "perspectives" with
    | none => intro h; simp at h
    | some v =>
      match v with
      | .seq ps' =>
        intro h
        conv_lhs => rw [updatePerspectiveNode]
        conv_rhs => rw [updatePerspectiveNode]
        simp only [hget]
        rw [updatePerspectiveNode, updatePerspectiveNode]
        simp only [alGet_alSet_same, alSet_alSet]
        rw [listModify_comm _ _ _ _ _ hij]
      | .str s q => intro h; simp at h
      | .bool b => intro h; simp at h
      | .null => intro h; simp at h
      | .map es' => intro h; simp at h
  | .str s q => simp [pseq, YNode.get?] at h
  | .bool b => simp [pseq, YNode.get?] at h
  | .null => simp [pseq, YNode.get?] at h
  | .seq xs => simp [pseq, YNode.get?] at h

lemma getSinglePerspective_ok_facts {doc : YNode} {ps : List YNode}
    (hps : pseq doc = some ps) {pid : String} {loc : PerspectiveLocation}
    (h : getSinglePerspective doc pid = .ok loc) :
    loc.identifier = pid ∧ ps[loc.index]? = some loc.node ∧
      (∃ es, loc.node = .map es) ∧
      perspective_identifier loc.node = some pid := by
  rw [getSinglePerspective] at h
  cases hc : (buildPerspectiveLocations doc).filter
      (fun it => it.identifier = pid) with
  | nil => rw [hc] at h; exact Except.noConfusion h
  | cons x rest =>
    rw [hc] at h
    cases hre : rest.isEmpty with
    | false => simp [hre] at h
    | true =>
      simp [hre] at h
      subst h
      have hmem : x ∈ (buildPerspectiveLocations doc).filter
          (fun it => it.identifier = pid) := by
        rw [hc]; exact List.mem_cons_self _ _
      rw [List.mem_filter] at hmem
      have hid : x.identifier = pid := by
        have := hmem.2
        simpa using this
      have hmem' : x ∈ perspectiveLocsFrom 0 ps := by
        rw [← buildPerspectiveLocations_of_pseq hps]
        exact hmem.1
      obtain ⟨j, hj, hget, hmap, hident⟩ :=
        mem_perspectiveLocsFrom ps 0 x hmem'
      have hj' : x.index = j := by omega
      refine ⟨hid, ?_, hmap, ?_⟩
      · rw [hj']; exact hget
      · rw [hident, hid]

lemma getSinglePerspective_index_inj {doc : YNode} {ps : List YNode}
    (hps : pseq doc = some ps) {a b : String}
    {la lb : PerspectiveLocation}
    (ha : getSinglePerspective doc a = .ok la)
    (hb : getSinglePerspective doc b = .ok lb)
    (hidx : la.index = lb.index) : a = b := by
  obtain ⟨-, hga, -, hia⟩ := getSinglePerspective_ok_facts hps ha
  obtain ⟨-, hgb, -, hib⟩ := getSinglePerspective_ok_facts hps hb
  rw [hidx] at hga
  rw [hgb] at hga
  have hnode : la.node = lb.node := by
    injection hga with h'
    exact h'.symm
  rw [hnode, hib] at hia
  injection hia with h'
  exact h'.symm

lemma relationsAtIndex_eq {doc : YNode} {ps : List YNode}
    (hps : pseq doc = some ps) (j : Nat) :
    relationsAtIndex doc j =
      match ps[j]? with
      | some p => relationsOf p
      | none => [] := by
  rw [relationsAtIndex]
  rw [pseq] at hps
  revert hps
  cases hget : doc.get? "perspectives" with
  | none => intro hps; simp at hps
  | some v =>
    match v with
    | .seq ps' =>
      intro hps
      have : ps' = ps := by simpa using hps
      subst this
      rfl
    | .str s q => intro hps; simp at hps
    | .bool b => intro hps; simp at hps
    | .null => intro hps; simp at hps
    | .map es => intro hps; simp at hps

lemma relationsAtIndex_update_ne {doc : YNode} {ps : List YNode}
    (hps : pseq doc = some ps) {j idx : Nat} (hj : j ≠ idx)
    (g : YNode → YNode) :
    relationsAtIndex (updatePerspectiveNode doc idx g) j =
      relationsAtIndex doc j := by
  rw [relationsAtIndex_eq (pseq_update hps idx g) j, relationsAtIndex_eq hps j,
    listModify_getElem?_ne _ _ _ _ hj]

lemma relationsAtIndex_update_same {doc : YNode} {ps : List YNode}
    (hps : pseq doc = some ps) {idx : Nat} {x : YNode}
    (hx : ps[idx]? = some x) (g : YNode → YNode) :
    relationsAtIndex (updatePerspectiveNode doc idx g) idx =
      relationsOf (g x) := by
  rw [relationsAtIndex_eq (pseq_update hps idx g) idx,
    listModify_getElem?_same, hx]
  rfl

/-- Documents reachable from `doc` by a sequence of identifier-preserving
perspective-node updates — exactly what the bulk relation operations
perform. -/
inductive ReachP : YNode → YNode → Prop where
  | refl (d : YNode) : ReachP d d
  | step {a d : YNode} (idx : Nat) {g : YNode → YNode} :
      ReachP a d → GPres g → ReachP a (updatePerspectiveNode d idx g)

lemma reachP_trans {a b c : YNode} (h₁ : ReachP a b) (h₂ : ReachP b c) :
    ReachP a c := by
  induction h₂ with
  | refl => exact h₁
  | step idx hr hg ih => exact ReachP.step idx ih hg

lemma reachP_pseq {a d : YNode} (h : ReachP a d) {ps : List YNode}
    (hps : pseq a = some ps) : ∃ ps', pseq d = some ps' := by
  induction h with
  | refl => exact ⟨ps, hps⟩
  | step idx hr hg ih =>
    obtain ⟨ps', hps'⟩ := ih
    exact ⟨_, pseq_update hps' _ _⟩

lemma reachP_lookup_err {a d : YNode} (h : ReachP a d) {ps : List YNode}
    (hps : pseq a = some ps) {pid : String} {e : ValErr}
    (he : getSinglePerspective a pid = .error e) :
    getSinglePerspective d pid = .error e := by
  induction h with
  | refl => exact he
  | step idx hr hg ih =>
    obtain ⟨ps', hps'⟩ := reachP_pseq hr hps
    rw [getSinglePerspective_update hps' _ hg _ pid, ih]

lemma reachP_lookup_ok {a d : YNode} (h : ReachP a d) {ps : List YNode}
    (hps : pseq a = some ps) {pid : String} {loc : PerspectiveLocation}
    (hl : getSinglePerspective a pid = .ok loc) :
    ∃ node', getSinglePerspective d pid =
        .ok ⟨loc.identifier, node', loc.index⟩ ∧
      ((∃ es, loc.node = .map es) → ∃ es', node' = .map es') := by
  induction h with
  | refl =>
    exact ⟨loc.node, hl, fun hm => hm⟩
  | @step d' idx g hr hg ih =>
    obtain ⟨ps', hps'⟩ := reachP_pseq hr hps
    obtain ⟨node', hlk, hmap⟩ := ih
    by_cases hc : loc.index = idx
    · refine ⟨g node', ?_, ?_⟩
      · rw [getSinglePerspective_update hps' _ hg _ pid, hlk]
        simp [hc]
      · intro hm
        obtain ⟨es', hes'⟩ := hmap hm
        obtain ⟨es'', hes''⟩ := hg.mapness es'
        exact ⟨es'', by rw [hes', hes'']⟩
    · refine ⟨node', ?_, hmap⟩
      rw [getSinglePerspective_update hps' _ hg _ pid, hlk]
      simp [hc]

lemma reachP_resolveP {a d : YNode} (h : ReachP a d) {ps : List YNode}
    (hps : pseq a = some ps) (t : PTarget) :
    resolvePerspectives d t = resolvePerspectives a t := by
  induction h with
  | refl => rfl
  | step idx hr hg ih =>
    obtain ⟨ps', hps'⟩ := reachP_pseq hr hps
    rw [resolvePerspectives_update hps' _ hg _ t, ih]

lemma reachP_resolveC {a d : YNode} (h : ReachP a d)
    (c : Option (List String)) :
    resolveContexts d c = resolveContexts a c := by
  induction h with
  | refl => rfl
  | step idx hr hg ih =>
    rw [resolveContexts_update, ih]

lemma alGet_append (es₁ es₂ : List (String × YNode)) (k : String) :
    alGet (es₁ ++ es₂) k =
      match alGet es₁ k with
      | some v => some v
      | none => alGet es₂ k := by
  induction es₁ with
  | nil => rfl
  | cons kv rest ih =>
    obtain ⟨k', v'⟩ := kv
    by_cases h : k' = k
    · simp [alGet, h]
    · simp only [List.cons_append, alGet, if_neg h]
      exact ih

lemma alGet_strSeg (key k : String) (o : Option String) :
    alGet (optStrEntry key o) k =
      if key = k then o.map (fun v => YNode.str v false) else none := by
  cases o <;> by_cases h : key = k <;> simp [optStrEntry, alGet, h]

lemma alGet_boolSeg (key k : String) (o : Option Bool) :
    alGet (optBoolEntry key o) k =
      if key = k then o.map YNode.bool else none := by
  cases o <;> by_cases h : key = k <;> simp [optBoolEntry, alGet, h]

lemma buildRelationNode_get_from (f t v l d a c : Option String)
    (s : Option Bool) :
    (buildRelationNode f t v l d a c s).get? "from" =
      f.map (fun x => YNode.str x false) := by
  cases f <;>
    simp [buildRelationNode, YNode.get?, alGet_append, alGet_strSeg,
      alGet_boolSeg, alGet]

lemma buildRelationNode_get_to (f t v l d a c : Option String)
    (s : Option Bool) :
    (buildRelationNode f t v l d a c s).get? "to" =
      t.map (fun x => YNode.str x false) := by
  cases t <;>
    simp [buildRelationNode, YNode.get?, alGet_append, alGet_strSeg,
      alGet_boolSeg, alGet]

lemma buildRelationNode_get_via (f t v l d a c : Option String)
    (s : Option Bool) :
    (buildRelationNode f t v l d a c s).get? "via" =
      v.map (fun x => YNode.str x false) := by
  cases v <;>
    simp [buildRelationNode, YNode.get?, alGet_append, alGet_strSeg,
      alGet_boolSeg, alGet]

lemma buildRelationNode_get_label (f t v l d a c : Option String)
    (s : Option Bool) :
    (buildRelationNode f t v l d a c s).get? "label" =
      l.map (fun x => YNode.str x false) := by
  cases l <;>
    simp [buildRelationNode, YNode.get?, alGet_append, alGet_strSeg,
      alGet_boolSeg, alGet]

lemma buildRelationNode_get_description (f t v l d a c : Option String)
    (s : Option Bool) :
    (buildRelationNode f t v l d a c s).get? "description" =
      d.map (fun x => YNode.str x false) := by
  cases d <;>
    simp [buildRelationNode, YNode.get?, alGet_append, alGet_strSeg,
      alGet_boolSeg, alGet]

lemma buildRelationNode_get_arrowDirection (f t v l d a c : Option String)
    (s : Option Bool) :
    (buildRelationNode f t v l d a c s).get? "arrowDirection" =
      a.map (fun x => YNode.str x false) := by
  cases a <;>
    simp [buildRelationNode, YNode.get?, alGet_append, alGet_strSeg,
      alGet_boolSeg, alGet]

lemma buildRelationNode_get_color (f t v l d a c : Option String)
    (s : Option Bool) :
    (buildRelationNode f t v l d a c s).get? "color" =
      c.map (fun x => YNode.str x false) := by
  cases c <;>
    simp [buildRelationNode, YNode.get?, alGet_append, alGet_strSeg,
      alGet_boolSeg, alGet]

lemma buildRelationNode_get_secondary (f t v l d a c : Option String)
    (s : Option Bool) :
    (buildRelationNode f t v l d a c s).get? "secondary" =
      s.map YNode.bool := by
  cases s <;>
    simp [buildRelationNode, YNode.get?, alGet_append, alGet_strSeg,
      alGet_boolSeg, alGet]

/-- Uniqueness of the keys of a template (`dict` keys are unique). -/
def keysNodup : List String → Bool
  | [] => true
  | k :: rest => !rest.contains k && keysNodup rest

lemma tGet_of_mem {p : RelationTemplate}
    (hnd : keysNodup (p.map Prod.fst) = true) {k : String} {v : TVal}
    (hmem : (k, v) ∈ p) : tGet p k = some v := by
  induction p with
  | nil => simp at hmem
  | cons kv rest ih =>
    obtain ⟨k', v'⟩ := kv
    rw [List.map_cons, keysNodup, Bool.and_eq_true] at hnd
    obtain ⟨hnc, hnd'⟩ := hnd
    rcases List.mem_cons.mp hmem with heq | hmem'
    · injection heq with h1 h2
      rw [tGet, if_pos h1.symm, h2]
    · rw [tGet]
      by_cases h : k' = k
      · exfalso
        rw [h] at hnc
        simp at hnc
        exact absurd hmem' (hnc v)
      · rw [if_neg h]
        exact ih hnd' hmem'

def TVal.isStr : TVal → Bool
  | .s _ => true
  | .b _ => false

/-- The seven string-valued relation fields understood by
`add_relation`. -/
def allowedStrKeys : List String :=
  ["from", "to", "via", "label", "description", "arrowDirection", "color"]

/-- One template entry names a known relation field with a value of the
field's type. -/
def entryOk (kv : String × TVal) : Bool :=
  (allowedStrKeys.contains kv.1 && kv.2.isStr) ||
    (kv.1 == "secondary" && !kv.2.isStr)

/-- The template has an endpoint: a string `from` or `to` value (otherwise
`add_relation` throws). -/
def payloadEndpointOk (p : RelationTemplate) : Bool :=
  (asStr (tGet p "from")).isSome || (asStr (tGet p "to")).isSome

/-- A well-formed rendered payload: unique keys, every entry a known
field of the right type, and an endpoint present. -/
def payloadWF (p : RelationTemplate) : Bool :=
  keysNodup (p.map Prod.fst) && p.all entryOk && payloadEndpointOk p

/-- The relation node `add_relation` builds from one rendered payload (the
arguments `add_relation_many` passes it). -/
def relFromPayload (p : RelationTemplate) : YNode :=
  buildRelationNode (asStr (tGet p "from")) (asStr (tGet p "to"))
    (asStr (tGet p "via")) (asStr (tGet p "label"))
    (asStr (tGet p "description")) (asStr (tGet p "arrowDirection"))
    (asStr (tGet p "color")) (asBool (tGet p "secondary"))

lemma payloadWF_endpoint {p : RelationTemplate} (h : payloadWF p = true) :
    payloadEndpointOk p = true := by
  rw [payloadWF, Bool.and_eq_true, Bool.and_eq_true] at h
  exact h.2

/-- A relation added from a well-formed payload matches that payload:
the round-trip core of the add/remove symmetry. -/
lemma relationMatches_relFromPayload {p : RelationTemplate}
    (hwf : payloadWF p = true) :
    relationMatches (relFromPayload p) p = true := by
  rw [payloadWF, Bool.and_eq_true, Bool.and_eq_true] at hwf
  obtain ⟨⟨hnd, hall⟩, hep⟩ := hwf
  rw [relationMatches, List.all_eq_true]
  rintro ⟨k, v⟩ hmem
  have hok := List.all_eq_true.mp hall _ hmem
  have htg : tGet p k = some v := tGet_of_mem hnd hmem
  rw [entryOk] at hok
  rcases Bool.or_eq_true_iff.mp hok with h | h
  · rw [Bool.and_eq_true] at h
    obtain ⟨hcont, hstr⟩ := h
    obtain ⟨sv, rfl⟩ : ∃ sv, v = TVal.s sv := by
      cases v with
      | s sv => exact ⟨sv, rfl⟩
      | b bv => simp [TVal.isStr] at hstr
    have hk : k ∈ allowedStrKeys := by simpa using hcont
    simp only [allowedStrKeys, List.mem_cons, List.mem_singleton,
      List.not_mem_nil, or_false] at hk
    rcases hk with rfl | rfl | rfl | rfl | rfl | rfl | rfl <;>
      simp [relFromPayload, buildRelationNode_get_from,
        buildRelationNode_get_to, buildRelationNode_get_via,
        buildRelationNode_get_label, buildRelationNode_get_description,
        buildRelationNode_get_arrowDirection, buildRelationNode_get_color,
        htg, asStr, tvalEqValue, pyEq, TVal.toYNode]
  · rw [Bool.and_eq_true] at h
    obtain ⟨hsec, hbool⟩ := h
    have hks : k = "secondary" := by simpa using hsec
    obtain ⟨bv, rfl⟩ : ∃ bv, v = TVal.b bv := by
      cases v with
      | s sv => simp [TVal.isStr] at hbool
      | b bv => exact ⟨bv, rfl⟩
    subst hks
    simp [relFromPayload, buildRelationNode_get_secondary, htg, asBool,
      tvalEqBool]

lemma shouldDelete_relFromPayload {payloads : List RelationTemplate}
    {p : RelationTemplate} (hp : p ∈ payloads) (hwf : payloadWF p = true) :
    shouldDeleteRelation payloads (relFromPayload p) = true := by
  show (payloads.any fun q => relationMatches (relFromPayload p) q) = true
  rw [List.any_eq_true]
  exact ⟨p, hp, relationMatches_relFromPayload hwf⟩

lemma add_relation_ok {doc : YNode} {pid : String}
    {loc : PerspectiveLocation}
    (hlook : getSinglePerspective doc pid = .ok loc)
    (f t v l d a c : Option String) (s : Option Bool)
    (h : ¬ (f = none ∧ t = none)) :
    add_relation doc pid f t v l d a c s =
      .ok (updatePerspectiveNode doc loc.index
        (appendRelation (buildRelationNode f t v l d a c s)), true) := by
  simp only [add_relation, if_neg h, hlook, pure_bind, exceptBind_ok]

lemma addPayloads_spec (pid : String) :
    ∀ (payloads : List RelationTemplate) (doc : YNode) (ps : List YNode)
      (loc : PerspectiveLocation) (n : Nat),
      pseq doc = some ps →
      getSinglePerspective doc pid = .ok loc →
      (∀ p ∈ payloads, payloadEndpointOk p = true) →
      addPayloads pid payloads doc n =
        .ok (updatePerspectiveNode doc loc.index
          (gAdd (payloads.map relFromPayload)), n + payloads.length)
  | [], doc, ps, loc, n, hps, hlook, hend => by
    rw [addPayloads, List.map_nil,
      show updatePerspectiveNode doc loc.index (gAdd []) = doc from
        updatePerspectiveNode_id' hps loc.index]
    rfl
  | payload :: rest, doc, ps, loc, n, hps, hlook, hend => by
    have hcond : ¬ (asStr (tGet payload "from") = none ∧
        asStr (tGet payload "to") = none) := by
      have he := hend payload (List.mem_cons_self _ _)
      intro hcon
      obtain ⟨h1, h2⟩ := hcon
      rw [payloadEndpointOk, h1, h2] at he
      simp at he
    rw [addPayloads]
    simp only [add_relation_ok hlook _ _ _ _ _ _ _ _ hcond, exceptBind_ok]
    have hlook' : getSinglePerspective
        (updatePerspectiveNode doc loc.index (appendRelation
          (buildRelationNode (asStr (tGet payload "from"))
            (asStr (tGet payload "to")) (asStr (tGet payload "via"))
            (asStr (tGet payload "label"))
            (asStr (tGet payload "description"))
            (asStr (tGet payload "arrowDirection"))
            (asStr (tGet payload "color"))
            (asBool (tGet payload "secondary"))))) pid =
        .ok ⟨loc.identifier, appendRelation (buildRelationNode
            (asStr (tGet payload "from")) (asStr (tGet payload "to"))
            (asStr (tGet payload "via")) (asStr (tGet payload "label"))
            (asStr (tGet payload "description"))
            (asStr (tGet payload "arrowDirection"))
            (asStr (tGet payload "color"))
            (asBool (tGet payload "secondary"))) loc.node, loc.index⟩ := by
      rw [getSinglePerspective_update hps _ (gpres_appendRelation _)
        loc.index pid, hlook]
      simp
    rw [addPayloads_spec pid rest _ _ _ (n + 1) (pseq_update hps _ _) hlook'
      (fun p hp => hend p (List.mem_cons_of_mem _ hp))]
    show Except.ok (updatePerspectiveNode (updatePerspectiveNode doc
        loc.index _) loc.index _, _) = _
    rw [updatePerspectiveNode_compose hps loc.index _ _]
    have hfun : (fun p => gAdd (rest.map relFromPayload)
        (appendRelation (buildRelationNode (asStr (tGet payload "from"))
          (asStr (tGet payload "to")) (asStr (tGet payload "via"))
          (asStr (tGet payload "label"))
          (asStr (tGet payload "description"))
          (asStr (tGet payload "arrowDirection"))
          (asStr (tGet payload "color"))
          (asBool (tGet payload "secondary"))) p)) =
        gAdd ((payload :: rest).map relFromPayload) := by
      funext p
      rw [appendRelation_eq_gAdd, gAdd_gAdd]
      rfl
    rw [hfun]
    have hn : n + 1 + rest.length = n + (payload :: rest).length := by
      rw [List.length_cons]; omega
    rw [hn]

lemma addMany_spec_comm (payloads : List RelationTemplate)
    (hend : ∀ p ∈ payloads, payloadEndpointOk p = true) :
    ∀ (pids : List String) (doc : YNode) (ps : List YNode) (n : Nat),
      pseq doc = some ps →
      (∀ pid ∈ pids, ∃ loc, getSinglePerspective doc pid = .ok loc) →
      ∃ d₁, addMany payloads pids doc n =
          .ok (d₁, n + pids.length * payloads.length) ∧
        ReachP doc d₁ ∧
        ∀ (idx : Nat) (g : YNode → YNode), GPres g →
          (∀ pid ∈ pids, ∀ loc, getSinglePerspective doc pid = .ok loc →
            loc.index ≠ idx) →
          addMany payloads pids (updatePerspectiveNode doc idx g) n =
            .ok (updatePerspectiveNode d₁ idx g,
              n + pids.length * payloads.length)
  | [], doc, ps, n, hps, hok => by
    refine ⟨doc, ?_, ReachP.refl doc, ?_⟩
    · rw [addMany]; simp
    · intro idx g hg hfor
      rw [addMany]; simp
  | pid :: rest, doc, ps, n, hps, hok => by
    obtain ⟨loc, hlook⟩ := hok pid (List.mem_cons_self _ _)
    have hgB : GPres (gAdd (payloads.map relFromPayload)) := gpres_gAdd _
    have hstep := addPayloads_spec pid payloads doc ps loc n hps hlook hend
    have hps₁ : pseq (updatePerspectiveNode doc loc.index
        (gAdd (payloads.map relFromPayload))) =
        some (listModify ps loc.index (gAdd (payloads.map relFromPayload))) :=
      pseq_update hps _ _
    have hok₁ : ∀ q ∈ rest, ∃ lq, getSinglePerspective
        (updatePerspectiveNode doc loc.index
          (gAdd (payloads.map relFromPayload))) q = .ok lq := by
      intro q hq
      obtain ⟨lq, hlq⟩ := hok q (List.mem_cons_of_mem _ hq)
      refine ⟨⟨lq.identifier,
        if lq.index = loc.index then
          gAdd (payloads.map relFromPayload) lq.node else lq.node,
        lq.index⟩, ?_⟩
      rw [getSinglePerspective_update hps _ hgB _ q, hlq]
    obtain ⟨D₁, hIH1, hIHreach, hIHcomm⟩ :=
      addMany_spec_comm payloads hend rest _ _ (n + payloads.length)
        hps₁ hok₁
    have hidx₁ : ∀ q ∈ rest, ∀ lq, getSinglePerspective
        (updatePerspectiveNode doc loc.index
          (gAdd (payloads.map relFromPayload))) q = .ok lq →
        ∃ lq₀, getSinglePerspective doc q = .ok lq₀ ∧
          lq.index = lq₀.index := by
      intro q hq lq hlq
      obtain ⟨lq₀, hlq₀⟩ := hok q (List.mem_cons_of_mem _ hq)
      refine ⟨lq₀, hlq₀, ?_⟩
      rw [getSinglePerspective_update hps _ hgB _ q, hlq₀] at hlq
      have : lq = ⟨lq₀.identifier,
          if lq₀.index = loc.index then
            gAdd (payloads.map relFromPayload) lq₀.node else lq₀.node,
          lq₀.index⟩ := by
        injection hlq with h'
        exact h'.symm
      rw [this]
    refine ⟨D₁, ?_, ?_, ?_⟩
    · rw [addMany]
      simp only [hstep, exceptBind_ok]
      rw [hIH1]
      have hc : n + payloads.length + rest.length * payloads.length =
          n + (pid :: rest).length * payloads.length := by
        rw [List.length_cons]; ring
      rw [hc]
    · exact reachP_trans (ReachP.step loc.index (ReachP.refl doc) hgB)
        hIHreach
    · intro idx g hg hfor
      have hne : loc.index ≠ idx := hfor pid (List.mem_cons_self _ _) loc
        hlook
      have hlook' : getSinglePerspective (updatePerspectiveNode doc idx g)
          pid = .ok ⟨loc.identifier, loc.node, loc.index⟩ := by
        rw [getSinglePerspective_update hps g hg idx pid, hlook]
        simp [hne]
      have hstep' := addPayloads_spec pid payloads
        (updatePerspectiveNode doc idx g) _ _ n (pseq_update hps idx g)
        hlook' hend
      rw [addMany]
      simp only [hstep', exceptBind_ok]
      rw [show updatePerspectiveNode (updatePerspectiveNode doc idx g)
          loc.index (gAdd (payloads.map relFromPayload)) =
          updatePerspectiveNode (updatePerspectiveNode doc loc.index
            (gAdd (payloads.map relFromPayload))) idx g from
        updatePerspectiveNode_comm hps (fun h => hne h.symm) g _]
      have hfor₁ : ∀ q ∈ rest, ∀ lq, getSinglePerspective
          (updatePerspectiveNode doc loc.index
            (gAdd (payloads.map relFromPayload))) q = .ok lq →
          lq.index ≠ idx := by
        intro q hq lq hlq
        obtain ⟨lq₀, hlq₀, heq⟩ := hidx₁ q hq lq hlq
        rw [heq]
        exact hfor q (List.mem_cons_of_mem _ hq) lq₀ hlq₀
      rw [hIHcomm idx g hg hfor₁]
      have hc : n + payloads.length + rest.length * payloads.length =
          n + (pid :: rest).length * payloads.length := by
        rw [List.length_cons]; ring
      rw [hc]

lemma removeMany_foreign_update (payloads : List RelationTemplate) :
    ∀ (pids : List String) (doc : YNode) (ps : List YNode) (r : Nat)
      (idx : Nat) (g : YNode → YNode),
      pseq doc = some ps → GPres g →
      (∀ pid ∈ pids, ∀ loc, getSinglePerspective doc pid = .ok loc →
        loc.index ≠ idx) →
      removeMany payloads pids (updatePerspectiveNode doc idx g) r =
        match removeMany payloads pids doc r with
        | .ok (d, m) => .ok (updatePerspectiveNode d idx g, m)
        | .error e => .error e
  | [], doc, ps, r, idx, g, hps, hg, hfor => by
    rw [removeMany, removeMany]
  | pid :: rest, doc, ps, r, idx, g, hps, hg, hfor => by
    rw [removeMany, removeMany]
    cases hlook : getSinglePerspective doc pid with
    | error e =>
      have hlk' : getSinglePerspective (updatePerspectiveNode doc idx g)
          pid = .error e := by
        rw [getSinglePerspective_update hps g hg idx pid, hlook]
      rw [hlk']
      simp only [exceptBind_err]
    | ok loc =>
      have hne : loc.index ≠ idx :=
        hfor pid (List.mem_cons_self _ _) loc hlook
      have hlk' : getSinglePerspective (updatePerspectiveNode doc idx g)
          pid = .ok ⟨loc.identifier, loc.node, loc.index⟩ := by
        rw [getSinglePerspective_update hps g hg idx pid, hlook]
        simp [hne]
      rw [hlk']
      simp only [exceptBind_ok]
      have hfor' : ∀ q ∈ rest, ∀ lq, getSinglePerspective doc q = .ok lq →
          lq.index ≠ idx :=
        fun q hq lq hlq => hfor q (List.mem_cons_of_mem _ hq) lq hlq
      cases hrel : loc.node.get? "relations" with
      | none =>
        exact removeMany_foreign_update payloads rest doc ps r idx g hps
          hg hfor'
      | some v =>
        cases v with
        | seq rs =>
          simp only []
          rw [show updatePerspectiveNode (updatePerspectiveNode doc idx g)
              loc.index (fun q => setRelations q
                (rs.filter (fun x => !shouldDeleteRelation payloads x))) =
              updatePerspectiveNode (updatePerspectiveNode doc loc.index
                (fun q => setRelations q
                  (rs.filter (fun x => !shouldDeleteRelation payloads x))))
                idx g from
            updatePerspectiveNode_comm hps (fun h => hne h.symm) g _]
          have hfor'' : ∀ q ∈ rest, ∀ lq, getSinglePerspective
              (updatePerspectiveNode doc loc.index
                (fun q => setRelations q
                  (rs.filter (fun x => !shouldDeleteRelation payloads x))))
              q = .ok lq → lq.index ≠ idx := by
            intro q hq lq hlq
            rw [getSinglePerspective_update hps _
              (gpres_setRelations _) _ q] at hlq
            cases hlq₀ : getSinglePerspective doc q with
            | error e => rw [hlq₀] at hlq; exact Except.noConfusion hlq
            | ok lq₀ =>
              rw [hlq₀] at hlq
              have : lq = ⟨lq₀.identifier,
                  if lq₀.index = loc.index then
                    setRelations lq₀.node
                      (rs.filter (fun x => !shouldDeleteRelation payloads x))
                    else lq₀.node, lq₀.index⟩ := by
                injection hlq with h'
                exact h'.symm
              rw [this]
              exact hfor' q hq lq₀ hlq₀
          exact removeMany_foreign_update payloads rest _ _
            (r + (rs.filter (shouldDeleteRelation payloads)).length) idx g
            (pseq_update hps _ _) hg hfor''
        | str sv q =>
          exact removeMany_foreign_update payloads rest doc ps r idx g hps
            hg hfor'
        | bool b =>
          exact removeMany_foreign_update payloads rest doc ps r idx g hps
            hg hfor'
        | null =>
          exact removeMany_foreign_update payloads rest doc ps r idx g hps
            hg hfor'
        | map es =>
          exact removeMany_foreign_update payloads rest doc ps r idx g hps
            hg hfor'

/-- Adding every rendered payload to every target perspective and then
removing the matching relations restores each perspective's relations
list; the head perspective is handled and the induction continues on a
document whose head perspective is already restored, transported across
the remaining adds/removes by the foreign-update commutation lemmas. -/
lemma addRemove_roundtrip (payloads : List RelationTemplate)
    (hpl : payloads ≠ [])
    (hwf : ∀ p ∈ payloads, payloadWF p = true) :
    ∀ (pids : List String), pids.Nodup →
    ∀ (doc : YNode) (ps : List YNode) (n r : Nat),
      pseq doc = some ps →
      (∀ pid ∈ pids, ∃ loc, getSinglePerspective doc pid = .ok loc ∧
        ∀ rr ∈ relationsOf loc.node,
          shouldDeleteRelation payloads rr = false) →
      ∃ d₁ d₂,
        addMany payloads pids doc n =
          .ok (d₁, n + pids.length * payloads.length) ∧
        removeMany payloads pids d₁ r =
          .ok (d₂, r + pids.length * payloads.length) ∧
        ReachP doc d₁ ∧ ReachP doc d₂ ∧
        (∀ j, relationsAtIndex d₂ j = relationsAtIndex doc j)
  | [], _, doc, ps, n, r, hps, hloc => by
    refine ⟨doc, doc, ?_, ?_, ReachP.refl doc, ReachP.refl doc,
      fun j => rfl⟩
    · rw [addMany]; simp
    · rw [removeMany]; simp
  | pid :: rest, hnd, doc, ps, n, r, hps, hloc => by
    have hend : ∀ p ∈ payloads, payloadEndpointOk p = true :=
      fun p hp => payloadWF_endpoint (hwf p hp)
    obtain ⟨loc, hlook, hnom⟩ := hloc pid (List.mem_cons_self _ _)
    obtain ⟨hid, hgetn, ⟨esN, hesN⟩, hidn⟩ :=
      getSinglePerspective_ok_facts hps hlook
    have hpid_rest : pid ∉ rest := (List.nodup_cons.mp hnd).1
    have hndrest : rest.Nodup := (List.nodup_cons.mp hnd).2
    have hBne : payloads.map relFromPayload ≠ [] := by
      cases payloads with
      | nil => exact absurd rfl hpl
      | cons p pl => simp
    -- head add step
    have hstepA := addPayloads_spec pid payloads doc ps loc n hps hlook hend
    -- the document with the head perspective already normalised
    have hpseqN : pseq (updatePerspectiveNode doc loc.index
        (fun q => setRelations q (relationsOf loc.node))) =
        some (listModify ps loc.index
          (fun q => setRelations q (relationsOf loc.node))) :=
      pseq_update hps _ _
    -- rest hypotheses transported to the normalised document
    have hrest_ne : ∀ q ∈ rest, ∀ lq,
        getSinglePerspective doc q = .ok lq → lq.index ≠ loc.index := by
      intro q hq lq hlq hcon
      exact hpid_rest (by
        rw [← getSinglePerspective_index_inj hps hlq hlook hcon]
        exact hq)
    have hlocN : ∀ q ∈ rest, ∃ lq, getSinglePerspective
        (updatePerspectiveNode doc loc.index
          (fun q => setRelations q (relationsOf loc.node))) q = .ok lq ∧
        ∀ rr ∈ relationsOf lq.node,
          shouldDeleteRelation payloads rr = false := by
      intro q hq
      obtain ⟨lq, hlq, hnomq⟩ := hloc q (List.mem_cons_of_mem _ hq)
      refine ⟨⟨lq.identifier, lq.node, lq.index⟩, ?_, hnomq⟩
      rw [getSinglePerspective_update hps _ (gpres_setRelations _) _ q, hlq]
      simp [hrest_ne q hq lq hlq]
    have hokN : ∀ q ∈ rest, ∃ lq, getSinglePerspective
        (updatePerspectiveNode doc loc.index
          (fun q => setRelations q (relationsOf loc.node))) q = .ok lq :=
      fun q hq => ⟨_, (hlocN q hq).choose_spec.1⟩
    have hforN : ∀ q ∈ rest, ∀ lq, getSinglePerspective
        (updatePerspectiveNode doc loc.index
          (fun q => setRelations q (relationsOf loc.node))) q = .ok lq →
        lq.index ≠ loc.index := by
      intro q hq lq hlq
      rw [getSinglePerspective_update hps _ (gpres_setRelations _) _ q]
        at hlq
      cases hlq₀ : getSinglePerspective doc q with
      | error e => rw [hlq₀] at hlq; exact Except.noConfusion hlq
      | ok lq₀ =>
        rw [hlq₀] at hlq
        have : lq = ⟨lq₀.identifier,
            if lq₀.index = loc.index then
              setRelations lq₀.node (relationsOf loc.node) else lq₀.node,
            lq₀.index⟩ := by
          injection hlq with h'
          exact h'.symm
        rw [this]
        exact hrest_ne q hq lq₀ hlq₀
    -- induction hypothesis on the normalised document
    obtain ⟨D₁, D₂, hIHadd, hIHrem, hIHr1, hIHr2, hIHrels⟩ :=
      addRemove_roundtrip payloads hpl hwf rest hndrest _ _
        (n + payloads.length) (r + payloads.length) hpseqN hlocN
    -- closed form and commutation for the adds on the rest
    obtain ⟨D₁', hA1, hAreach, hAcomm⟩ :=
      addMany_spec_comm payloads hend rest _ _ (n + payloads.length)
        hpseqN hokN
    have hD : D₁' = D₁ := by
      have h := hA1.symm.trans hIHadd
      simpa using h
    rw [hD] at hA1 hAreach hAcomm
    -- doc₁ is the normalised document with the combined list installed
    have hdoc₁ : updatePerspectiveNode doc loc.index
        (gAdd (payloads.map relFromPayload)) =
        updatePerspectiveNode (updatePerspectiveNode doc loc.index
          (fun q => setRelations q (relationsOf loc.node))) loc.index
          (fun q => setRelations q
            (relationsOf loc.node ++ payloads.map relFromPayload)) := by
      rw [updatePerspectiveNode_compose hps loc.index _ _]
      have h2 : (fun q => setRelations
          (setRelations q (relationsOf loc.node))
          (relationsOf loc.node ++ payloads.map relFromPayload)) =
          (fun q => setRelations q
            (relationsOf loc.node ++ payloads.map relFromPayload)) :=
        funext fun q => setRelations_setRelations q _ _
      rw [h2]
      apply updatePerspectiveNode_congr hps loc.index
      intro x hx
      have hxn : x = loc.node := by
        rw [hgetn] at hx
        injection hx with h'
        exact h'.symm
      rw [hxn]
      cases hB : payloads.map relFromPayload with
      | nil => exact absurd hB hBne
      | cons b bs => rfl
    refine ⟨updatePerspectiveNode D₁ loc.index
        (fun q => setRelations q
          (relationsOf loc.node ++ payloads.map relFromPayload)),
      updatePerspectiveNode D₂ loc.index
        (fun q => setRelations q (relationsOf loc.node)),
      ?_, ?_, ?_, ?_, ?_⟩
    · -- the combined add
      rw [addMany]
      simp only [hstepA, exceptBind_ok]
      rw [hdoc₁, hAcomm loc.index _ (gpres_setRelations _) hforN]
      have hc : n + payloads.length + rest.length * payloads.length =
          n + (pid :: rest).length * payloads.length := by
        rw [List.length_cons]; ring
      rw [hc]
    · -- the combined remove
      obtain ⟨psD₁, hpsD₁⟩ := reachP_pseq hAreach hpseqN
      have hlookN : getSinglePerspective (updatePerspectiveNode doc
          loc.index (fun q => setRelations q (relationsOf loc.node))) pid =
          .ok ⟨loc.identifier, setRelations loc.node (relationsOf loc.node),
            loc.index⟩ := by
        rw [getSinglePerspective_update hps _ (gpres_setRelations _) _ pid,
          hlook]
        simp
      obtain ⟨nodeD, hlookD₁, hmapD⟩ :=
        reachP_lookup_ok hAreach hpseqN hlookN
      obtain ⟨esD, hesD⟩ := hmapD ⟨_, by rw [hesN]; rfl⟩
      have hlookd₁ : getSinglePerspective (updatePerspectiveNode D₁
          loc.index (fun q => setRelations q
            (relationsOf loc.node ++ payloads.map relFromPayload))) pid =
          .ok ⟨loc.identifier, setRelations nodeD
            (relationsOf loc.node ++ payloads.map relFromPayload),
            loc.index⟩ := by
        rw [getSinglePerspective_update hpsD₁ _ (gpres_setRelations _) _
          pid, hlookD₁]
        simp
      have hrelget : (setRelations nodeD
          (relationsOf loc.node ++ payloads.map relFromPayload)).get?
            "relations" =
          some (.seq (relationsOf loc.node ++
            payloads.map relFromPayload)) := by
        rw [hesD]
        show alGet (alSet esD "relations" _) "relations" = _
        rw [alGet_alSet_same]
      have hkept : (relationsOf loc.node ++
          payloads.map relFromPayload).filter
            (fun x => !shouldDeleteRelation payloads x) =
          relationsOf loc.node := by
        rw [List.filter_append]
        have h1 : (relationsOf loc.node).filter
            (fun x => !shouldDeleteRelation payloads x) =
            relationsOf loc.node :=
          List.filter_eq_self.mpr (fun a ha => by simp [hnom a ha])
        have h2 : (payloads.map relFromPayload).filter
            (fun x => !shouldDeleteRelation payloads x) = [] := by
          rw [List.filter_eq_nil_iff]
          intro b hb
          obtain ⟨p, hp, rfl⟩ := List.mem_map.mp hb
          simp [shouldDelete_relFromPayload hp (hwf p hp)]
        rw [h1, h2, List.append_nil]
      have hdel : ((relationsOf loc.node ++
          payloads.map relFromPayload).filter
            (shouldDeleteRelation payloads)).length =
          payloads.length := by
        rw [List.filter_append]
        have h1 : (relationsOf loc.node).filter
            (shouldDeleteRelation payloads) = [] := by
          rw [List.filter_eq_nil_iff]
          intro a ha
          simp [hnom a ha]
        have h2 : (payloads.map relFromPayload).filter
            (shouldDeleteRelation payloads) =
            payloads.map relFromPayload :=
          List.filter_eq_self.mpr (fun b hb => by
            obtain ⟨p, hp, rfl⟩ := List.mem_map.mp hb
            exact shouldDelete_relFromPayload hp (hwf p hp))
        rw [h1, h2, List.nil_append, List.length_map]
      have hforD₁ : ∀ q ∈ rest, ∀ lq,
          getSinglePerspective D₁ q = .ok lq → lq.index ≠ loc.index := by
        intro q hq lq hlq
        obtain ⟨lqN, hlqN, hnomN⟩ := hlocN q hq
        obtain ⟨nodeq, hlq', hmapq⟩ := reachP_lookup_ok hAreach hpseqN hlqN
        rw [hlq'] at hlq
        have : lq = ⟨lqN.identifier, nodeq, lqN.index⟩ := by
          injection hlq with h'
          exact h'.symm
        rw [this]
        exact hforN q hq lqN hlqN
      rw [removeMany]
      simp only [hlookd₁, exceptBind_ok]
      rw [hrelget]
      simp only [hkept, hdel]
      rw [show updatePerspectiveNode (updatePerspectiveNode D₁ loc.index
          (fun q => setRelations q
            (relationsOf loc.node ++ payloads.map relFromPayload)))
          loc.index (fun q => setRelations q (relationsOf loc.node)) =
          updatePerspectiveNode D₁ loc.index
            (fun q => setRelations q (relationsOf loc.node)) from by
        rw [updatePerspectiveNode_compose hpsD₁ loc.index _ _]
        exact congrArg _ (funext fun q => setRelations_setRelations q _ _)]
      rw [removeMany_foreign_update payloads rest D₁ psD₁
        (r + payloads.length) loc.index _ hpsD₁ (gpres_setRelations _)
        hforD₁]
      rw [hIHrem]
      have hc : r + payloads.length + rest.length * payloads.length =
          r + (pid :: rest).length * payloads.length := by
        rw [List.length_cons]; ring
      rw [hc]
    · exact ReachP.step loc.index
        (reachP_trans (ReachP.step loc.index (ReachP.refl doc)
          (gpres_setRelations _)) hAreach) (gpres_setRelations _)
    · exact ReachP.step loc.index
        (reachP_trans (ReachP.step loc.index (ReachP.refl doc)
          (gpres_setRelations _)) hIHr2) (gpres_setRelations _)
    · -- the relations lists are restored
      obtain ⟨psD₂, hpsD₂⟩ := reachP_pseq hIHr2 hpseqN
      have hlookN : getSinglePerspective (updatePerspectiveNode doc
          loc.index (fun q => setRelations q (relationsOf loc.node))) pid =
          .ok ⟨loc.identifier, setRelations loc.node (relationsOf loc.node),
            loc.index⟩ := by
        rw [getSinglePerspective_update hps _ (gpres_setRelations _) _ pid,
          hlook]
        simp
      obtain ⟨node₂, hlookD₂, hmap₂⟩ :=
        reachP_lookup_ok hIHr2 hpseqN hlookN
      obtain ⟨es₂, hes₂⟩ := hmap₂ ⟨_, by rw [hesN]; rfl⟩
      obtain ⟨-, hget₂, -, -⟩ := getSinglePerspective_ok_facts hpsD₂ hlookD₂
      intro j
      by_cases hj : j = loc.index
      · subst hj
        rw [relationsAtIndex_update_same hpsD₂ hget₂ _, hes₂,
          relationsOf_setRelations, relationsAtIndex_eq hps loc.index,
          hgetn]
      · rw [relationsAtIndex_update_ne hpsD₂ hj _, hIHrels j,
          relationsAtIndex_update_ne hps hj _]

lemma getSinglePerspective_ok_mem {doc : YNode} {pid : String}
    {loc : PerspectiveLocation}
    (h : getSinglePerspective doc pid = .ok loc) :
    loc ∈ buildPerspectiveLocations doc := by
  rw [getSinglePerspective] at h
  cases hc : (buildPerspectiveLocations doc).filter
      (fun it => it.identifier = pid) with
  | nil => rw [hc] at h; exact Except.noConfusion h
  | cons x rest =>
    rw [hc] at h
    cases hre : rest.isEmpty with
    | false => simp [hre] at h
    | true =>
      simp [hre] at h
      subst h
      exact List.mem_of_mem_filter (hc ▸ List.mem_cons_self x rest)

lemma addPayloads_ok_reach (pid : String) :
    ∀ (payloads : List RelationTemplate) (doc : YNode) (ps : List YNode)
      (n : Nat) (res : YNode × Nat),
      pseq doc = some ps →
      addPayloads pid payloads doc n = .ok res →
      ReachP doc res.1 ∧
        (payloads ≠ [] → ∃ loc, getSinglePerspective doc pid = .ok loc)
  | [], doc, ps, n, res, hps, h => by
    rw [addPayloads] at h
    have : res = (doc, n) := by
      injection h with h'
      exact h'.symm
    rw [this]
    exact ⟨ReachP.refl doc, fun hne => absurd rfl hne⟩
  | payload :: rest, doc, ps, n, res, hps, h => by
    rw [addPayloads] at h
    cases hstep : add_relation doc pid (asStr (tGet payload "from"))
        (asStr (tGet payload "to")) (asStr (tGet payload "via"))
        (asStr (tGet payload "label")) (asStr (tGet payload "description"))
        (asStr (tGet payload "arrowDirection"))
        (asStr (tGet payload "color")) (asBool (tGet payload "secondary"))
        with
    | error e =>
      rw [hstep] at h
      simp only [exceptBind_err] at h
      exact Except.noConfusion h
    | ok pr =>
      obtain ⟨doc', flag⟩ := pr
      rw [hstep] at h
      simp only [exceptBind_ok] at h
      rw [add_relation] at hstep
      by_cases hc : (asStr (tGet payload "from") = none ∧
          asStr (tGet payload "to") = none)
      · rw [if_pos hc] at hstep
        simp only [exceptBind_err] at hstep
        exact Except.noConfusion hstep
      · rw [if_neg hc] at hstep
        simp only [pure_bind] at hstep
        cases hlk : getSinglePerspective doc pid with
        | error e =>
          rw [hlk] at hstep
          simp only [exceptBind_err] at hstep
          exact Except.noConfusion hstep
        | ok loc =>
          rw [hlk] at hstep
          simp only [exceptBind_ok] at hstep
          have hdoc' : doc' = updatePerspectiveNode doc loc.index
              (appendRelation (buildRelationNode
                (asStr (tGet payload "from")) (asStr (tGet payload "to"))
                (asStr (tGet payload "via")) (asStr (tGet payload "label"))
                (asStr (tGet payload "description"))
                (asStr (tGet payload "arrowDirection"))
                (asStr (tGet payload "color"))
                (asBool (tGet payload "secondary")))) := by
            injection hstep with h'
            have := congrArg Prod.fst h'
            exact this.symm
          obtain ⟨hreach, -⟩ := addPayloads_ok_reach pid rest doc' _ (n + 1)
            res (by rw [hdoc']; exact pseq_update hps _ _) h
          refine ⟨?_, fun _ => ⟨loc, rfl⟩⟩
          refine reachP_trans ?_ hreach
          rw [hdoc']
          exact ReachP.step loc.index (ReachP.refl doc)
            (gpres_appendRelation _)

lemma addMany_ok_lookup (payloads : List RelationTemplate)
    (hpl : payloads ≠ []) :
    ∀ (pids : List String) (doc : YNode) (ps : List YNode) (n : Nat)
      (res : YNode × Nat),
      pseq doc = some ps →
      addMany payloads pids doc n = .ok res →
      ∀ pid ∈ pids, ∃ loc, getSinglePerspective doc pid = .ok loc
  | [], doc, ps, n, res, hps, h => by
    intro pid hpid
    simp at hpid
  | pid :: rest, doc, ps, n, res, hps, h => by
    rw [addMany] at h
    cases hstep : addPayloads pid payloads doc n with
    | error e =>
      rw [hstep] at h
      simp only [exceptBind_err] at h
      exact Except.noConfusion h
    | ok pr =>
      obtain ⟨doc', n'⟩ := pr
      rw [hstep] at h
      simp only [exceptBind_ok] at h
      obtain ⟨hreach, hlk⟩ :=
        addPayloads_ok_reach pid payloads doc ps n (doc', n') hps hstep
      obtain ⟨psd, hpsd⟩ := reachP_pseq hreach hps
      have hrest := addMany_ok_lookup payloads hpl rest doc' psd n' res
        hpsd h
      intro q hq
      rcases List.mem_cons.mp hq with rfl | hq'
      · exact hlk hpl
      · obtain ⟨lq, hlq⟩ := hrest q hq'
        cases hlq₀ : getSinglePerspective doc q with
        | error e =>
          rw [reachP_lookup_err hreach hps hlq₀] at hlq
          exact Except.noConfusion hlq
        | ok lq₀ => exact ⟨lq₀, rfl⟩

/-- **C7 (amended).** For every document, every non-empty duplicate-free
set of resolved target perspectives, every resolved context list and every
relation template whose rendered payloads are well-formed (known relation
fields of the right types, unique keys, an endpoint present) and are not
already matched by any pre-existing relation of the document, applying
`add_relation_many` and then `remove_relations_match_many` with the same
template and targets removes exactly the relations that were added
(`removed = added`), leaving each perspective's relations list as it was
before.  (Without the no-pre-existing-match hypothesis the claim fails:
see the counterexample.) -/
theorem c7_add_remove_symmetric (doc : YNode) (ps : List YNode)
    (tgt : PTarget) (ctxs : Option (List String))
    (template : RelationTemplate) (pids : List String)
    (ctxNames : Option (List String)) (payloads : List RelationTemplate)
    (doc₁ : YNode) (added : Nat)
    (hps : pseq doc = some ps)
    (hresP : resolvePerspectives doc tgt = .ok pids)
    (hresC : resolveContexts doc ctxs = .ok ctxNames)
    (hexp : expandPayloadTemplates template ctxNames = .ok payloads)
    (hpids : pids ≠ []) (hnd : pids.Nodup) (hpl : payloads ≠ [])
    (hwf : ∀ p ∈ payloads, payloadWF p = true)
    (hpre : ∀ loc ∈ buildPerspectiveLocations doc,
      ∀ rr ∈ relationsOf loc.node,
        shouldDeleteRelation payloads rr = false)
    (hadd : add_relation_many doc tgt ctxs template = .ok (doc₁, added)) :
    added = pids.length * payloads.length ∧
    ∃ doc₂, remove_relations_match_many doc₁ tgt ctxs template true =
        .ok (doc₂, added) ∧
      ∀ j, relationsAtIndex doc₂ j = relationsAtIndex doc j := by
  rw [add_relation_many] at hadd
  simp only [hresP, hresC, hexp, exceptBind_ok] at hadd
  have hlkAll := addMany_ok_lookup payloads hpl pids doc ps 0 (doc₁, added)
    hps hadd
  have hloc : ∀ pid ∈ pids, ∃ loc,
      getSinglePerspective doc pid = .ok loc ∧
      ∀ rr ∈ relationsOf loc.node,
        shouldDeleteRelation payloads rr = false := by
    intro pid hpid
    obtain ⟨loc, hl⟩ := hlkAll pid hpid
    exact ⟨loc, hl, hpre loc (getSinglePerspective_ok_mem hl)⟩
  obtain ⟨d₁, d₂, hAdd, hRem, hr1, hr2, hrels⟩ :=
    addRemove_roundtrip payloads hpl hwf pids hnd doc ps 0 0 hps hloc
  have hpair := hadd.symm.trans hAdd
  simp only [Except.ok.injEq, Prod.mk.injEq, Nat.zero_add] at hpair
  obtain ⟨hd, hcnt⟩ := hpair
  refine ⟨hcnt, d₂, ?_, hrels⟩
  rw [hd, remove_relations_match_many]
  rw [reachP_resolveP hr1 hps tgt, hresP]
  simp only [exceptBind_ok]
  rw [reachP_resolveC hr1 ctxs, hresC]
  simp only [exceptBind_ok]
  rw [hexp]
  simp only [exceptBind_ok]
  rw [hRem]
  simp only [exceptBind_ok]
  have hne0 : ¬ (True ∧ 0 + pids.length * payloads.length = 0) := by
    rintro ⟨-, h0⟩
    rw [Nat.zero_add, Nat.mul_eq_zero] at h0
    rcases h0 with h0 | h0
    · exact hpids (List.length_eq_zero.mp h0)
    · exact hpl (List.length_eq_zero.mp h0)
  rw [if_neg hne0]
  simp only [pure_bind]
  rw [hcnt]
  simp

/-- The template of the C7 witness. -/
def c7Template : RelationTemplate := [("from", .s "app"), ("to", .s "db")]

/-- A two-perspective document without relations. -/
def c7DocW : YNode :=
  .map [("perspectives", .seq [
    .map [("id", .str "p" false)],
    .map [("id", .str "q" false)]])]

/-- The relation node the witness template builds. -/
def c7RelW : YNode :=
  .map [("from", .str "app" false), ("to", .str "db" false)]

/-- `c7DocW` after adding the templated relation to both perspectives. -/
def c7DocW1 : YNode :=
  .map [("perspectives", .seq [
    .map [("id", .str "p" false), ("relations", .seq [c7RelW])],
    .map [("id", .str "q" false), ("relations", .seq [c7RelW])]])]

/-- Witness for C7 at a concrete two-perspective document: two relations
are added, the matching removal reports two removals and restores every
relations list. -/
theorem c7_add_remove_symmetric_witness :
    2 = (["p", "q"] : List String).length *
      ([c7Template] : List RelationTemplate).length ∧
    ∃ doc₂, remove_relations_match_many c7DocW1 (.list ["p", "q"]) none
        c7Template true = .ok (doc₂, 2) ∧
      ∀ j, relationsAtIndex doc₂ j = relationsAtIndex c7DocW j :=
  c7_add_remove_symmetric c7DocW
    [.map [("id", .str "p" false)], .map [("id", .str "q" false)]]
    (.list ["p", "q"]) none c7Template ["p", "q"] none [c7Template]
    c7DocW1 2 rfl rfl rfl rfl (by decide) (by decide) (by decide)
    (by decide) (by decide) rfl

/-! ### Reference parsing (`core/references.py`) -/

/-- Python `str.rstrip()`. -/
def pyRStrip (s : String) : String :=
  ⟨(s.data.reverse.dropWhile isPySpace).reverse⟩

/-- Python `str.lstrip()`. -/
def pyLStrip (s : String) : String :=
  ⟨s.data.dropWhile isPySpace⟩

/-- Python `str.lower()` (ASCII suffices for the compared tokens). -/
def pyLower (s : String) : String :=
  ⟨s.data.map Char.toLower⟩

/-- `SPECIAL_REFERENCE_TOKENS = {"*", "none", "^"}`. -/
def SPECIAL_REFERENCE_TOKENS : List String := ["*", "none", "^"]

/-- `ReferenceComponent`. -/
structure ReferenceComponent where
  token : String
  raw : String
  relative : Bool
  wildcard : Bool
  namespaced : Bool
  special : Bool
deriving Repr, DecidableEq

/-- The character loop of `split_reference_list`, with its full state:
current segment, `[]`/`()` depths, quote flags, escape flag, parts. -/
def splitRefGo : List Char → List Char → Nat → Nat → Bool → Bool → Bool →
    List String → List String
  | [], current, _, _, _, _, _, parts =>
    let tail := pyStrip ⟨current⟩
    if tail ≠ "" then parts ++ [tail] else parts
  | c :: rest, current, sq, pd, inS, inD, esc, parts =>
    if esc then
      splitRefGo rest (current ++ [c]) sq pd inS inD false parts
    else if c = '\\' ∧ (inS ∨ inD) then
      splitRefGo rest (current ++ [c]) sq pd inS inD true parts
    else if c = '\'' ∧ ¬ inD then
      splitRefGo rest (current ++ [c]) sq pd (!inS) inD esc parts
    else if c = '"' ∧ ¬ inS then
      splitRefGo rest (current ++ [c]) sq pd inS (!inD) esc parts
    else if ¬ inS ∧ ¬ inD then
      if c = '[' then
        splitRefGo rest (current ++ [c]) (sq + 1) pd inS inD esc parts
      else if c = ']' ∧ sq > 0 then
        splitRefGo rest (current ++ [c]) (sq - 1) pd inS inD esc parts
      else if c = '(' then
        splitRefGo rest (current ++ [c]) sq (pd + 1) inS inD esc parts
      else if c = ')' ∧ pd > 0 then
        splitRefGo rest (current ++ [c]) sq (pd - 1) inS inD esc parts
      else if c = ',' ∧ sq = 0 ∧ pd = 0 then
        let segment := pyStrip ⟨current⟩
        splitRefGo rest [] sq pd inS inD esc
          (if segment ≠ "" then parts ++ [segment] else parts)
      else
        splitRefGo rest (current ++ [c]) sq pd inS inD esc parts
    else
      splitRefGo rest (current ++ [c]) sq pd inS inD esc parts

/-- `split_reference_list(raw)`. -/
def split_reference_list (raw : String) : List String :=
  splitRefGo raw.data [] 0 0 false false false []

/-- The index loop of `_split_path` (a `//` separator consumes the second
slash). -/
def splitPathGo : List Char → List Char → Nat → Nat → List String →
    List String
  | [], current, _, _, parts =>
    let tail := pyStrip ⟨current⟩
    if tail ≠ "" then parts ++ [tail] else parts
  | c :: rest, current, sq, pd, parts =>
    if c = '/' ∧ sq = 0 ∧ pd = 0 then
      let segment := pyStrip ⟨current⟩
      let parts' := if segment ≠ "" then parts ++ [segment] else parts
      if rest.head? = some '/' then splitPathGo rest.tail [] sq pd parts'
      else splitPathGo rest [] sq pd parts'
    else
      let sq' := if c = '[' then sq + 1
        else if c = ']' ∧ sq > 0 then sq - 1 else sq
      let pd' := if c = '(' then pd + 1
        else if c = ')' ∧ pd > 0 then pd - 1 else pd
      splitPathGo rest (current ++ [c]) sq' pd' parts
termination_by l _ _ _ _ => l.length
decreasing_by all_goals (simp only [List.length_cons, List.length_tail]; omega)

/-- `_split_path(raw)`. -/
def _split_path (raw : String) : List String :=
  splitPathGo raw.data [] 0 0 []

/-- The reverse scan of `_strip_clone_suffix`: walks the text from its
end (the list is the reversed text), accumulating the suffix already
passed; returns the characters before the clone marker when one is
found. -/
def stripCloneGo : List Char → List Char → Nat → Nat → Option (List Char)
  | [], _, _, _ => none
  | c :: revRest, suffix, sq, pd =>
    if c = ']' then stripCloneGo revRest (c :: suffix) (sq + 1) pd
    else if c = '[' ∧ sq > 0 then stripCloneGo revRest (c :: suffix) (sq - 1) pd
    else if c = ')' then stripCloneGo revRest (c :: suffix) sq (pd + 1)
    else if c = '(' ∧ pd > 0 then stripCloneGo revRest (c :: suffix) sq (pd - 1)
    else if sq > 0 ∨ pd > 0 then stripCloneGo revRest (c :: suffix) sq pd
    else if c ≠ '*' then stripCloneGo revRest (c :: suffix) sq pd
    else
      match revRest with
      | [] => none
      | prev :: revRest' =>
        if ¬ isPySpace prev then stripCloneGo revRest (c :: suffix) sq pd
        else
          let suffixStr := pyStrip ⟨suffix⟩
          if suffixStr = "" then stripCloneGo revRest (c :: suffix) sq pd
          else if suffixStr.data.any
              (fun ch => isPySpace ch ∨ ch = '/' ∨ ch = ',') then
            stripCloneGo revRest (c :: suffix) sq pd
          else some revRest'.reverse

/-- `_strip_clone_suffix(raw)`. -/
def _strip_clone_suffix (raw : String) : String :=
  let text := pyRStrip raw
  if text = "" then text
  else
    match stripCloneGo text.data.reverse [] 0 0 with
    | some pre => pyRStrip ⟨pre⟩
    | none => text

/-- The relative-marker stripping loop of `_parse_part_components`. -/
def stripRelGo : List Char → Bool → List Char × Bool
  | l, rel =>
    if h3 : ("../".data).isPrefixOf l then
      stripRelGo ((l.drop 3).dropWhile isPySpace) true
    else if h4 : (".../".data).isPrefixOf l then
      stripRelGo ((l.drop 4).dropWhile isPySpace) true
    else (l, rel)
termination_by l _ => l.length
decreasing_by
  · have hlen : 3 ≤ l.length := by
      have := (List.isPrefixOf_iff_prefix.mp h3).length_le
      simpa using this
    have hd := (List.dropWhile_sublist (l := l.drop 3) isPySpace).length_le
    simp only [List.length_drop] at hd ⊢
    omega
  · have hlen : 4 ≤ l.length := by
      have := (List.isPrefixOf_iff_prefix.mp h4).length_le
      simpa using this
    have hd := (List.dropWhile_sublist (l := l.drop 4) isPySpace).length_le
    simp only [List.length_drop] at hd ⊢
    omega

/-- `token.split("::", 1)[0]`: the prefix before the first `::`. -/
def namespacePrefix (s : String) : String :=
  ⟨nsGo s.data⟩
where
  nsGo : List Char → List Char
    | [] => []
    | c :: rest =>
      if ("::".data).isPrefixOf (c :: rest) then []
      else c :: nsGo rest

/-- The `[token]` unwrap step of `_parse_part_components`
(`token[1:-1].strip()` when bracketed). -/
def unwrapBracketToken (token₀ : String) : String :=
  if token₀.data.length ≥ 2 ∧ token₀.data.head? = some '[' ∧
      token₀.data.getLast? = some ']' then
    pyStrip ⟨(token₀.data.drop 1).dropLast⟩
  else token₀

/-- Whether the lowered token is a special reference token. -/
def isSpecialToken (token : String) : Bool :=
  SPECIAL_REFERENCE_TOKENS.contains (pyLower token)

/-- The component loop of `_parse_part_components`. -/
def componentLoop (relative : Bool) : List String → List ReferenceComponent
  | [] => []
  | rawComponent :: rest =>
    (if pyStrip rawComponent = "" then []
     else if unwrapBracketToken (pyStrip rawComponent) = "" then []
     else
       [{ token := unwrapBracketToken (pyStrip rawComponent),
          raw := rawComponent, relative := relative,
          wildcard :=
            (unwrapBracketToken (pyStrip rawComponent)).data.contains '*' ∧
            ¬ isSpecialToken (unwrapBracketToken (pyStrip rawComponent)),
          namespaced := hasInfixSeq ("::".data)
            (unwrapBracketToken (pyStrip rawComponent)).data,
          special :=
            isSpecialToken (unwrapBracketToken (pyStrip rawComponent)) }])
      ++ componentLoop relative rest

/-- `_parse_part_components(part)`. -/
def _parse_part_components (part : String) : List ReferenceComponent :=
  let base₀ := _strip_clone_suffix (pyStrip part)
  if base₀ = "" then []
  else
    let sr := stripRelGo base₀.data false
    if sr.1.isEmpty then []
    else componentLoop sr.2 (_split_path ⟨sr.1⟩)

/-- The part loop of `parse_reference_components`. -/
def partsLoop : List String → List ReferenceComponent
  | [] => []
  | part :: rest => _parse_part_components part ++ partsLoop rest

/-- `parse_reference_components(raw)`. -/
def parse_reference_components (raw : String) : List ReferenceComponent :=
  partsLoop (split_reference_list raw)

/-! ### Reference-bearing fields (`core/reference_fields.py`) -/

/-- `WALKTHROUGH_REFERENCE_KEYS`. -/
def WALKTHROUGH_REFERENCE_KEYS : List String :=
  ["select", "expand", "hide", "focus", "highlight", "include", "exclude",
   "root", "center", "zoomTo"]

/-- `ReferenceField` (the `value` property is materialised: every yield is
guarded by an `isinstance(str)` check on the container's value). -/
structure ReferenceField where
  value : String
  path : String
  perspective : Option String
  sectionName : String
deriving Repr, DecidableEq

/-- `_iter_resource_reference_fields` (with the `children` descent). -/
def iterResourceRefFields (includeInstanceOf : Bool) (basePath : String) :
    Nat → List YNode → List ReferenceField
  | _, [] => []
  | i, r :: rest =>
    (match hr : r with
     | .map es =>
       let path := basePath ++ "[" ++ toString i ++ "]"
       (match alGet es "instanceOf" with
        | some (.str v _) =>
          if includeInstanceOf then
            [{ value := v, path := path ++ ".instanceOf",
               perspective := none, sectionName := "resource.instanceOf" }]
          else []
        | _ => []) ++
       (match hc : r.get? "children" with
        | some (.seq cs) =>
          iterResourceRefFields includeInstanceOf (path ++ ".children") 0 cs
        | _ => [])
     | _ => []) ++ iterResourceRefFields includeInstanceOf basePath (i + 1) rest
termination_by _ l => sizeOf l
decreasing_by
  · have h1 := sizeOf_get?_map (hr ▸ hc)
    subst hr
    simp at h1 ⊢
    omega
  · simp

/-- The `from`/`to`/`via` yields of one relation row. -/
def relationFieldsOf (perspective : Option String) (relPath : String)
    (rel : YNode) : List ReferenceField :=
  match rel with
  | .map es =>
    (match alGet es "from" with
     | some (.str v _) =>
       [{ value := v, path := relPath ++ ".from",
          perspective := perspective, sectionName := "relations" }]
     | _ => []) ++
    (match alGet es "to" with
     | some (.str v _) =>
       [{ value := v, path := relPath ++ ".to",
          perspective := perspective, sectionName := "relations" }]
     | _ => []) ++
    (match alGet es "via" with
     | some (.str v _) =>
       [{ value := v, path := relPath ++ ".via",
          perspective := perspective, sectionName := "relations" }]
     | _ => [])
  | _ => []

def relationsRefLoop (perspective : Option String) (basePath : String) :
    Nat → List YNode → List ReferenceField
  | _, [] => []
  | i, rel :: rest =>
    relationFieldsOf perspective
      (basePath ++ ".relations[" ++ toString i ++ "]") rel ++
    relationsRefLoop perspective basePath (i + 1) rest

/-- The `resourceId`/`parentId` yields of one override row. -/
def overrideFieldsOf (perspective : Option String) (ovPath : String)
    (ov : YNode) : List ReferenceField :=
  match ov with
  | .map es =>
    (match alGet es "resourceId" with
     | some (.str v _) =>
       [{ value := v, path := ovPath ++ ".resourceId",
          perspective := perspective, sectionName := "overrides" }]
     | _ => []) ++
    (match alGet es "parentId" with
     | some (.str v _) =>
       [{ value := v, path := ovPath ++ ".parentId",
          perspective := perspective, sectionName := "overrides" }]
     | _ => [])
  | _ => []

def overridesRefLoop (perspective : Option String) (basePath : String) :
    Nat → List YNode → List ReferenceField
  | _, [] => []
  | i, ov :: rest =>
    overrideFieldsOf perspective
      (basePath ++ ".overrides[" ++ toString i ++ "]") ov ++
    overridesRefLoop perspective basePath (i + 1) rest

def aliasesRefLoop (perspective : Option String) (basePath : String) :
    Nat → List YNode → List ReferenceField
  | _, [] => []
  | i, aliasNode :: rest =>
    (match aliasNode with
     | .map es =>
       match alGet es "for" with
       | some (.str v _) =>
         [{ value := v,
            path := basePath ++ ".aliases[" ++ toString i ++ "].for",
            perspective := perspective, sectionName := "aliases" }]
       | _ => []
     | _ => []) ++ aliasesRefLoop perspective basePath (i + 1) rest

/-- One walkthrough slide: its own entries, in order, filtered to the
reference keys with string values. -/
def slideFields (perspective : Option String) (slidePath : String)
    (slide : YNode) : List ReferenceField :=
  match slide with
  | .map es =>
    es.filterMap fun kv =>
      if WALKTHROUGH_REFERENCE_KEYS.contains kv.1 then
        match kv.2 with
        | .str v _ =>
          some { value := v, path := slidePath ++ "." ++ kv.1,
                 perspective := perspective, sectionName := "walkthrough" }
        | _ => none
      else none
  | _ => []

def walkthroughRefLoop (perspective : Option String) (basePath : String) :
    Nat → List YNode → List ReferenceField
  | _, [] => []
  | i, slide :: rest =>
    slideFields perspective
      (basePath ++ ".walkthrough[" ++ toString i ++ "]") slide ++
    walkthroughRefLoop perspective basePath (i + 1) rest

/-- `_iter_steps_reference_fields` (with the `subSequence` descent). -/
def stepsRefFields (perspective : Option String) (basePath : String) :
    Nat → List YNode → List ReferenceField
  | _, [] => []
  | i, step :: rest =>
    (match hs : step with
     | .map es =>
       let sp := basePath ++ "[" ++ toString i ++ "]"
       (match alGet es "to" with
        | some (.str v _) =>
          [{ value := v, path := sp ++ ".to",
             perspective := perspective, sectionName := "sequence" }]
        | _ => []) ++
       (match alGet es "toAndBack" with
        | some (.str v _) =>
          [{ value := v, path := sp ++ ".toAndBack",
             perspective := perspective, sectionName := "sequence" }]
        | _ => []) ++
       (match alGet es "toAsync" with
        | some (.str v _) =>
          [{ value := v, path := sp ++ ".toAsync",
             perspective := perspective, sectionName := "sequence" }]
        | _ => []) ++
       (match alGet es "restartAt" with
        | some (.str v _) =>
          [{ value := v, path := sp ++ ".restartAt",
             perspective := perspective, sectionName := "sequence" }]
        | _ => []) ++
       (match hsub : step.get? "subSequence" with
        | some (.map ss) =>
          (match hss : alGet ss "steps" with
           | some (.seq substeps) =>
             stepsRefFields perspective (sp ++ ".subSequence.steps") 0
               substeps
           | _ => [])
        | _ => [])
     | _ => []) ++ stepsRefFields perspective basePath (i + 1) rest
termination_by _ l => sizeOf l
decreasing_by
  · have h1 := sizeOf_get? (hr ▸ hsub)
    have h2 := sizeOf_alGet hss
    subst hr
    simp at h1 h2 ⊢
    omega
  · simp

/-- `_iter_perspective_reference_fields`. -/
def perspectiveRefFields (p : YNode) (perspective : Option String)
    (base : String) : List ReferenceField :=
  (match p.get? "relations" with
   | some (.seq rels) => relationsRefLoop perspective base 0 rels
   | _ => []) ++
  (match p.get? "overrides" with
   | some (.seq ovs) => overridesRefLoop perspective base 0 ovs
   | _ => []) ++
  (match p.get? "aliases" with
   | some (.seq als) => aliasesRefLoop perspective base 0 als
   | _ => []) ++
  (match p.get? "walkthrough" with
   | some (.seq slides) => walkthroughRefLoop perspective base 0 slides
   | _ => []) ++
  (match p.get? "sequence" with
   | some (.map ss) =>
     (match alGet ss "start" with
      | some (.str v _) =>
        [{ value := v, path := base ++ ".sequence.start",
           perspective := perspective, sectionName := "sequence" }]
      | _ => []) ++
     (match alGet ss "steps" with
      | some (.seq steps) =>
        stepsRefFields perspective (base ++ ".sequence.steps") 0 steps
      | _ => [])
   | _ => [])

def perspectivesRefLoop : Nat → List YNode → List ReferenceField
  | _, [] => []
  | i, p :: rest =>
    (match p with
     | .map _ =>
       perspectiveRefFields p (perspective_identifier p)
         ("perspectives[" ++ toString i ++ "]")
     | _ => []) ++ perspectivesRefLoop (i + 1) rest

/-- `iter_reference_fields(document, include_instance_of=...)`. -/
def iter_reference_fields (doc : YNode) (includeInstanceOf : Bool) :
    List ReferenceField :=
  (match doc.get? "resources" with
   | some (.seq rs) => iterResourceRefFields includeInstanceOf "resources" 0 rs
   | _ => []) ++
  (match doc.get? "perspectives" with
   | some (.seq ps) => perspectivesRefLoop 0 ps
   | _ => [])

/-! ### Document validation (`core/validators.py`) -/

/-- `ValidationIssue`. -/
structure ValidationIssue where
  code : String
  path : String
  message : String
deriving Repr, DecidableEq

/-- `CheckResult` (`ok` is `not issues`). -/
structure CheckResult where
  issues : List ValidationIssue
deriving Repr, DecidableEq

def CheckResult.ok (r : CheckResult) : Bool := r.issues.isEmpty

/-- `ValidationMode`. -/
inductive VMode where
  | strict
  | native
deriving Repr, DecidableEq

/-- The resource part of `_collect_known_identifiers`: stripped non-blank
`id` and `name` strings of every resource location. -/
def resourceKnown : List ResourceLocation → List String
  | [] => []
  | loc :: rest =>
    (match loc.node.get? "id" with
     | some (.str s _) => if pyStrip s ≠ "" then [pyStrip s] else []
     | _ => []) ++
    (match loc.node.get? "name" with
     | some (.str s _) => if pyStrip s ≠ "" then [pyStrip s] else []
     | _ => []) ++ resourceKnown rest

def perspectiveKnown : List YNode → List String
  | [] => []
  | p :: rest =>
    (match p with
     | .map _ =>
       match perspective_identifier p with
       | some i => [i]
       | none => []
     | _ => []) ++ perspectiveKnown rest

/-- `_collect_known_identifiers(document)` (as a membership list). -/
def _collect_known_identifiers (doc : YNode) : List String :=
  resourceKnown (buildResourceLocations doc) ++
  (match doc.get? "perspectives" with
   | some (.seq ps) => perspectiveKnown ps
   | _ => [])

/-- The alias set of one perspective node. -/
def perspectiveAliasList (p : YNode) : List String :=
  match p.get? "aliases" with
  | some (.seq als) =>
    als.filterMap fun a =>
      match a with
      | .map _ =>
        match a.get? "alias" with
        | some (.str s _) => some s
        | _ => none
      | _ => none
  | _ => []

/-- `_build_perspective_aliases(document)` as an ordered association list
(the Python dict keeps the last assignment per identifier). -/
def _build_perspective_aliases (doc : YNode) :
    List (Option String × List String) :=
  match doc.get? "perspectives" with
  | some (.seq ps) => aliasEntries ps
  | _ => []
where
  aliasEntries : List YNode → List (Option String × List String)
    | [] => []
    | p :: rest =>
      (match p with
       | .map _ => [(perspective_identifier p, perspectiveAliasList p)]
       | _ => []) ++ aliasEntries rest

/-- Python dict lookup with last-assignment-wins semantics. -/
def aliasLookup : List (Option String × List String) → Option String →
    Option (List String)
  | [], _ => none
  | (k, v) :: rest, q =>
    match aliasLookup rest q with
    | some r => some r
    | none => if k = q then some v else none

/-- `perspective_aliases.get(field.perspective, set())`. -/
def aliasesOf (doc : YNode) (perspective : Option String) : List String :=
  match aliasLookup (_build_perspective_aliases doc) perspective with
  | some r => r
  | none => []

/-- `_build_import_namespaces(document)`. -/
def _build_import_namespaces (doc : YNode) : List String :=
  match doc.get? "imports" with
  | some (.seq items) =>
    items.filterMap fun it =>
      match it with
      | .map _ =>
        match it.get? "namespace" with
        | some (.str s _) => if pyStrip s ≠ "" then some (pyStrip s) else none
        | _ => none
      | _ => none
  | _ => []

/-- The broken-reference message for a token. -/
def brokenRefMsg (token : String) : String :=
  "unknown reference '" ++ token ++
    "' (not found in resources, aliases, or imports)"

def mkBrokenIssue (path token : String) : ValidationIssue :=
  { code := "broken-reference", path := path,
    message := brokenRefMsg token }

/-- The component loop of `_check_broken_references` for one field, with
the `emitted` deduplication set threaded through. -/
def checkComponentsGo (known aliases imports : List String) (mode : VMode)
    (path : String) :
    List ReferenceComponent → List (String × String) →
    List ValidationIssue → List (String × String) × List ValidationIssue
  | [], emitted, acc => (emitted, acc)
  | comp :: rest, emitted, acc =>
    if comp.special || comp.wildcard then
      checkComponentsGo known aliases imports mode path rest emitted acc
    else if known.contains comp.token || aliases.contains comp.token then
      checkComponentsGo known aliases imports mode path rest emitted acc
    else if comp.namespaced ∧
        (imports.contains (namespacePrefix comp.token) ∨ mode = .native) then
      checkComponentsGo known aliases imports mode path rest emitted acc
    else if emitted.contains (path, comp.token) then
      checkComponentsGo known aliases imports mode path rest emitted acc
    else
      checkComponentsGo known aliases imports mode path rest
        (emitted ++ [(path, comp.token)])
        (acc ++ [mkBrokenIssue path comp.token])

/-- The field loop of `_check_broken_references`. -/
def checkBrokenGo (doc : YNode) (known imports : List String)
    (mode : VMode) :
    List ReferenceField → List (String × String) → List ValidationIssue →
    List ValidationIssue
  | [], _, acc => acc
  | f :: rest, emitted, acc =>
    let r := checkComponentsGo known (aliasesOf doc f.perspective) imports
      mode f.path (parse_reference_components f.value) emitted acc
    checkBrokenGo doc known imports mode rest r.1 r.2

/-- `_check_broken_references(document, mode=...)`. -/
def _check_broken_references (doc : YNode) (mode : VMode) :
    List ValidationIssue :=
  checkBrokenGo doc (_collect_known_identifiers doc)
    (_build_import_namespaces doc) mode
    (iter_reference_fields doc false) [] []

/-- `RESTRICTED_RESOURCE_ID_CHARS`. -/
def isRestrictedChar (c : Char) : Bool :=
  c = '/' || c = '^' || c = '*' || c = '[' || c = ']' || c = ','

/-- `_first_restricted_char(value)`. -/
def _first_restricted_char (value : String) : Option Char :=
  value.data.find? isRestrictedChar

/-- The `(stripped id, path)` pairs of `_check_duplicate_resource_ids`. -/
def explicitResourceIds (locs : List ResourceLocation) :
    List (String × String) :=
  locs.filterMap fun loc =>
    match loc.node.get? "id" with
    | some (.str s _) =>
      if pyStrip s ≠ "" then some (pyStrip s, loc.pathStr) else none
    | _ => none

/-- Occurrence count of `x` (the `Counter`). -/
def countOcc (l : List String) (x : String) : Nat :=
  (l.filter (fun y => y = x)).length

/-- `_check_duplicate_resource_ids(document)`. -/
def _check_duplicate_resource_ids (doc : YNode) : List ValidationIssue :=
  let explicitIds := explicitResourceIds (buildResourceLocations doc)
  explicitIds.filterMap fun idAndPath =>
    if countOcc (explicitIds.map Prod.fst) idAndPath.1 ≤ 1 then none
    else some
      { code := "duplicate-resource-id", path := idAndPath.2,
        message := "duplicate resource id: " ++ idAndPath.1 ++
          " (ids must be unique)" }

/-- The `(stripped id, index)` pairs of
`_check_duplicate_perspective_ids`. -/
def explicitPerspectiveIds : Nat → List YNode → List (String × Nat)
  | _, [] => []
  | i, p :: rest =>
    (match p with
     | .map _ =>
       match p.get? "id" with
       | some (.str s _) =>
         if pyStrip s ≠ "" then [(pyStrip s, i)] else []
       | _ => []
     | _ => []) ++ explicitPerspectiveIds (i + 1) rest

/-- `_check_duplicate_perspective_ids(document)`. -/
def _check_duplicate_perspective_ids (doc : YNode) :
    List ValidationIssue :=
  match doc.get? "perspectives" with
  | some (.seq ps) =>
    let explicitIds := explicitPerspectiveIds 0 ps
    explicitIds.filterMap fun idAndIndex =>
      if countOcc (explicitIds.map Prod.fst) idAndIndex.1 ≤ 1 then none
      else some
        { code := "duplicate-perspective-id",
          path := "perspectives[" ++ toString idAndIndex.2 ++ "]",
          message := "duplicate perspective id: " ++ idAndIndex.1 ++
            " (ids must be unique)" }
  | _ => []

/-- The per-resource issues of `_check_restricted_chars`. -/
def restrictedResourceIssues : List ResourceLocation →
    List ValidationIssue
  | [] => []
  | loc :: rest =>
    (match loc.node.get? "id" with
     | some (.str s _) =>
       match _first_restricted_char s with
       | some bad =>
         [{ code := "restricted-resource-id-char",
            path := loc.pathStr ++ ".id",
            message := "resource id contains restricted char '" ++
              String.singleton bad ++ "' (use letters, digits, ., -, _)" }]
       | none => []
     | _ => []) ++
    (match loc.node.get? "name" with
     | some (.str s _) =>
       if loc.node.hasKey "id" then []
       else
         match _first_restricted_char s with
         | some bad =>
           [{ code := "name-needs-id", path := loc.pathStr ++ ".name",
              message :=
                "resource name has restricted char and requires explicit id ('"
                ++ String.singleton bad ++ "'; add a clean `id` field)" }]
         | none => []
     | _ => []) ++ restrictedResourceIssues rest

/-- The alias issues of `_check_restricted_chars` for one perspective. -/
def restrictedAliasIssuesOf (pIndex : Nat) :
    Nat → List YNode → List ValidationIssue
  | _, [] => []
  | j, aliasNode :: rest =>
    (match aliasNode with
     | .map _ =>
       match aliasNode.get? "alias" with
       | some (.str s _) =>
         match _first_restricted_char s with
         | some bad =>
           [{ code := "restricted-alias-char",
              path := "perspectives[" ++ toString pIndex ++ "].aliases[" ++
                toString j ++ "].alias",
              message := "alias contains restricted char '" ++
                String.singleton bad ++
                "' (use letters, digits, ., -, _)" }]
         | none => []
       | _ => []
     | _ => []) ++ restrictedAliasIssuesOf pIndex (j + 1) rest

def restrictedAliasIssues : Nat → List YNode → List ValidationIssue
  | _, [] => []
  | i, p :: rest =>
    (match p with
     | .map _ =>
       match p.get? "aliases" with
       | some (.seq als) => restrictedAliasIssuesOf i 0 als
       | _ => []
     | _ => []) ++ restrictedAliasIssues (i + 1) rest

/-- `_check_restricted_chars(document)`. -/
def _check_restricted_chars (doc : YNode) : List ValidationIssue :=
  restrictedResourceIssues (buildResourceLocations doc) ++
  (match doc.get? "perspectives" with
   | some (.seq ps) => restrictedAliasIssues 0 ps
   | _ => [])

/-- `validate_document(document, mode=...)`. -/
def validate_document (doc : YNode) (mode : VMode) : CheckResult :=
  { issues :=
      _check_duplicate_resource_ids doc ++
      _check_duplicate_perspective_ids doc ++
      _check_restricted_chars doc ++
      _check_broken_references doc mode }

lemma brokenRefMsg_inj {a b : String} (h : brokenRefMsg a = brokenRefMsg b) :
    a = b := by
  rw [brokenRefMsg, brokenRefMsg] at h
  have h' := congrArg String.data h
  simp only [String.data_append] at h'
  exact String.ext (List.append_cancel_left (List.append_cancel_right h'))

lemma componentLoop_namespaced (relative : Bool) :
    ∀ (l : List String) (comp : ReferenceComponent),
      comp ∈ componentLoop relative l →
      comp.namespaced = hasInfixSeq ("::".data) comp.token.data
  | [], comp, hc => by simp [componentLoop] at hc
  | rawComponent :: rest, comp, hc => by
    rw [componentLoop] at hc
    rcases List.mem_append.mp hc with h | h
    · by_cases h0 : pyStrip rawComponent = ""
      · simp [h0] at h
      · by_cases h1 : unwrapBracketToken (pyStrip rawComponent) = ""
        · simp [h0, h1] at h
        · simp only [if_neg h0, if_neg h1] at h
          rw [List.mem_singleton] at h
          subst h
          rfl
    · exact componentLoop_namespaced relative rest comp h

lemma parse_part_namespaced {part : String} {comp : ReferenceComponent}
    (hc : comp ∈ _parse_part_components part) :
    comp.namespaced = hasInfixSeq ("::".data) comp.token.data := by
  rw [_parse_part_components] at hc
  by_cases h0 : _strip_clone_suffix (pyStrip part) = ""
  · simp [h0] at hc
  · simp only [if_neg h0] at hc
    by_cases h1 : (stripRelGo (_strip_clone_suffix (pyStrip part)).data
        false).1.isEmpty
    · simp [h1] at hc
    · simp only [h1, Bool.false_eq_true, if_false] at hc
      exact componentLoop_namespaced _ _ comp hc

lemma partsLoop_namespaced {comp : ReferenceComponent} :
    ∀ (l : List String), comp ∈ partsLoop l →
      comp.namespaced = hasInfixSeq ("::".data) comp.token.data
  | [], hc => by simp [partsLoop] at hc
  | part :: rest, hc => by
    rw [partsLoop] at hc
    rcases List.mem_append.mp hc with h | h
    · exact parse_part_namespaced h
    · exact partsLoop_namespaced rest h

lemma parse_namespaced {raw : String} {comp : ReferenceComponent}
    (hc : comp ∈ parse_reference_components raw) :
    comp.namespaced = hasInfixSeq ("::".data) comp.token.data := by
  rw [parse_reference_components] at hc
  exact partsLoop_namespaced (split_reference_list raw) hc

lemma checkComponentsGo_mono (known aliases imports : List String)
    (mode : VMode) (path : String) :
    ∀ (comps : List ReferenceComponent) (emitted : List (String × String))
      (acc : List ValidationIssue) (x : ValidationIssue),
      x ∈ acc →
      x ∈ (checkComponentsGo known aliases imports mode path comps emitted
        acc).2
  | [], emitted, acc, x, hx => hx
  | comp :: rest, emitted, acc, x, hx => by
    rw [checkComponentsGo]
    split
    · exact checkComponentsGo_mono known aliases imports mode path rest
        emitted acc x hx
    · split
      · exact checkComponentsGo_mono known aliases imports mode path rest
          emitted acc x hx
      · split
        · exact checkComponentsGo_mono known aliases imports mode path rest
            emitted acc x hx
        · split
          · exact checkComponentsGo_mono known aliases imports mode path
              rest emitted acc x hx
          · exact checkComponentsGo_mono known aliases imports mode path
              rest _ _ x (List.mem_append_left _ hx)

/-- Invariant: every emitted `(path, token)` pair has its issue in the
accumulator already. -/
def EmittedInv (emitted : List (String × String))
    (acc : List ValidationIssue) : Prop :=
  ∀ pt ∈ emitted, mkBrokenIssue pt.1 pt.2 ∈ acc

lemma checkComponentsGo_inv (known aliases imports : List String)
    (mode : VMode) (path : String) :
    ∀ (comps : List ReferenceComponent) (emitted : List (String × String))
      (acc : List ValidationIssue),
      EmittedInv emitted acc →
      EmittedInv
        (checkComponentsGo known aliases imports mode path comps emitted
          acc).1
        (checkComponentsGo known aliases imports mode path comps emitted
          acc).2
  | [], emitted, acc, hinv => hinv
  | comp :: rest, emitted, acc, hinv => by
    rw [checkComponentsGo]
    split
    · exact checkComponentsGo_inv known aliases imports mode path rest
        emitted acc hinv
    · split
      · exact checkComponentsGo_inv known aliases imports mode path rest
          emitted acc hinv
      · split
        · exact checkComponentsGo_inv known aliases imports mode path rest
            emitted acc hinv
        · split
          · exact checkComponentsGo_inv known aliases imports mode path
              rest emitted acc hinv
          · apply checkComponentsGo_inv known aliases imports mode path
              rest
            intro pt hpt
            rcases List.mem_append.mp hpt with h | h
            · exact List.mem_append_left _ (hinv pt h)
            · rw [List.mem_singleton] at h
              subst h
              exact List.mem_append_right _ (List.mem_singleton.mpr rfl)

lemma checkComponentsGo_hit (known aliases imports : List String)
    (path : String) :
    ∀ (comps : List ReferenceComponent) (emitted : List (String × String))
      (acc : List ValidationIssue) (comp : ReferenceComponent),
      comp ∈ comps →
      EmittedInv emitted acc →
      comp.special = false → comp.wildcard = false →
      known.contains comp.token = false →
      aliases.contains comp.token = false →
      imports.contains (namespacePrefix comp.token) = false →
      mkBrokenIssue path comp.token ∈
        (checkComponentsGo known aliases imports .strict path comps emitted
          acc).2
  | [], emitted, acc, comp, hmem, _, _, _, _, _, _ => by simp at hmem
  | c :: rest, emitted, acc, comp, hmem, hinv, hsp, hwc, hkn, hal, him =>
    by
    rcases List.mem_cons.mp hmem with rfl | hmem'
    · rw [checkComponentsGo]
      rw [if_neg (by rw [hsp, hwc]; simp), if_neg (by rw [hkn, hal]; simp),
        if_neg (by
          rintro ⟨-, hb⟩
          rcases hb with hb | hb
          · rw [him] at hb; exact Bool.noConfusion hb
          · exact VMode.noConfusion hb)]
      by_cases hem : emitted.contains (path, comp.token) = true
      · rw [if_pos hem]
        have := hinv (path, comp.token) (by simpa using hem)
        exact checkComponentsGo_mono known aliases imports .strict path
          rest emitted acc _ this
      · rw [if_neg hem]
        apply checkComponentsGo_mono
        exact List.mem_append_right _ (List.mem_singleton.mpr rfl)
    · rw [checkComponentsGo]
      split
      · exact checkComponentsGo_hit known aliases imports path rest emitted
          acc comp hmem' hinv hsp hwc hkn hal him
      · split
        · exact checkComponentsGo_hit known aliases imports path rest
            emitted acc comp hmem' hinv hsp hwc hkn hal him
        · split
          · exact checkComponentsGo_hit known aliases imports path rest
              emitted acc comp hmem' hinv hsp hwc hkn hal him
          · split
            · exact checkComponentsGo_hit known aliases imports path rest
                emitted acc comp hmem' hinv hsp hwc hkn hal him
            · apply checkComponentsGo_hit known aliases imports path rest _
                _ comp hmem'
                (by
                  intro pt hpt
                  rcases List.mem_append.mp hpt with h | h
                  · exact List.mem_append_left _ (hinv pt h)
                  · rw [List.mem_singleton] at h
                    subst h
                    exact List.mem_append_right _
                      (List.mem_singleton.mpr rfl))
                hsp hwc hkn hal him

lemma checkBrokenGo_mono (doc : YNode) (known imports : List String)
    (mode : VMode) :
    ∀ (fields : List ReferenceField) (emitted : List (String × String))
      (acc : List ValidationIssue) (x : ValidationIssue),
      x ∈ acc →
      x ∈ checkBrokenGo doc known imports mode fields emitted acc
  | [], emitted, acc, x, hx => hx
  | f :: rest, emitted, acc, x, hx => by
    rw [checkBrokenGo]
    exact checkBrokenGo_mono doc known imports mode rest _ _ x
      (checkComponentsGo_mono known (aliasesOf doc f.perspective) imports
        mode f.path _ emitted acc x hx)

lemma checkBrokenGo_hit (doc : YNode) (known imports : List String) :
    ∀ (fields : List ReferenceField) (emitted : List (String × String))
      (acc : List ValidationIssue) (f : ReferenceField)
      (comp : ReferenceComponent),
      f ∈ fields →
      comp ∈ parse_reference_components f.value →
      EmittedInv emitted acc →
      comp.special = false → comp.wildcard = false →
      known.contains comp.token = false →
      (aliasesOf doc f.perspective).contains comp.token = false →
      imports.contains (namespacePrefix comp.token) = false →
      mkBrokenIssue f.path comp.token ∈
        checkBrokenGo doc known imports .strict fields emitted acc
  | [], _, _, f, comp, hmem, _, _, _, _, _, _, _ => by simp at hmem
  | g :: rest, emitted, acc, f, comp, hmem, hcomp, hinv, hsp, hwc, hkn,
      hal, him => by
    rcases List.mem_cons.mp hmem with rfl | hmem'
    · rw [checkBrokenGo]
      exact checkBrokenGo_mono doc known imports .strict rest _ _ _
        (checkComponentsGo_hit known (aliasesOf doc f.perspective) imports
          f.path _ emitted acc comp hcomp hinv hsp hwc hkn hal him)
    · rw [checkBrokenGo]
      exact checkBrokenGo_hit doc known imports rest _ _ f comp hmem'
        hcomp
        (checkComponentsGo_inv known (aliasesOf doc g.perspective) imports
          .strict g.path _ emitted acc hinv)
        hsp hwc hkn hal him

/-- An issue that is not a broken-reference report for `token₀`. -/
def NativeOk (token₀ : String) (issue : ValidationIssue) : Prop :=
  ¬ (issue.code = "broken-reference" ∧
     issue.message = brokenRefMsg token₀)

lemma checkComponentsGo_native (token₀ : String)
    (hns₀ : hasInfixSeq ("::".data) token₀.data = true)
    (known aliases imports : List String) (path : String) :
    ∀ (comps : List ReferenceComponent) (emitted : List (String × String))
      (acc : List ValidationIssue),
      (∀ c ∈ comps, c.namespaced = hasInfixSeq ("::".data) c.token.data) →
      (∀ i ∈ acc, NativeOk token₀ i) →
      ∀ i ∈ (checkComponentsGo known aliases imports .native path comps
        emitted acc).2, NativeOk token₀ i
  | [], emitted, acc, _, hacc => hacc
  | c :: rest, emitted, acc, hshape, hacc => by
    have hshape' : ∀ x ∈ rest,
        x.namespaced = hasInfixSeq ("::".data) x.token.data :=
      fun x hx => hshape x (List.mem_cons_of_mem _ hx)
    rw [checkComponentsGo]
    by_cases h1 : (c.special || c.wildcard) = true
    · rw [if_pos h1]
      exact checkComponentsGo_native token₀ hns₀ known aliases imports path
        rest emitted acc hshape' hacc
    · rw [if_neg h1]
      by_cases h2 : (known.contains c.token || aliases.contains c.token) =
          true
      · rw [if_pos h2]
        exact checkComponentsGo_native token₀ hns₀ known aliases imports
          path rest emitted acc hshape' hacc
      · rw [if_neg h2]
        by_cases h3 : (c.namespaced = true ∧
            (imports.contains (namespacePrefix c.token) = true ∨
             VMode.native = VMode.native))
        · rw [if_pos h3]
          exact checkComponentsGo_native token₀ hns₀ known aliases imports
            path rest emitted acc hshape' hacc
        · rw [if_neg h3]
          have hcn : c.namespaced = false := by
            by_cases hcn : c.namespaced = true
            · exact absurd ⟨hcn, Or.inr rfl⟩ h3
            · simpa using hcn
          by_cases h4 : emitted.contains (path, c.token) = true
          · rw [if_pos h4]
            exact checkComponentsGo_native token₀ hns₀ known aliases
              imports path rest emitted acc hshape' hacc
          · rw [if_neg h4]
            apply checkComponentsGo_native token₀ hns₀ known aliases
              imports path rest _ _ hshape'
            intro i hi
            rcases List.mem_append.mp hi with h | h
            · exact hacc i h
            · rw [List.mem_singleton] at h
              subst h
              rintro ⟨-, hmsg⟩
              have hteq : c.token = token₀ := brokenRefMsg_inj hmsg
              have := hshape c (List.mem_cons_self _ _)
              rw [hcn, hteq, hns₀] at this
              exact Bool.noConfusion this

lemma checkBrokenGo_native (doc : YNode) (known imports : List String)
    (token₀ : String)
    (hns₀ : hasInfixSeq ("::".data) token₀.data = true) :
    ∀ (fields : List ReferenceField) (emitted : List (String × String))
      (acc : List ValidationIssue),
      (∀ i ∈ acc, NativeOk token₀ i) →
      ∀ i ∈ checkBrokenGo doc known imports .native fields emitted acc,
        NativeOk token₀ i
  | [], emitted, acc, hacc => hacc
  | f :: rest, emitted, acc, hacc => by
    rw [checkBrokenGo]
    exact checkBrokenGo_native doc known imports token₀ hns₀ rest _ _
      (checkComponentsGo_native token₀ hns₀ known
        (aliasesOf doc f.perspective) imports f.path _ emitted acc
        (fun c hc => parse_namespaced hc) hacc)

lemma dup_resource_code (doc : YNode) :
    ∀ i ∈ _check_duplicate_resource_ids doc,
      i.code = "duplicate-resource-id" := by
  intro i hi
  rw [_check_duplicate_resource_ids] at hi
  simp only [List.mem_filterMap] at hi
  obtain ⟨x, hx, heq⟩ := hi
  by_cases hc : countOcc ((explicitResourceIds
      (buildResourceLocations doc)).map Prod.fst) x.1 ≤ 1
  · simp [hc] at heq
  · simp only [if_neg hc, Option.some.injEq] at heq
    rw [← heq]

lemma dup_perspective_code (doc : YNode) :
    ∀ i ∈ _check_duplicate_perspective_ids doc,
      i.code = "duplicate-perspective-id" := by
  intro i hi
  rw [_check_duplicate_perspective_ids] at hi
  revert hi
  cases hps : doc.get? "perspectives" with
  | none => intro hi; simp at hi
  | some v =>
    match v with
    | .seq ps =>
      intro hi
      simp only [List.mem_filterMap] at hi
      obtain ⟨x, hx, heq⟩ := hi
      by_cases hc : countOcc ((explicitPerspectiveIds 0 ps).map Prod.fst)
          x.1 ≤ 1
      · simp [hc] at heq
      · simp only [if_neg hc, Option.some.injEq] at heq
        rw [← heq]
    | .str s q => intro hi; simp at hi
    | .bool b => intro hi; simp at hi
    | .null => intro hi; simp at hi
    | .map es => intro hi; simp at hi

lemma restrictedResourceIssues_code :
    ∀ (locs : List ResourceLocation),
      ∀ i ∈ restrictedResourceIssues locs,
        i.code = "restricted-resource-id-char" ∨ i.code = "name-needs-id"
  | [] => by intro i hi; simp [restrictedResourceIssues] at hi
  | loc :: rest => by
    intro i hi
    rw [restrictedResourceIssues] at hi
    rcases List.mem_append.mp hi with h | h
    swap
    · exact restrictedResourceIssues_code rest i h
    rcases List.mem_append.mp h with h | h
    · cases hid : loc.node.get? "id" with
      | none => simp [hid] at h
      | some v =>
        cases v with
        | str s q =>
          cases hbad : _first_restricted_char s with
          | none => simp [hid, hbad] at h
          | some bad =>
            simp [hid, hbad] at h
            simp [h]
        | bool b => simp [hid] at h
        | null => simp [hid] at h
        | seq xs => simp [hid] at h
        | map es => simp [hid] at h
    · cases hname : loc.node.get? "name" with
      | none => simp [hname] at h
      | some v =>
        cases v with
        | str s q =>
          by_cases hk : loc.node.hasKey "id"
          · simp [hname, hk] at h
          · cases hbad : _first_restricted_char s with
            | none => simp [hname, hk, hbad] at h
            | some bad =>
              simp [hname, hk, hbad] at h
              simp [h]
        | bool b => simp [hname] at h
        | null => simp [hname] at h
        | seq xs => simp [hname] at h
        | map es => simp [hname] at h

lemma restrictedAliasIssuesOf_code (pIndex : Nat) :
    ∀ (j : Nat) (als : List YNode),
      ∀ i ∈ restrictedAliasIssuesOf pIndex j als,
        i.code = "restricted-alias-char"
  | _, [] => by intro i hi; simp [restrictedAliasIssuesOf] at hi
  | j, a :: rest => by
    intro i hi
    cases a with
    | map es =>
      rw [restrictedAliasIssuesOf] at hi
      rcases List.mem_append.mp hi with h | h
      · cases hv : (YNode.map es).get? "alias" with
        | none => simp [hv] at h
        | some v =>
          cases v with
          | str s q =>
            cases hbad : _first_restricted_char s with
            | none => simp [hv, hbad] at h
            | some bad =>
              simp [hv, hbad] at h
              simp [h]
          | bool b => simp [hv] at h
          | null => simp [hv] at h
          | seq xs => simp [hv] at h
          | map es' => simp [hv] at h
      · exact restrictedAliasIssuesOf_code pIndex (j + 1) rest i h
    | str s q =>
      simp only [restrictedAliasIssuesOf] at hi
      rcases List.mem_append.mp hi with h | h
      · simp at h
      · exact restrictedAliasIssuesOf_code pIndex (j + 1) rest i h
    | bool b =>
      simp only [restrictedAliasIssuesOf] at hi
      rcases List.mem_append.mp hi with h | h
      · simp at h
      · exact restrictedAliasIssuesOf_code pIndex (j + 1) rest i h
    | null =>
      simp only [restrictedAliasIssuesOf] at hi
      rcases List.mem_append.mp hi with h | h
      · simp at h
      · exact restrictedAliasIssuesOf_code pIndex (j + 1) rest i h
    | seq xs =>
      simp only [restrictedAliasIssuesOf] at hi
      rcases List.mem_append.mp hi with h | h
      · simp at h
      · exact restrictedAliasIssuesOf_code pIndex (j + 1) rest i h

lemma restrictedAliasIssues_code :
    ∀ (i0 : Nat) (ps : List YNode),
      ∀ i ∈ restrictedAliasIssues i0 ps, i.code = "restricted-alias-char"
  | _, [] => by intro i hi; simp [restrictedAliasIssues] at hi
  | i0, p :: rest => by
    intro i hi
    cases p with
    | map es =>
      rw [restrictedAliasIssues] at hi
      rcases List.mem_append.mp hi with h | h
      · cases hv : (YNode.map es).get? "aliases" with
        | none => simp [hv] at h
        | some v =>
          cases v with
          | seq als =>
            rw [hv] at h
            exact restrictedAliasIssuesOf_code i0 0 als i h
          | str s q => simp [hv] at h
          | bool b => simp [hv] at h
          | null => simp [hv] at h
          | map es' => simp [hv] at h
      · exact restrictedAliasIssues_code (i0 + 1) rest i h
    | str s q =>
      simp only [restrictedAliasIssues] at hi
      rcases List.mem_append.mp hi with h | h
      · simp at h
      · exact restrictedAliasIssues_code (i0 + 1) rest i h
    | bool b =>
      simp only [restrictedAliasIssues] at hi
      rcases List.mem_append.mp hi with h | h
      · simp at h
      · exact restrictedAliasIssues_code (i0 + 1) rest i h
    | null =>
      simp only [restrictedAliasIssues] at hi
      rcases List.mem_append.mp hi with h | h
      · simp at h
      · exact restrictedAliasIssues_code (i0 + 1) rest i h
    | seq xs =>
      simp only [restrictedAliasIssues] at hi
      rcases List.mem_append.mp hi with h | h
      · simp at h
      · exact restrictedAliasIssues_code (i0 + 1) rest i h

lemma restricted_code (doc : YNode) :
    ∀ i ∈ _check_restricted_chars doc, i.code ≠ "broken-reference" := by
  intro i hi
  rw [_check_restricted_chars] at hi
  rcases List.mem_append.mp hi with h | h
  · rcases restrictedResourceIssues_code _ i h with hc | hc <;>
      simp [hc]
  · revert h
    cases hps : doc.get? "perspectives" with
    | none => intro h; simp at h
    | some v =>
      match v with
      | .seq ps =>
        intro h
        have := restrictedAliasIssues_code 0 ps i h
        simp [this]
      | .str s q => intro h; simp at h
      | .bool b => intro h; simp at h
      | .null => intro h; simp at h
      | .map es => intro h; simp at h

/-- **C4.** For every document containing an unresolved imported-namespace
reference token (a component with `::` in its token that is neither
special nor a wildcard, not among the known identifiers or the
perspective's aliases, and whose namespace prefix is not an import
namespace), `validate_document` in strict mode reports a broken-reference
issue for that token at the field's path, and `validate_document` in
ilograph-native mode reports no issue for it. -/
theorem c4_namespaced_reference_modes
    (doc : YNode) (f : ReferenceField) (comp : ReferenceComponent)
    (hf : f ∈ iter_reference_fields doc false)
    (hc : comp ∈ parse_reference_components f.value)
    (hns : comp.namespaced = true)
    (hsp : comp.special = false) (hwc : comp.wildcard = false)
    (hkn : (_collect_known_identifiers doc).contains comp.token = false)
    (hal : (aliasesOf doc f.perspective).contains comp.token = false)
    (him : (_build_import_namespaces doc).contains
      (namespacePrefix comp.token) = false) :
    mkBrokenIssue f.path comp.token ∈
      (validate_document doc .strict).issues ∧
    ∀ issue ∈ (validate_document doc .native).issues,
      ¬ (issue.code = "broken-reference" ∧
         issue.message = brokenRefMsg comp.token) := by
  have hinf : hasInfixSeq ("::".data) comp.token.data = true := by
    rw [← parse_namespaced hc]
    exact hns
  constructor
  · show mkBrokenIssue f.path comp.token ∈
      (_check_duplicate_resource_ids doc ++
        _check_duplicate_perspective_ids doc ++
        _check_restricted_chars doc) ++
      _check_broken_references doc .strict
    apply List.mem_append_right
    exact checkBrokenGo_hit doc _ _ _ [] [] f comp hf hc
      (fun pt hpt => by simp at hpt) hsp hwc hkn hal him
  · intro issue hiss
    rcases List.mem_append.mp hiss with h | h
    · rcases List.mem_append.mp h with h | h
      · rcases List.mem_append.mp h with h | h
        · have hcode := dup_resource_code doc issue h
          rintro ⟨hb, -⟩
          rw [hcode] at hb
          exact (by decide :
            ("duplicate-resource-id" : String) ≠ "broken-reference") hb
        · have hcode := dup_perspective_code doc issue h
          rintro ⟨hb, -⟩
          rw [hcode] at hb
          exact (by decide :
            ("duplicate-perspective-id" : String) ≠ "broken-reference") hb
      · have hcode := restricted_code doc issue h
        rintro ⟨hb, -⟩
        exact hcode hb
    · exact checkBrokenGo_native doc _ _ comp.token hinf _ [] []
        (fun i hi => by simp at hi) issue h

/-- The C4 witness document: one resource `app`, one perspective with a
relation from `app` to the unresolved namespaced token `Ext::Thing`, and
no imports. -/
def c4Doc : YNode :=
  .map [("resources", .seq [.map [("id", .str "app" false)]]),
        ("perspectives", .seq [.map [("id", .str "p" false),
          ("relations", .seq [.map [("from", .str "app" false),
            ("to", .str "Ext::Thing" false)]])]])]

def c4Field : ReferenceField :=
  { value := "Ext::Thing", path := "perspectives[0].relations[0].to",
    perspective := some "p", sectionName := "relations" }

def c4Comp : ReferenceComponent :=
  { token := "Ext::Thing", raw := "Ext::Thing", relative := false,
    wildcard := false, namespaced := true, special := false }

set_option maxRecDepth 40000 in
unseal iterResources iterResourceRefFields stepsRefFields splitPathGo
  stripRelGo in
/-- Witness for C4: on `c4Doc`, strict validation reports the
broken-reference issue for `Ext::Thing` and native validation reports no
issue for it. -/
theorem c4_namespaced_reference_modes_witness :
    mkBrokenIssue c4Field.path c4Comp.token ∈
      (validate_document c4Doc .strict).issues ∧
    ∀ issue ∈ (validate_document c4Doc .native).issues,
      ¬ (issue.code = "broken-reference" ∧
         issue.message = brokenRefMsg c4Comp.token) :=
  c4_namespaced_reference_modes c4Doc c4Field c4Comp (by decide)
    (by decide) (by decide) (by decide) (by decide) (by decide)
    (by decide) (by decide)

/-! ### The mutation runner (`cli_support.py`)

The runner's control flow is embedded with the document as `YNode` and
the file as a `String` of bytes.  The external helpers it calls —
`load_document`, `dump_document`, `restore_document_anchors` (with its
snapshot taken before the mutation), and
`restore_style_only_replacements` — are universally quantified function
parameters: the claims under check are about the runner's ordering and
guarding, not about those helpers. -/

/-- The console outcomes `_run_once` can report on success. -/
inductive RunOutcome where
  | noChangeHint
  | noDiff
  | dryRunPreview
  | updated
deriving Repr, DecidableEq

/-- The message built by `_ensure_document_valid_for_write` (preview limit
8). -/
def ensureValidMsg (issues : List ValidationIssue) : String :=
  String.intercalate "\n"
    (("mutation would produce invalid document (" ++
        toString issues.length ++ " issue(s), strict mode):") ::
      ((issues.take 8).map
        (fun i => "- " ++ i.code ++ " at " ++ i.path ++ ": " ++ i.message) ++
       (if issues.length > 8 then
         ["- ... and " ++ toString (issues.length - 8) ++ " more"]
        else [])))

/-- `_ensure_document_valid_for_write(document)`. -/
def _ensure_document_valid_for_write (document : YNode) :
    Except ValErr Unit :=
  let issues := (validate_document document .strict).issues
  if issues.isEmpty then .ok ()
  else .error (ensureValidMsg issues)

/-- Modelled from the spec: `write_text_atomic(path, text,
expected_before)` is a compare-and-swap — the file's current content is
compared against `expected_before`, and only when unchanged is `text`
written to a temporary file and renamed over the target.  With the disk
as a `String`, temp-write-then-rename means the result is all-or-nothing:
either the write fails (concurrent external edit detected, the file keeps
its current content) or the file becomes exactly `text`. -/
def write_text_atomic (disk text expectedBefore : String) :
    Except ValErr String :=
  if disk = expectedBefore then .ok text
  else .error
    "concurrent modification detected (file changed since read; re-run the command)"

/-- `MutationRunner._run_once`, with `diskAtRead` the file content at
`read_text` time and `diskAtWrite` the content at `write_text_atomic`
time (they differ exactly when a concurrent external edit happened).
Returns the outcome and the final file content. -/
def _run_once (load : String → Except ValErr YNode)
    (dump : YNode → String)
    (restoreAnchors : YNode → YNode → YNode)
    (restoreStyle : String → String → String)
    (mutator : YNode → Except ValErr (YNode × Option Bool))
    (dryRun : Bool) (diskAtRead diskAtWrite : String) :
    Except ValErr RunOutcome × String :=
  match load diskAtRead with
  | .error e => (.error e, diskAtWrite)
  | .ok document =>
    match mutator document with
    | .error e => (.error e, diskAtWrite)
    | .ok (mutated, changedHint) =>
      if changedHint = some false then (.ok .noChangeHint, diskAtWrite)
      else
        let restored := restoreAnchors document mutated
        match _ensure_document_valid_for_write restored with
        | .error e => (.error e, diskAtWrite)
        | .ok _ =>
          let after := restoreStyle diskAtRead (dump restored)
          if diskAtRead = after then (.ok .noDiff, diskAtWrite)
          else if dryRun then (.ok .dryRunPreview, diskAtWrite)
          else
            match write_text_atomic diskAtWrite after diskAtRead with
            | .ok newDisk => (.ok .updated, newDisk)
            | .error e => (.error e, diskAtWrite)

/-- **C1.** For every mutating command, if the mutation leaves the
in-memory document failing strict validation, the command raises an error
before serializing (the result does not depend on the dump or style
helpers) and nothing is persisted: the file's bytes are exactly what they
were before the attempt. -/
theorem c1_invalid_mutation_not_persisted
    (load : String → Except ValErr YNode) (dump : YNode → String)
    (restoreAnchors : YNode → YNode → YNode)
    (restoreStyle : String → String → String)
    (mutator : YNode → Except ValErr (YNode × Option Bool))
    (dryRun : Bool) (disk : String) (document mutated : YNode)
    (hint : Option Bool)
    (hload : load disk = .ok document)
    (hmut : mutator document = .ok (mutated, hint))
    (hhint : hint ≠ some false)
    (hbad : (validate_document (restoreAnchors document mutated)
      .strict).issues ≠ []) :
    _run_once load dump restoreAnchors restoreStyle mutator dryRun disk
        disk =
      (.error (ensureValidMsg (validate_document
        (restoreAnchors document mutated) .strict).issues), disk) := by
  simp only [_run_once, hload, hmut]
  rw [if_neg hhint]
  simp only [_ensure_document_valid_for_write]
  rw [if_neg (by simpa using hbad)]

/-- **C8.** When a mutating command reaches its final write, the write
happens only if the file's current content equals the content loaded at
the start: under a concurrent external edit the write fails and the file
is left exactly as the external edit wrote it; without one the file
becomes exactly the serialized text (all-or-nothing via
write-to-temp-then-rename). -/
theorem c8_compare_and_swap_write
    (load : String → Except ValErr YNode) (dump : YNode → String)
    (restoreAnchors : YNode → YNode → YNode)
    (restoreStyle : String → String → String)
    (mutator : YNode → Except ValErr (YNode × Option Bool))
    (diskAtRead diskAtWrite : String) (document mutated : YNode)
    (hint : Option Bool)
    (hload : load diskAtRead = .ok document)
    (hmut : mutator document = .ok (mutated, hint))
    (hhint : hint ≠ some false)
    (hok : (validate_document (restoreAnchors document mutated)
      .strict).issues = [])
    (hdiff : diskAtRead ≠
      restoreStyle diskAtRead (dump (restoreAnchors document mutated))) :
    (diskAtWrite ≠ diskAtRead →
      _run_once load dump restoreAnchors restoreStyle mutator false
          diskAtRead diskAtWrite =
        (.error "concurrent modification detected (file changed since read; re-run the command)",
         diskAtWrite)) ∧
    (diskAtWrite = diskAtRead →
      _run_once load dump restoreAnchors restoreStyle mutator false
          diskAtRead diskAtWrite =
        (.ok .updated,
         restoreStyle diskAtRead (dump (restoreAnchors document mutated)))) := by
  constructor
  · intro hne
    simp only [_run_once, hload, hmut]
    rw [if_neg hhint]
    simp only [_ensure_document_valid_for_write]
    rw [if_pos (by simp [hok])]
    simp only []
    rw [if_neg hdiff]
    rw [if_neg (by simp : ¬ (false = true))]
    rw [write_text_atomic, if_neg hne]
  · intro heq
    simp only [_run_once, hload, hmut]
    rw [if_neg hhint]
    simp only [_ensure_document_valid_for_write]
    rw [if_pos (by simp [hok])]
    simp only []
    rw [if_neg hdiff]
    rw [if_neg (by simp : ¬ (false = true))]
    rw [write_text_atomic, if_pos heq]

/-- A mutation result with a broken reference (`from: unknown_x`). -/
def c1BadDoc : YNode :=
  .map [("perspectives", .seq [.map [("id", .str "p" false),
    ("relations", .seq [.map [("from", .str "unknown_x" false)]])]])]

set_option maxRecDepth 40000 in
unseal iterResources iterResourceRefFields stepsRefFields splitPathGo
  stripRelGo in
/-- Witness for C1: a mutator that rewrites the empty document into one
with a broken reference is rejected with the strict-validation message and
the disk content `"x"` is untouched, for a concrete dump function. -/
theorem c1_invalid_mutation_not_persisted_witness :
    _run_once (fun _ => .ok (.map [])) (fun _ => "dumped")
        (fun _ m => m) (fun _ a => a) (fun _ => .ok (c1BadDoc, none))
        false "x" "x" =
      (.error (ensureValidMsg
        (validate_document c1BadDoc .strict).issues), "x") :=
  c1_invalid_mutation_not_persisted (fun _ => .ok (.map []))
    (fun _ => "dumped") (fun _ m => m) (fun _ a => a)
    (fun _ => .ok (c1BadDoc, none)) false "x" (.map []) c1BadDoc none
    rfl rfl (by decide) (by decide)

set_option maxRecDepth 40000 in
unseal iterResources iterResourceRefFields stepsRefFields splitPathGo
  stripRelGo in
/-- Witness for C8: with the file read as `"old"` and the dump producing
`"new"`, a concurrent edit to `"tampered"` makes the write fail and
leaves `"tampered"` on disk; without the edit the file becomes
`"new"`. -/
theorem c8_compare_and_swap_write_witness :
    _run_once (fun _ => .ok (.map [])) (fun _ => "new") (fun _ m => m)
        (fun _ a => a) (fun d => .ok (d, none)) false "old" "tampered" =
      (.error "concurrent modification detected (file changed since read; re-run the command)",
       "tampered") ∧
    _run_once (fun _ => .ok (.map [])) (fun _ => "new") (fun _ m => m)
        (fun _ a => a) (fun d => .ok (d, none)) false "old" "old" =
      (.ok .updated, "new") :=
  ⟨(c8_compare_and_swap_write (fun _ => .ok (.map [])) (fun _ => "new")
      (fun _ m => m) (fun _ a => a) (fun d => .ok (d, none)) "old"
      "tampered" (.map []) (.map []) none rfl rfl (by decide) (by decide)
      (by decide)).1 (by decide),
   (c8_compare_and_swap_write (fun _ => .ok (.map [])) (fun _ => "new")
      (fun _ m => m) (fun _ a => a) (fun d => .ok (d, none)) "old" "old"
      (.map []) (.map []) none rfl rfl (by decide) (by decide)
      (by decide)).2 rfl⟩

end IlographCli
